import Mathlib

/-!
# claircore: indexer store and distributed lock

A shallow embedding of the PostgreSQL-backed indexer store
(`internal/indexer/postgres`) and of the advisory-lock based distributed lock
(`pkg/distlock/postgres`), with the properties of the specification proved or
refuted over it.

Conventions of the embedding.

* A relation is the list of its rows, in storage order.  A `SELECT` is a
  `List.filter` over that list, `QueryRow(...).Scan` reads the first row of the
  result and answers `pgx.ErrNoRows` when there is none.
* Every round trip to the server consumes one scripted answer of the pool
  (`Pool.faults`): `true` makes that round trip fail with a connection error.
  An exhausted script means a healthy connection.  `Pool.calls` counts the
  round trips issued.
* A Go function returning `(v, error)` is a Lean function returning
  `(v × Option Error)`, paired with the pool after the call.
-/

namespace Claircore

/-! ## Values -/

/-- Modelled from the spec: `claircore.Digest` is declared outside the indexed
sources.  It is "an opaque, content-derived fixed-format identifier (a
cryptographic hash with an algorithm tag)"; equality is byte-exact. -/
structure Digest where
  algo : String
  checksum : List Nat
  deriving DecidableEq

/-- Lower-case hexadecimal digit of a nibble. -/
def hexDigit (n : Nat) : Char :=
  if n % 16 < 10 then Char.ofNat (48 + n % 16) else Char.ofNat (87 + n % 16)

/-- Hexadecimal rendering of a byte string. -/
def hexEncode : List Nat → List Char
  | [] => []
  | b :: bs => hexDigit (b / 16) :: hexDigit b :: hexEncode bs

/-- Textual form `algo:hex` of a digest held in a Go variable.  The zero value of the
Go type, which is what a variable keeps when a SQL `NULL` is scanned into it,
is `none` and renders as the empty string. -/
def digestString : Option Digest → String
  | none => ""
  | some d => String.mk (d.algo.data ++ ':' :: hexEncode d.checksum)

/-- The identity triple of an `indexer.VersionedScanner`. -/
structure VersionedScanner where
  Name : String
  Version : String
  Kind : String
  deriving DecidableEq

/-- Modelled from the spec: `claircore.IndexReport` is declared outside the
indexed sources.  It is "an opaque aggregate document keyed 1:1 by manifest
digest"; `body` stands for everything in the document but its key. -/
structure IndexReport where
  Hash : Digest
  body : String
  deriving DecidableEq

/-! ## Errors -/

/-- Errors produced by the driver and the server. -/
inductive PgErr where
  /-- Value of `pgx.ErrNoRows`: `QueryRow(...).Scan` found no row. -/
  | ErrNoRows
  /-- Transient connectivity or query failure of a round trip. -/
  | connFailure
  /-- Unique or primary-key constraint violated by an `INSERT`. -/
  | uniqueViolation
  /-- Scalar subquery returned more than one row. -/
  | cardinalityViolation
  /-- SQL `NULL` scanned into a Go variable that cannot hold it. -/
  | scanNull
  /-- Value of `pgx.ErrTxClosed`: commit of a transaction that has already ended. -/
  | ErrTxClosed
  deriving DecidableEq

/-- Go `error` values built by the embedded functions. -/
inductive Error where
  /-- Driver error returned unwrapped. -/
  | pg (e : PgErr)
  /-- Value of `fmt.Errorf(format)` with no error operand. -/
  | errorf (format : String)
  /-- Value of `fmt.Errorf(format, ..., err)` formatting `err` with `%v`. -/
  | wrap (format : String) (cause : Error)
  deriving DecidableEq

/-! ## The database -/

/-- Row of `scanner(id, name, version, kind)`. -/
structure ScannerRow where
  id : Int
  name : String
  version : String
  kind : String
  deriving DecidableEq

/-- Row of `scanned_layer(layer_hash, scanner_id)`. -/
structure ScannedLayerRow where
  layer_hash : Digest
  scanner_id : Int
  deriving DecidableEq

/-- Row of `scanned_manifest(manifest_hash, scanner_id)`. -/
structure ScannedManifestRow where
  manifest_hash : Digest
  scanner_id : Int
  deriving DecidableEq

/-- Row of `indexreport(manifest_hash PRIMARY KEY, scan_result)`. -/
structure IndexReportRow where
  manifest_hash : Digest
  scan_result : IndexReport
  deriving DecidableEq

/-- Row of `package`; `norm_kind` and `norm_version` are nullable, and a stored
array may hold `NULL` elements. -/
structure PackageRow where
  id : Int
  name : String
  kind : String
  version : String
  norm_kind : Option String
  norm_version : Option (List (Option Int))
  module : String
  arch : String
  deriving DecidableEq

/-- Row of `package_scanartifact`. -/
structure PackageScanArtifactRow where
  layer_hash : Digest
  package_id : Int
  source_id : Int
  scanner_id : Int
  package_db : String
  repository_hint : String
  deriving DecidableEq

/-- Row of `dist`. -/
structure DistRow where
  id : Int
  name : String
  did : String
  version : String
  version_code_name : String
  version_id : String
  arch : String
  cpe : String
  pretty_name : String
  deriving DecidableEq

/-- Row of `dist_scanartifact`. -/
structure DistScanArtifactRow where
  layer_hash : Digest
  dist_id : Int
  scanner_id : Int
  deriving DecidableEq

/-- Row of `repo`. -/
structure RepoRow where
  id : Int
  name : String
  key : String
  uri : String
  deriving DecidableEq

/-- Row of `repo_scanartifact`. -/
structure RepoScanArtifactRow where
  layer_hash : Digest
  repo_id : Int
  scanner_id : Int
  deriving DecidableEq

/-- Committed contents of the relations the indexer store reads and writes.
`scanner_id_seq` is the last value handed out by the sequence behind
`scanner.id`. -/
structure DB where
  scanner : List ScannerRow
  scanner_id_seq : Int
  scanned_layer : List ScannedLayerRow
  scanned_manifest : List ScannedManifestRow
  indexreport : List IndexReportRow
  package : List PackageRow
  package_scanartifact : List PackageScanArtifactRow
  dist : List DistRow
  dist_scanartifact : List DistScanArtifactRow
  repo : List RepoRow
  repo_scanartifact : List RepoScanArtifactRow
  deriving DecidableEq

/-- Database with no rows. -/
def DB.empty : DB :=
  { scanner := [], scanner_id_seq := 0, scanned_layer := [], scanned_manifest := [],
    indexreport := [], package := [], package_scanartifact := [], dist := [],
    dist_scanartifact := [], repo := [], repo_scanartifact := [] }

/-- Connection pool: the committed database, the scripted answers of the
coming round trips (`true` = the round trip fails) and the number of round
trips issued so far. -/
structure Pool where
  db : DB
  faults : List Bool
  calls : Nat
  deriving DecidableEq

/-- Pool over `db` with a healthy connection and no round trip issued. -/
def Pool.healthy (db : DB) : Pool := { db := db, faults := [], calls := 0 }

/-- One round trip: reports whether it failed and consumes its scripted answer. -/
def Pool.roundTrip (p : Pool) : Bool × Pool :=
  match p.faults with
  | [] => (false, { p with calls := p.calls + 1 })
  | f :: fs => (f, { p with faults := fs, calls := p.calls + 1 })

/-- Rows answering `SELECT id FROM scanner WHERE name = $1 AND version = $2 AND kind = $3`. -/
def selectScanner (db : DB) (s : VersionedScanner) : List ScannerRow :=
  db.scanner.filter (fun r => r.name = s.Name ∧ r.version = s.Version ∧ r.kind = s.Kind)

/-- Result of `pool.QueryRow(ctx, selectScanner, Name, Version, Kind).Scan(&id)`. -/
def queryRowScanner (p : Pool) (s : VersionedScanner) : Except PgErr Int × Pool :=
  let rt := p.roundTrip
  if rt.1 then (.error .connFailure, rt.2)
  else
    match selectScanner rt.2.db s with
    | [] => (.error .ErrNoRows, rt.2)
    | r :: _ => (.ok r.id, rt.2)

/-- The loop resolving every scanner of `scnrs` to its id, appending to `acc`
and stopping at the first failing lookup, whose error is wrapped with the
calling function's `format`. -/
def scannerIDsLoop (format : String) :
    Pool → List VersionedScanner → List Int → Except Error (List Int) × Pool
  | p, [], acc => (.ok acc, p)
  | p, s :: rest, acc =>
    match queryRowScanner p s with
    | (.error e, p1) => (.error (.wrap format (.pg e)), p1)
    | (.ok id, p1) => scannerIDsLoop format p1 rest (acc ++ [id])

/-! ## Transactions -/

/-- Open transaction: its private view of the database. -/
structure Tx where
  work : DB
  deriving DecidableEq

/-- Result of `pool.Begin(ctx)`. -/
def Pool.Begin (p : Pool) : Except PgErr Tx × Pool :=
  let rt := p.roundTrip
  if rt.1 then (.error .connFailure, rt.2) else (.ok { work := rt.2.db }, rt.2)

/-- Result of `tx.Commit(ctx)`: a failed commit publishes nothing. -/
def Tx.Commit (tx : Tx) (p : Pool) : Option PgErr × Pool :=
  let rt := p.roundTrip
  if rt.1 then (some .connFailure, rt.2) else (none, { rt.2 with db := tx.work })

/-- Result of `tx.Rollback(ctx)` on an open transaction: its view is discarded,
whatever the round trip answers. -/
def Tx.Rollback (_tx : Tx) (p : Pool) : Pool := p.roundTrip.2

/-- Statement `INSERT INTO scanned_manifest (manifest_hash, scanner_id) VALUES ($1, $2)`
run by `tx.Exec`.  The schema is declared outside the indexed sources; modelled
from the spec, `scanned_manifest` holds "presence facts, unique per pair", so
the insert of a pair that is present fails with a unique violation. -/
def Tx.insertManifestScanned (tx : Tx) (p : Pool) (hash : Digest) (id : Int) :
    Except PgErr Tx × Pool :=
  let rt := p.roundTrip
  if rt.1 then (.error .connFailure, rt.2)
  else if (⟨hash, id⟩ : ScannedManifestRow) ∈ tx.work.scanned_manifest then
    (.error .uniqueViolation, rt.2)
  else
    (.ok { work := { tx.work with
      scanned_manifest := tx.work.scanned_manifest ++ [⟨hash, id⟩] } }, rt.2)

/-- Effect on the relation of `INSERT INTO indexreport ... ON CONFLICT (manifest_hash)
DO UPDATE SET scan_result = excluded.scan_result`. -/
def upsertRow (hash : Digest) (doc : IndexReport) : List IndexReportRow → List IndexReportRow
  | [] => [⟨hash, doc⟩]
  | r :: rs => if r.manifest_hash = hash then ⟨hash, doc⟩ :: rs else r :: upsertRow hash doc rs

/-- The `upsertIndexReport` statement run by `tx.Exec`. -/
def Tx.upsertIndexReport (tx : Tx) (p : Pool) (hash : Digest) (doc : IndexReport) :
    Except PgErr Tx × Pool :=
  let rt := p.roundTrip
  if rt.1 then (.error .connFailure, rt.2)
  else (.ok { work := { tx.work with indexreport := upsertRow hash doc tx.work.indexreport } }, rt.2)

/-! ## `setScanFinished` -/

/-- The loop linking every resolved scanner id with the manifest inside the
transaction. -/
def linkLoop (hash : Digest) : Tx → Pool → List Int → Except PgErr Tx × Pool
  | tx, p, [] => (.ok tx, p)
  | tx, p, id :: ids =>
    match tx.insertManifestScanned p hash id with
    | (.error e, p1) => (.error e, p1)
    | (.ok tx1, p1) => linkLoop hash tx1 p1 ids

/-- Embedding of `setScanFinished` (setindexfinished.go). -/
def setScanFinished (p : Pool) (sr : IndexReport) (scnrs : List VersionedScanner) :
    Option Error × Pool :=
  match scannerIDsLoop "store:storeManifest failed to select package scanner id: %v" p scnrs [] with
  | (.error e, p1) => (some e, p1)
  | (.ok scannerIDs, p1) =>
    match p1.Begin with
    | (.error e, p2) =>
      (some (.wrap "store:setScannerList failed to create transaction for hash %v: %v" (.pg e)), p2)
    | (.ok tx, p2) =>
      match linkLoop sr.Hash tx p2 scannerIDs with
      | (.error e, p3) =>
        (some (.wrap "store:storeManifest failed to link manifest with scanner list: %v" (.pg e)),
          tx.Rollback p3)
      | (.ok tx1, p3) =>
        match tx1.upsertIndexReport p3 sr.Hash sr with
        | (.error e, p4) =>
          (some (.wrap "failed to upsert scan result: %v" (.pg e)), tx1.Rollback p4)
        | (.ok tx2, p4) =>
          match tx2.Commit p4 with
          | (some e, p5) => (some (.wrap "failed to commit transaction: %v" (.pg e)), p5)
          | (none, p5) => (none, p5)

/-! ## `manifestScanned` -/

/-- Rows answering `SELECT scanner_id FROM scanned_manifest WHERE manifest_hash = $1`. -/
def selectScanned (db : DB) (hash : Digest) : List Int :=
  (db.scanned_manifest.filter (fun r => r.manifest_hash = hash)).map (fun r => r.scanner_id)

/-- Result of `pool.Query(ctx, selectScanned, hash)` read to its end; a failure of
the query or of the row stream is the one error the caller returns unwrapped. -/
def querySelectScanned (p : Pool) (hash : Digest) : Except PgErr (List Int) × Pool :=
  let rt := p.roundTrip
  if rt.1 then (.error .connFailure, rt.2) else (.ok (selectScanned rt.2.db hash), rt.2)

/-- The Go map `foundIDs` used as a set: `foundIDs[id] = struct{}{}` for every row. -/
def foundIDsOf : List Int → List Int
  | [] => []
  | id :: rest => if id ∈ foundIDsOf rest then foundIDsOf rest else id :: foundIDsOf rest

/-- The final loop of `manifestScanned`: a lookup miss answers `false`. -/
def allFound (foundIDs : List Int) : List Int → Bool
  | [] => true
  | id :: rest => if id ∈ foundIDs then allFound foundIDs rest else false

/-- Embedding of `manifestScanned` (manifestscanned.go). -/
def manifestScanned (p : Pool) (hash : Digest) (scnrs : List VersionedScanner) :
    (Bool × Option Error) × Pool :=
  match scannerIDsLoop
      "store:manifestScanned failed to retrieve expected scanner id for scnr %v: %v" p scnrs [] with
  | (.error e, p1) => ((false, some e), p1)
  | (.ok expectedIDs, p1) =>
    match querySelectScanned p1 hash with
    | (.error e, p2) => ((false, some (.pg e)), p2)
    | (.ok rows, p2) =>
      let foundIDs := foundIDsOf rows
      if foundIDs.length = 0 then ((false, none), p2)
      else if allFound foundIDs expectedIDs then ((true, none), p2)
      else ((false, none), p2)

/-! ## `indexReport` -/

/-- Rows answering `SELECT scan_result FROM indexreport WHERE manifest_hash = $1`. -/
def selectIndexReport (db : DB) (hash : Digest) : List IndexReport :=
  (db.indexreport.filter (fun r => r.manifest_hash = hash)).map (fun r => r.scan_result)

/-- Embedding of `indexReport` (indexreport.go): the report, the `found` flag
and the error. -/
def indexReport (p : Pool) (hash : Digest) : (Option IndexReport × Bool × Option Error) × Pool :=
  let rt := p.roundTrip
  if rt.1 then
    ((none, false, some (.wrap "store:indexReport failed to retrieve scanResult: %v"
      (.pg .connFailure))), rt.2)
  else
    match selectIndexReport rt.2.db hash with
    | [] => ((none, false, none), rt.2)
    | jsr :: _ => ((some jsr, true, none), rt.2)

/-! ## `layerScanned` -/

/-- Rows answering the scalar subquery of `selectScanned` in layerscanned.go,
`SELECT layer_hash FROM scanned_layer WHERE layer_hash = $1 AND scanner_id = scanner_id`.
Both sides of the second comparison are the unqualified name `scanner_id`; inside
the subquery that name is the column of `scanned_layer`, the one relation of its
`FROM` clause, so each row is compared with itself.  (The alias `id AS scanner_id`
of the enclosing select list is an output name and is not in scope in an
expression.) -/
def layerHashSubquery (db : DB) (hash : Digest) : List Digest :=
  (db.scanned_layer.filter
    (fun r => r.layer_hash = hash ∧ r.scanner_id = r.scanner_id)).map (fun r => r.layer_hash)

/-- Value of a scalar subquery: `NULL` for no row, the value for one row, an
error for more. -/
def scalarSubquery : List Digest → Except PgErr (Option Digest)
  | [] => .ok none
  | [d] => .ok (some d)
  | _ :: _ :: _ => .error .cardinalityViolation

/-- Result of `pool.QueryRow(ctx, selectScanned, hash, Name, Version, Kind)
.Scan(&scannerID, &layerHash)`: the first row of the outer select over `scanner`,
with the `CASE` column computed for it (`id` is never null, so the `CASE` always
takes its `THEN` branch). -/
def queryRowLayerScanned (p : Pool) (hash : Digest) (scnr : VersionedScanner) :
    Except PgErr (Int × Option Digest) × Pool :=
  let rt := p.roundTrip
  if rt.1 then (.error .connFailure, rt.2)
  else
    match selectScanner rt.2.db scnr with
    | [] => (.error .ErrNoRows, rt.2)
    | r :: _ =>
      match scalarSubquery (layerHashSubquery rt.2.db hash) with
      | .error e => (.error e, rt.2)
      | .ok layerHash => (.ok (r.id, layerHash), rt.2)

/-- Embedding of `layerScanned` (layerscanned.go). -/
def layerScanned (p : Pool) (hash : Digest) (scnr : VersionedScanner) :
    (Bool × Option Error) × Pool :=
  match queryRowLayerScanned p hash scnr with
  | (.error .ErrNoRows, p1) =>
    ((false, some (.errorf "scanner name and version not found in store")), p1)
  | (.error e, p1) => ((false, some (.pg e)), p1)
  | (.ok (_, layerHash), p1) =>
    if digestString layerHash = "" then ((false, none), p1) else ((true, none), p1)

/-! ## `registerScanners` -/

/-- Value of a Go `sql.NullInt64`. -/
structure NullInt64 where
  Int64 : Int
  Valid : Bool
  deriving DecidableEq

/-- The first loop of `registerScanners`: `ids[i]` is filled by a lookup that
succeeds and keeps its zero value otherwise; the error of a failing lookup is
formatted and dropped. -/
def lookupLoop : Pool → List VersionedScanner → List NullInt64 × Pool
  | p, [] => ([], p)
  | p, s :: rest =>
    match queryRowScanner p s with
    | (.error _, p1) => let r := lookupLoop p1 rest; (⟨0, false⟩ :: r.1, r.2)
    | (.ok id, p1) => let r := lookupLoop p1 rest; (⟨id, true⟩ :: r.1, r.2)

/-- Statement `INSERT INTO scanner (name, version, kind) VALUES ($1, $2, $3)
ON CONFLICT (name, version, kind) DO NOTHING` run by `pool.Exec`.  The default of
`id` is drawn from the sequence before the conflict is detected, so the sequence
advances even when no row is inserted. -/
def execInsertScanner (p : Pool) (s : VersionedScanner) : Option PgErr × Pool :=
  let rt := p.roundTrip
  if rt.1 then (some .connFailure, rt.2)
  else
    let id := rt.2.db.scanner_id_seq + 1
    match selectScanner rt.2.db s with
    | [] =>
      (none, { rt.2 with db := { rt.2.db with
        scanner := rt.2.db.scanner ++ [⟨id, s.Name, s.Version, s.Kind⟩],
        scanner_id_seq := id } })
    | _ :: _ => (none, { rt.2 with db := { rt.2.db with scanner_id_seq := id } })

/-- The second loop of `registerScanners`: every scanner whose id is not valid is
inserted. -/
def insertLoop : Pool → List NullInt64 → List VersionedScanner → Option Error × Pool
  | p, id :: ids, s :: rest =>
    if !id.Valid then
      match execInsertScanner p s with
      | (some e, p1) => (some (.wrap "failed to insert scanner %v: %v" (.pg e)), p1)
      | (none, p1) => insertLoop p1 ids rest
    else insertLoop p ids rest
  | p, _, _ => (none, p)

/-- Embedding of `registerScanners` (registerscanners.go). -/
def registerScanners (p : Pool) (scnrs : List VersionedScanner) : Option Error × Pool :=
  let r := lookupLoop p scnrs
  insertLoop r.2 r.1 scnrs

/-! ## Artifacts by layer -/

/-- Outcome of a Go call that may panic instead of returning. -/
inductive Outcome (α : Type) where
  /-- Normal return with the returned values. -/
  | ret (v : α)
  /-- Run-time panic with its message. -/
  | panic (msg : String)

/-- Value of `strconv.FormatInt(id, 10)`. -/
def formatInt (id : Int) : String := toString id

/-- Rows of `a LEFT JOIN b ON cond`: every row of `a` paired with each of its
partners in `b`, or once with `NULL`s when it has none. -/
def leftJoin {α β : Type} (a : List α) (b : List β) (cond : α → β → Bool) :
    List (α × Option β) :=
  a.flatMap (fun x =>
    match b.filter (cond x) with
    | [] => [(x, none)]
    | y :: ys => (y :: ys).map (fun z => (x, some z)))

/-- Modelled from the spec: `claircore.Version` is declared outside the indexed
sources: "kind tag + ordered numeric component array".  `V` is the Go array
`[10]int32`, a list that always has ten entries. -/
structure Version where
  Kind : String
  V : List Int
  deriving DecidableEq

/-- Zero value of `claircore.Version`. -/
def Version.zero : Version := { Kind := "", V := List.replicate 10 0 }

/-- Fields of `claircore.Package` other than `Source`. -/
structure PackageFields where
  ID : String
  Name : String
  Version : String
  Kind : String
  PackageDB : String
  RepositoryHint : String
  NormalizedVersion : Claircore.Version
  Module : String
  Arch : String
  deriving DecidableEq

/-- Modelled from the spec: `claircore.Package` is declared outside the indexed
sources.  Its `Source` is "an owned optional nested value, at most one level of
nesting": `none` is the nil pointer. -/
structure Package extends PackageFields where
  Source : Option PackageFields
  deriving DecidableEq

/-- Zero value of the non-`Source` fields of `claircore.Package`. -/
def PackageFields.zero : PackageFields :=
  { ID := "", Name := "", Version := "", Kind := "", PackageDB := "", RepositoryHint := "",
    NormalizedVersion := Version.zero, Module := "", Arch := "" }

/-- Modelled from the spec: `claircore.Distribution` is declared outside the
indexed sources. -/
structure Distribution where
  ID : String
  DID : String
  Name : String
  Version : String
  VersionCodeName : String
  VersionID : String
  Arch : String
  CPE : String
  PrettyName : String
  deriving DecidableEq

/-- Modelled from the spec: `claircore.Repository` is declared outside the indexed
sources. -/
structure Repository where
  ID : String
  Name : String
  Key : String
  URI : String
  deriving DecidableEq

/-- Rows answering the `query` of packagesbylayer.go: link row, joined package,
joined source package. -/
def packageQuery (db : DB) (hash : Digest) (scannerIDs : List Int) :
    List ((PackageScanArtifactRow × Option PackageRow) × Option PackageRow) :=
  (leftJoin
    (leftJoin db.package_scanartifact db.package (fun l r => l.package_id = r.id))
    db.package (fun lp r => lp.1.source_id = r.id)).filter
    (fun row => row.1.1.layer_hash = hash ∧ row.1.1.scanner_id ∈ scannerIDs)

/-- The loop `for i, n := range nVer.Elements { V[i] = n.Int }` from index `i`
on; `n.Int` of a `NULL` element is `0`.  Answers `none` when an index leaves the
ten-entry array, where Go panics. -/
def assignV : List Int → Nat → List (Option Int) → Option (List Int)
  | V, _, [] => some V
  | V, i, n :: rest => if i < 10 then assignV (V.set i (n.getD 0)) (i + 1) rest else none

/-- Body of the row loop of `packagesByLayer` for one result row: `none` when
`rows.Scan` fails on a `NULL` column, otherwise the package or the panic of the
version loop. -/
def scanPackage (row : (PackageScanArtifactRow × Option PackageRow) × Option PackageRow) :
    Option (Outcome Package) :=
  match row.1.2, row.2 with
  | some r, some sr =>
    let spkg : PackageFields :=
      { PackageFields.zero with
        ID := formatInt sr.id, Name := sr.name, Kind := sr.kind, Version := sr.version,
        Module := sr.module, Arch := sr.arch }
    let pkg : PackageFields :=
      { PackageFields.zero with
        ID := formatInt r.id, Name := r.name, Kind := r.kind, Version := r.version,
        Module := r.module, Arch := r.arch,
        PackageDB := row.1.1.package_db, RepositoryHint := row.1.1.repository_hint }
    match r.norm_kind with
    | none => some (.ret { toPackageFields := pkg, Source := some spkg })
    | some nKind =>
      match assignV pkg.NormalizedVersion.V 0 (r.norm_version.getD []) with
      | none => some (.panic "index out of range")
      | some V =>
        some (.ret { toPackageFields := { pkg with NormalizedVersion := { Kind := nKind, V := V } },
                     Source := some spkg })
  | _, _ => none

/-- The row loop of `packagesByLayer`, appending to `res`. -/
def packageRows : List ((PackageScanArtifactRow × Option PackageRow) × Option PackageRow) →
    List Package → Outcome (Option (List Package) × Option Error)
  | [], res => .ret (some res, none)
  | row :: rest, res =>
    match scanPackage row with
    | none => .ret (none, some (.wrap "store:packagesByLayer failed to scan packages: %v"
        (.pg .scanNull)))
    | some (.panic msg) => .panic msg
    | some (.ret pkg) => packageRows rest (res ++ [pkg])

/-- Result of `pool.Query(ctx, query, hash, scannerIDs)` for a query whose rows
are `rows`; a zero-row answer is not an error. -/
def poolQuery {α : Type} (p : Pool) (rows : DB → List α) : Except PgErr (List α) × Pool :=
  let rt := p.roundTrip
  if rt.1 then (.error .connFailure, rt.2) else (.ok (rows rt.2.db), rt.2)

/-- Embedding of `packagesByLayer` (packagesbylayer.go).  A nil slice is `none`,
an empty non-nil slice is `some []`. -/
def packagesByLayer (p : Pool) (hash : Digest) (scnrs : List VersionedScanner) :
    Outcome (Option (List Package) × Option Error) × Pool :=
  if scnrs.length = 0 then (.ret (some [], none), p)
  else
    match scannerIDsLoop "store:packagesByLayer failed to retrieve id for scanner %v: %v"
        p scnrs [] with
    | (.error e, p1) => (.ret (none, some e), p1)
    | (.ok scannerIDs, p1) =>
      match poolQuery p1 (fun db => packageQuery db hash scannerIDs) with
      | (.error .ErrNoRows, p2) =>
        (.ret (none, some (.errorf
          "store:packagesByLayer no packages found for hash %v and scnrs %v")), p2)
      | (.error e, p2) =>
        (.ret (none, some (.wrap
          "store:packagesByLayer failed to retrieve package rows for hash %v and scanners %v: %v"
          (.pg e))), p2)
      | (.ok rows, p2) => (packageRows rows [], p2)

/-- Rows answering the `query` of distributionsbylayer.go. -/
def distQuery (db : DB) (hash : Digest) (scannerIDs : List Int) :
    List (DistScanArtifactRow × Option DistRow) :=
  (leftJoin db.dist_scanartifact db.dist (fun l r => l.dist_id = r.id)).filter
    (fun row => row.1.layer_hash = hash ∧ row.1.scanner_id ∈ scannerIDs)

/-- Body of the row loop of `distributionsByLayer`: `none` when `rows.Scan` fails
on a `NULL` column. -/
def scanDist (row : DistScanArtifactRow × Option DistRow) : Option Distribution :=
  match row.2 with
  | none => none
  | some r =>
    some { ID := formatInt r.id, Name := r.name, DID := r.did, Version := r.version,
           VersionCodeName := r.version_code_name, VersionID := r.version_id, Arch := r.arch,
           CPE := r.cpe, PrettyName := r.pretty_name }

/-- The row loop of `distributionsByLayer`, appending to `res`. -/
def distRows : List (DistScanArtifactRow × Option DistRow) → List Distribution →
    Option (List Distribution) × Option Error
  | [], res => (some res, none)
  | row :: rest, res =>
    match scanDist row with
    | none => (none, some (.wrap "store:distributionsByLayer failed to scan distribution: %v"
        (.pg .scanNull)))
    | some dist => distRows rest (res ++ [dist])

/-- Embedding of `distributionsByLayer` (distributionsbylayer.go). -/
def distributionsByLayer (p : Pool) (hash : Digest) (scnrs : List VersionedScanner) :
    (Option (List Distribution) × Option Error) × Pool :=
  if scnrs.length = 0 then ((some [], none), p)
  else
    match scannerIDsLoop
        "store:distributionseByLayer failed to retrieve scanner ids for scnr %v: %v" p scnrs [] with
    | (.error e, p1) => ((none, some e), p1)
    | (.ok scannerIDs, p1) =>
      match poolQuery p1 (fun db => distQuery db hash scannerIDs) with
      | (.error .ErrNoRows, p2) =>
        ((none, some (.errorf
          "store:distributionsByLayer no distribution found for hash %v and scnrs %v")), p2)
      | (.error e, p2) =>
        ((none, some (.wrap
          "store:distributionsByLayer failed to retrieve package rows for hash %v and scanners %v: %v"
          (.pg e))), p2)
      | (.ok rows, p2) => (distRows rows [], p2)

/-- Rows answering the `query` of repositoriesbylayer.go. -/
def repoQuery (db : DB) (hash : Digest) (scannerIDs : List Int) :
    List (RepoScanArtifactRow × Option RepoRow) :=
  (leftJoin db.repo_scanartifact db.repo (fun l r => l.repo_id = r.id)).filter
    (fun row => row.1.layer_hash = hash ∧ row.1.scanner_id ∈ scannerIDs)

/-- Body of the row loop of `repositoriesByLayer`: `none` when `rows.Scan` fails
on a `NULL` column. -/
def scanRepo (row : RepoScanArtifactRow × Option RepoRow) : Option Repository :=
  match row.2 with
  | none => none
  | some r => some { ID := formatInt r.id, Name := r.name, Key := r.key, URI := r.uri }

/-- The row loop of `repositoriesByLayer`, appending to `res`. -/
def repoRows : List (RepoScanArtifactRow × Option RepoRow) → List Repository →
    Option (List Repository) × Option Error
  | [], res => (some res, none)
  | row :: rest, res =>
    match scanRepo row with
    | none => (none, some (.wrap "store:repositoriesByLayer failed to scan repositories: %v"
        (.pg .scanNull)))
    | some repo => repoRows rest (res ++ [repo])

/-- Embedding of `repositoriesByLayer` (repositoriesbylayer.go). -/
def repositoriesByLayer (p : Pool) (hash : Digest) (scnrs : List VersionedScanner) :
    (Option (List Repository) × Option Error) × Pool :=
  if scnrs.length = 0 then ((some [], none), p)
  else
    match scannerIDsLoop
        "store:repositoriesByLayer failed to retrieve scanner ids for scnr %v: %v" p scnrs [] with
    | (.error e, p1) => ((none, some e), p1)
    | (.ok scannerIDs, p1) =>
      match poolQuery p1 (fun db => repoQuery db hash scannerIDs) with
      | (.error .ErrNoRows, p2) =>
        ((none, some (.errorf
          "store:repositoriesByLayer no repositories found for hash %v and scnrs %v")), p2)
      | (.error e, p2) =>
        ((none, some (.wrap
          "store:repositoriesByLayer failed to retrieve package rows for hash %v and scanners %v: %v"
          (.pg e))), p2)
      | (.ok rows, p2) => (repoRows rows [], p2)

/-! ## Distributed lock -/

/-- UTF-8 bytes of a character: the bytes of a Go string. -/
def utf8EncodeChar (c : Char) : List Nat :=
  let n := c.toNat
  if n < 0x80 then [n]
  else if n < 0x800 then [0xC0 + n / 64, 0x80 + n % 64]
  else if n < 0x10000 then [0xE0 + n / 4096, 0x80 + (n / 64) % 64, 0x80 + n % 64]
  else [0xF0 + n / 262144, 0x80 + (n / 4096) % 64, 0x80 + (n / 64) % 64, 0x80 + n % 64]

/-- Value of `fnv.New64a()` fed with `bytes` and read by `Sum64`: for every byte,
xor then multiply by the FNV prime, modulo `2^64`. -/
def fnv64a (bytes : List Nat) : Nat :=
  bytes.foldl (fun h b => ((h ^^^ b) * 1099511628211) % 2 ^ 64) 14695981039346656037

/-- Conversion `int64(u)` of a `uint64`. -/
def toInt64 (u : Nat) : Int := if u < 2 ^ 63 then (u : Int) else (u : Int) - 2 ^ 64

/-- The advisory-lock id `keyInt64` that `TryLock` computes for `key`. -/
def keyInt64 (key : String) : Int := toInt64 (fnv64a (key.data.flatMap utf8EncodeChar))

/-- Scripted answer of the server to one round trip of the lock. -/
inductive Answer where
  /-- The round trip succeeds. -/
  | ok
  /-- The round trip fails and the transaction stays open. -/
  | fail
  /-- The round trip fails and the server aborts the transaction. -/
  | lost
  deriving DecidableEq

/-- Request sent to the server by the lock. -/
inductive Request where
  /-- Request of `pool.Begin`. -/
  | begin
  /-- Request `SELECT pg_try_advisory_xact_lock(id)` inside transaction `tx`. -/
  | tryAdvisory (tx : Nat) (id : Int)
  /-- Request of `tx.Commit`. -/
  | commit (tx : Nat)
  /-- Request of `tx.Rollback`. -/
  | rollback (tx : Nat)
  deriving DecidableEq

/-- Server state seen by the locks: the open transactions, the advisory locks
granted (lock id, owning transaction), the handle of the next transaction, the
scripted answers of the coming round trips (an exhausted script answers `ok`)
and the requests received so far. -/
structure LockStore where
  nextTx : Nat
  openTx : List Nat
  granted : List (Int × Nat)
  answers : List Answer
  log : List Request
  deriving DecidableEq

/-- Server with no transaction and a healthy connection. -/
def LockStore.init : LockStore :=
  { nextTx := 0, openTx := [], granted := [], answers := [], log := [] }

/-- One round trip carrying `req`: its answer and the store with the answer
consumed and the request logged. -/
def LockStore.roundTrip (st : LockStore) (req : Request) : Answer × LockStore :=
  match st.answers with
  | [] => (.ok, { st with log := st.log ++ [req] })
  | a :: rest => (a, { st with answers := rest, log := st.log ++ [req] })

/-- End of transaction `tx` on the server, by commit, rollback or abort: it is
no longer open and its advisory locks are freed. -/
def LockStore.endTx (st : LockStore) (tx : Nat) : LockStore :=
  { st with openTx := st.openTx.filter (fun t => t ≠ tx),
            granted := st.granted.filter (fun g => g.2 ≠ tx) }

/-- Result of `pool.Begin(ctx)`: the handle of the new transaction. -/
def LockStore.Begin (st : LockStore) : Except PgErr Nat × LockStore :=
  match st.roundTrip .begin with
  | (.ok, st1) =>
    (.ok st1.nextTx, { st1 with nextTx := st1.nextTx + 1, openTx := st1.openTx ++ [st1.nextTx] })
  | (_, st1) => (.error .connFailure, st1)

/-- Result of `tx.QueryRow(ctx, manifestAdvisoryLock, id).Scan(&acquired)`: the
lock id is granted when no transaction owns it. -/
def LockStore.tryAdvisoryXactLock (st : LockStore) (tx : Nat) (id : Int) :
    Except PgErr Bool × LockStore :=
  match st.roundTrip (.tryAdvisory tx id) with
  | (.ok, st1) =>
    if st1.granted.any (fun g => g.1 = id) then (.ok false, st1)
    else (.ok true, { st1 with granted := st1.granted ++ [(id, tx)] })
  | (_, st1) => (.error .connFailure, st1)

/-- Effect of `tx.Rollback(ctx)`: the transaction ends whatever the answer,
since the driver closes the connection of a rollback that fails. -/
def LockStore.Rollback (st : LockStore) (tx : Nat) : LockStore :=
  (st.roundTrip (.rollback tx)).2.endTx tx

/-- Result of `tx.Commit(ctx)`: a transaction that has already ended answers
`ErrTxClosed` without a round trip. -/
def LockStore.Commit (st : LockStore) (tx : Nat) : Option PgErr × LockStore :=
  if tx ∈ st.openTx then
    match st.roundTrip (.commit tx) with
    | (.ok, st1) => (none, st1.endTx tx)
    | (.fail, st1) => (some .connFailure, st1)
    | (.lost, st1) => (some .connFailure, st1.endTx tx)
  else (some .ErrTxClosed, st)

/-- The fields of the Go struct `lock` other than the pool and the mutex; `retry`
is the `time.Duration` in nanoseconds and `tx` the handle of the retained
transaction (`none` is the nil interface). -/
structure lock where
  retry : Int
  locked : Bool
  key : String
  tx : Option Nat
  deriving DecidableEq

/-- Embedding of `NewLock` (distlock.go). -/
def NewLock (retry : Int) : lock := { retry := retry, locked := false, key := "", tx := none }

/-- Embedding of `lock.TryLock` (distlock.go). -/
def lock.TryLock (l : lock) (st : LockStore) (key : String) :
    ((Bool × Option Error) × lock) × LockStore :=
  if l.locked then (((false, none), l), st)
  else
    let id := keyInt64 key
    match st.Begin with
    | (.error e, st1) => (((false, some (.pg e)), l), st1)
    | (.ok tx, st1) =>
      match st1.tryAdvisoryXactLock tx id with
      | (.error e, st2) =>
        (((false, some (.wrap "failed to issue pg_advisory lock query: %v" (.pg e))), l),
          st2.Rollback tx)
      | (.ok acquired, st2) =>
        if acquired then (((true, none), { l with locked := true, tx := some tx }), st2)
        else (((false, none), l), st2.Rollback tx)

/-- Embedding of `lock.Unlock` (distlock.go). -/
def lock.Unlock (l : lock) (st : LockStore) : (Option Error × lock) × LockStore :=
  if !l.locked then
    ((some (.errorf "attempted to unlock when no lock has been acquired"), l), st)
  else
    match l.tx with
    | none =>
      ((some (.errorf "attempted to unlock but no transaction is populated in scanLock"), l), st)
    | some tx =>
      match st.Commit tx with
      | (some e, st1) =>
        ((some (.wrap "failed to commit transaction and free lock: %v" (.pg e)), l), st1)
      | (none, st1) => ((none, { l with locked := false }), st1)

/-- Any number of lock instances, numbered, over one server. -/
structure World where
  store : LockStore
  locks : Nat → lock

/-- World after instance `i` calls `TryLock(key)` while the server follows `script`. -/
def World.tryLock (w : World) (i : Nat) (key : String) (script : List Answer) : World :=
  let r := (w.locks i).TryLock { w.store with answers := script } key
  { store := r.2, locks := Function.update w.locks i r.1.2 }

/-- World after instance `i` calls `Unlock` while the server follows `script`. -/
def World.unlock (w : World) (i : Nat) (script : List Answer) : World :=
  let r := (w.locks i).Unlock { w.store with answers := script }
  { store := r.2, locks := Function.update w.locks i r.1.2 }

/-- Worlds reachable from fresh instances by interleaved `TryLock` and `Unlock`
calls, with any answers of the server. -/
inductive Reachable : World → Prop where
  | init (retry : Nat → Int) :
    Reachable { store := LockStore.init, locks := fun i => NewLock (retry i) }
  | tryLock {w : World} (i : Nat) (key : String) (script : List Answer) :
    Reachable w → Reachable (w.tryLock i key script)
  | unlock {w : World} (i : Nat) (script : List Answer) :
    Reachable w → Reachable (w.unlock i script)

/-- Instance `i` is Held for lock id `id`: its flag is set and the transaction it
retains owns `id` on the server. -/
def World.Held (w : World) (i : Nat) (id : Int) : Prop :=
  (w.locks i).locked = true ∧ ∃ tx, (w.locks i).tx = some tx ∧ (id, tx) ∈ w.store.granted

/-! ## Vocabulary of the statements -/

/-- The id the store resolves scanner `s` to: the `id` of the first row of
`scanner` carrying its (name, version, kind), if there is one. -/
def scannerID? (db : DB) (s : VersionedScanner) : Option Int :=
  (selectScanner db s).head?.map (fun r => r.id)

/-- Scanner `s` is registered: `scanner` holds a row for its identity. -/
def Registered (db : DB) (s : VersionedScanner) : Prop := selectScanner db s ≠ []

instance (db : DB) (s : VersionedScanner) : Decidable (Registered db s) :=
  inferInstanceAs (Decidable (selectScanner db s ≠ []))

/-- The ids of the registered scanners of a list, in order. -/
def resolvedIDs (db : DB) (scnrs : List VersionedScanner) : List Int :=
  scnrs.filterMap (scannerID? db)

/-- A layer or manifest digest used in the examples. -/
def exDigest : Digest := { algo := "sha256", checksum := [170, 187] }

/-- A second digest used in the examples. -/
def exDigest2 : Digest := { algo := "sha256", checksum := [204, 221] }

/-- Scanner A of the examples. -/
def exScannerA : VersionedScanner := { Name := "dpkg", Version := "1.0", Kind := "package" }

/-- Scanner B of the examples. -/
def exScannerB : VersionedScanner := { Name := "rpm", Version := "1.0", Kind := "package" }

/-- A scanner of the examples that is never registered. -/
def exScannerC : VersionedScanner := { Name := "apk", Version := "3", Kind := "package" }

/-- Store of the examples: scanners A (id 1) and B (id 2) registered, nothing else. -/
def exDB : DB :=
  { DB.empty with
    scanner := [⟨1, "dpkg", "1.0", "package"⟩, ⟨2, "rpm", "1.0", "package"⟩],
    scanner_id_seq := 2 }

/-- An index report of the examples. -/
def exReport : IndexReport := { Hash := exDigest, body := "report-1" }

/-- Invariant of the reachable worlds: transaction handles in use are below the
next handle, a set flag comes with a retained transaction, every granted
advisory lock is owned by the retained transaction of an instance whose flag
is set, a lock id is granted at most once, and two instances whose flag is set
retain different transactions. -/
structure World.Inv (w : World) : Prop where
  granted_lt : ∀ g ∈ w.store.granted, g.2 < w.store.nextTx
  tx_lt : ∀ i t, (w.locks i).tx = some t → t < w.store.nextTx
  locked_tx : ∀ i, (w.locks i).locked = true → ∃ t, (w.locks i).tx = some t
  owner : ∀ g ∈ w.store.granted, ∃ i, (w.locks i).locked = true ∧ (w.locks i).tx = some g.2
  ids_nodup : (w.store.granted.map Prod.fst).Nodup
  tx_inj : ∀ i j t, (w.locks i).locked = true → (w.locks j).locked = true →
    (w.locks i).tx = some t → (w.locks j).tx = some t → i = j

/-- World of the examples: instance 0 was granted the lock of key "updater". -/
def exWorld : World :=
  World.tryLock { store := LockStore.init, locks := fun _ => NewLock 1000000000 } 0 "updater" []

/-- Identity triple (name, version, kind) of a row of `scanner`. -/
def ScannerRow.identity (r : ScannerRow) : String × String × String := (r.name, r.version, r.kind)

/-- Identity triple (name, version, kind) of a scanner. -/
def VersionedScanner.identity (s : VersionedScanner) : String × String × String :=
  (s.Name, s.Version, s.Kind)

/-- The constraint `UNIQUE (name, version, kind)` of `scanner`, the conflict target
of the `insertScanner` statement. -/
def DB.scannerUnique (db : DB) : Prop := (db.scanner.map ScannerRow.identity).Nodup

instance (db : DB) : Decidable db.scannerUnique :=
  inferInstanceAs (Decidable (db.scanner.map ScannerRow.identity).Nodup)

/-- Store of the examples in which scanner A (id 1) alone is registered. -/
def exDBA : DB :=
  { DB.empty with scanner := [⟨1, "dpkg", "1.0", "package"⟩], scanner_id_seq := 1 }

/-- A scanner list with a registered scanner, two new ones and a duplicate. -/
def exScanners : List VersionedScanner := [exScannerC, exScannerA, exScannerB, exScannerC]

/-- Modelled from the spec: the schema is declared outside the indexed sources.
"Each artifact instance is assigned a store-local identity" and a linking fact
is "(layer digest, artifact id, scanner id)": `dist.id` is a key of `dist` and
every `dist_scanartifact.dist_id` refers to a row of `dist`. -/
def DB.distIntegrity (db : DB) : Prop :=
  (db.dist.map (fun r => r.id)).Nodup ∧
  ∀ l ∈ db.dist_scanartifact, ∃ r ∈ db.dist, r.id = l.dist_id

instance (db : DB) : Decidable db.distIntegrity :=
  inferInstanceAs (Decidable (_ ∧ _))

/-- Modelled from the spec: the schema is declared outside the indexed sources.
`repo.id` is a key of `repo` and every `repo_scanartifact.repo_id` refers to a
row of `repo`. -/
def DB.repoIntegrity (db : DB) : Prop :=
  (db.repo.map (fun r => r.id)).Nodup ∧
  ∀ l ∈ db.repo_scanartifact, ∃ r ∈ db.repo, r.id = l.repo_id

instance (db : DB) : Decidable db.repoIntegrity :=
  inferInstanceAs (Decidable (_ ∧ _))

/-- Modelled from the spec: the schema is declared outside the indexed sources.
`package.id` is a key of `package` and every `package_scanartifact.package_id`
and `source_id` refers to a row of `package`. -/
def DB.packageIntegrity (db : DB) : Prop :=
  (db.package.map (fun r => r.id)).Nodup ∧
  ∀ l ∈ db.package_scanartifact,
    (∃ r ∈ db.package, r.id = l.package_id) ∧ (∃ r ∈ db.package, r.id = l.source_id)

instance (db : DB) : Decidable db.packageIntegrity :=
  inferInstanceAs (Decidable (_ ∧ _))

/-- Every stored normalized version that is read back (its `norm_kind` is not
null) has at most ten components, the size of `claircore.Version.V`. -/
def DB.versionsFit (db : DB) : Prop :=
  ∀ r ∈ db.package, r.norm_kind ≠ none → (r.norm_version.getD []).length ≤ 10

instance (db : DB) : Decidable db.versionsFit :=
  inferInstanceAs (Decidable (∀ r ∈ db.package, _))

/-- Store of the examples with artifacts: scanners A (id 1) and B (id 2); package
10 (curl) with source package 11; one distribution and one repository; links
for two layers and two scanners. -/
def exArtifactDB : DB :=
  { exDB with
    package :=
      [ { id := 10, name := "curl", kind := "binary", version := "7.68",
          norm_kind := some "semver", norm_version := some [some 7, some 68, none],
          module := "", arch := "amd64" },
        { id := 11, name := "curl-src", kind := "source", version := "7.68",
          norm_kind := none, norm_version := none, module := "", arch := "" } ],
    package_scanartifact :=
      [ { layer_hash := exDigest, package_id := 10, source_id := 11, scanner_id := 1,
          package_db := "var/lib/dpkg/status", repository_hint := "hint" },
        { layer_hash := exDigest, package_id := 11, source_id := 11, scanner_id := 2,
          package_db := "rpmdb", repository_hint := "" },
        { layer_hash := exDigest2, package_id := 11, source_id := 11, scanner_id := 1,
          package_db := "other", repository_hint := "" } ],
    dist :=
      [ { id := 20, name := "Debian", did := "debian", version := "10 (buster)",
          version_code_name := "buster", version_id := "10", arch := "",
          cpe := "cpe:/o:debian:debian_linux:10", pretty_name := "Debian GNU/Linux 10" } ],
    dist_scanartifact :=
      [ { layer_hash := exDigest, dist_id := 20, scanner_id := 1 },
        { layer_hash := exDigest, dist_id := 20, scanner_id := 2 },
        { layer_hash := exDigest2, dist_id := 20, scanner_id := 1 } ],
    repo := [ { id := 30, name := "main", key := "k", uri := "http://example.org" } ],
    repo_scanartifact :=
      [ { layer_hash := exDigest, repo_id := 30, scanner_id := 1 },
        { layer_hash := exDigest2, repo_id := 30, scanner_id := 1 } ] }

/-- Modelled from the spec: the schema is declared outside the indexed sources.
A ScannerID is a "surrogate integer, stable once assigned, never reused across
different identities": `scanner.id` is a key of `scanner`. -/
def DB.scannerKey (db : DB) : Prop := (db.scanner.map (fun r => r.id)).Nodup

instance (db : DB) : Decidable db.scannerKey :=
  inferInstanceAs (Decidable (db.scanner.map (fun (r : ScannerRow) => r.id)).Nodup)

/-! ## Blocking `Lock` -/

/-- What happens while a `Lock` call waits in its retry loop: the `select` takes
the ticker case (the server then follows `script` during the attempt) or the
`ctx.Done()` case, or another lock instance `o` completes a `TryLock` or an
`Unlock` on the same server. -/
inductive LockEvent where
  /-- Case `<-t.C` of the `select`. -/
  | tick (script : List Answer)
  /-- Case `<-ctx.Done()` of the `select`. -/
  | done
  /-- Call `o.TryLock(key)` of another instance. -/
  | otherTryLock (o : lock) (key : String) (script : List Answer)
  /-- Call `o.Unlock()` of another instance. -/
  | otherUnlock (o : lock) (script : List Answer)

/-- Record of one `TryLock` made by a `Lock` call: the two values it returned and
the transaction it began, if `pool.Begin` succeeded. -/
structure Attempt where
  acquired : Bool
  err : Option Error
  opened : Option Nat
  deriving DecidableEq

/-- The record of the `TryLock` that took the server from `st` to `r.2`. -/
def attemptOf (st : LockStore) (r : ((Bool × Option Error) × lock) × LockStore) : Attempt :=
  { acquired := r.1.1.1, err := r.1.1.2,
    opened := if r.2.nextTx = st.nextTx then none else some st.nextTx }

/-- How a `Lock` call ends: it returns its error value, it panics, or it is
still waiting in its `select` when the events are exhausted. -/
inductive LockResult where
  /-- Return of `err`. -/
  | returned (err : Option Error)
  /-- Run-time panic with its message. -/
  | panicked (msg : String)
  /-- Blocked in the `select`. -/
  | blocked
  deriving DecidableEq

/-- A `Lock` call: how it ended, the instance and the server after it, and the
records of the `TryLock` calls it made, in order. -/
structure LockRun where
  result : LockResult
  l : lock
  st : LockStore
  attempts : List Attempt

/-- The loop `for !l.locked { select { ... } }` of `lock.Lock` over the events that
arrive while it runs. -/
def retryLoop (key : String) : List LockEvent → lock → LockStore → List Attempt → LockRun
  | [], l, st, tr =>
    if l.locked then { result := .returned none, l := l, st := st, attempts := tr }
    else { result := .blocked, l := l, st := st, attempts := tr }
  | ev :: rest, l, st, tr =>
    if l.locked then { result := .returned none, l := l, st := st, attempts := tr }
    else
      match ev with
      | .tick script =>
        match (l.TryLock { st with answers := script } key).1.1.2 with
        | some e =>
          { result := .returned
              (some (.wrap "failed at attempting initial lock acquisition: %v" e)),
            l := (l.TryLock { st with answers := script } key).1.2,
            st := (l.TryLock { st with answers := script } key).2,
            attempts := tr ++ [attemptOf st (l.TryLock { st with answers := script } key)] }
        | none =>
          retryLoop key rest (l.TryLock { st with answers := script } key).1.2
            (l.TryLock { st with answers := script } key).2
            (tr ++ [attemptOf st (l.TryLock { st with answers := script } key)])
      | .done =>
        { result := .returned (some (.wrap "context canceled: %v" (.errorf "context canceled"))),
          l := l, st := st, attempts := tr }
      | .otherTryLock o k script =>
        retryLoop key rest l (o.TryLock { st with answers := script } k).2 tr
      | .otherUnlock o script =>
        retryLoop key rest l (o.Unlock { st with answers := script }).2 tr

/-- Embedding of `lock.Lock` (distlock.go).  The first attempt follows the script
of `st`; `time.NewTicker` panics on a non-positive interval. -/
def lock.Lock (l : lock) (st : LockStore) (key : String) (events : List LockEvent) : LockRun :=
  if l.locked then
    { result := .returned (some (.errorf "attempt to lock while lock held")),
      l := l, st := st, attempts := [] }
  else
    match (l.TryLock st key).1.1.2 with
    | some e =>
      { result := .returned
          (some (.wrap "failed at attempting initial lock acquisition: %v" e)),
        l := (l.TryLock st key).1.2, st := (l.TryLock st key).2,
        attempts := [attemptOf st (l.TryLock st key)] }
    | none =>
      if (l.TryLock st key).1.2.locked then
        { result := .returned none, l := (l.TryLock st key).1.2, st := (l.TryLock st key).2,
          attempts := [attemptOf st (l.TryLock st key)] }
      else if (l.TryLock st key).1.2.retry ≤ 0 then
        { result := .panicked "non-positive interval for NewTicker",
          l := (l.TryLock st key).1.2, st := (l.TryLock st key).2,
          attempts := [attemptOf st (l.TryLock st key)] }
      else
        retryLoop key events (l.TryLock st key).1.2 (l.TryLock st key).2
          [attemptOf st (l.TryLock st key)]

/-- The server went from `st` to `st1` by calls of the locks: handles are not
reused, a transaction of `st` that is open in `st1` was open in `st` and has
kept its advisory locks, requests are only added, and an added rollback is the
rollback of a transaction begun since `st`. -/
structure LockStore.Extends (st st1 : LockStore) : Prop where
  next_le : st.nextTx ≤ st1.nextTx
  open_old : ∀ t, t < st.nextTx → t ∈ st1.openTx → t ∈ st.openTx
  granted_kept : ∀ t id, t < st.nextTx → t ∈ st1.openTx → (id, t) ∈ st.granted →
    (id, t) ∈ st1.granted
  log_kept : ∀ r ∈ st.log, r ∈ st1.log
  rollback_new : ∀ t, Request.rollback t ∈ st1.log →
    Request.rollback t ∈ st.log ∨ (st.nextTx ≤ t ∧ t < st1.nextTx)

/-- Invariant of one instance over a server: a set flag comes with a retained
transaction that was begun, in which the advisory lock was requested and which
was not rolled back (so the request was granted), and which owns an advisory
lock as long as it is open; and only transactions that were begun have been
rolled back. -/
def LockInv (l : lock) (st : LockStore) : Prop :=
  (l.locked = true → ∃ t, l.tx = some t ∧ t < st.nextTx ∧
    (∃ id, Request.tryAdvisory t id ∈ st.log) ∧ Request.rollback t ∉ st.log ∧
    (t ∈ st.openTx → ∃ id, (id, t) ∈ st.granted)) ∧
  ∀ t, Request.rollback t ∈ st.log → t < st.nextTx

/-- A `Lock` call that ends Idle and clean: the instance is as it was, no attempt
was granted, and every transaction an attempt opened has ended. -/
def IdleClean (l0 : lock) (l : lock) (st : LockStore) (tr : List Attempt) : Prop :=
  l = l0 ∧ l.locked = false ∧
  ∀ a ∈ tr, a.acquired = false ∧ ∀ t, a.opened = some t → t < st.nextTx ∧ t ∉ st.openTx

/-- A `Lock` call that ends Held: exactly the last attempt was granted, the
instance retains its transaction, which is open and owns the lock id of the
key, and every transaction an earlier attempt opened has ended. -/
def HeldOnce (key : String) (l : lock) (st : LockStore) (tr : List Attempt) : Prop :=
  l.locked = true ∧
  ∃ t tr0, tr = tr0 ++ [{ acquired := true, err := none, opened := some t }] ∧
    l.tx = some t ∧ (keyInt64 key, t) ∈ st.granted ∧ t ∈ st.openTx ∧
    ∀ a ∈ tr0, a.acquired = false ∧ ∀ t1, a.opened = some t1 → t1 < t ∧ t1 ∉ st.openTx

/-- States of one lock instance and the server, reachable from `NewLock` by any
sequence of its `TryLock`, `Lock` and `Unlock` calls and of calls of other
instances, with any answers of the server. -/
inductive LockReachable : lock → LockStore → Prop where
  | init (retry : Int) : LockReachable (NewLock retry) LockStore.init
  | tryLock {l : lock} {st : LockStore} (key : String) (script : List Answer) :
    LockReachable l st →
    LockReachable (l.TryLock { st with answers := script } key).1.2
      (l.TryLock { st with answers := script } key).2
  | unlock {l : lock} {st : LockStore} (script : List Answer) :
    LockReachable l st →
    LockReachable (l.Unlock { st with answers := script }).1.2
      (l.Unlock { st with answers := script }).2
  | lockCall {l : lock} {st : LockStore} (key : String) (script : List Answer)
      (events : List LockEvent) :
    LockReachable l st →
    LockReachable (l.Lock { st with answers := script } key events).l
      (l.Lock { st with answers := script } key events).st
  | otherTryLock {l : lock} {st : LockStore} (o : lock) (key : String) (script : List Answer) :
    LockReachable l st → LockReachable l (o.TryLock { st with answers := script } key).2
  | otherUnlock {l : lock} {st : LockStore} (o : lock) (script : List Answer) :
    LockReachable l st → LockReachable l (o.Unlock { st with answers := script }).2

/-- Server of the examples on which another instance holds the lock of "updater". -/
def exHeldStore : LockStore :=
  ((NewLock 1000000000).TryLock LockStore.init "updater").2

/-- The instance of the examples that holds the lock of "updater" on `exHeldStore`. -/
def exHolder : lock := ((NewLock 1000000000).TryLock LockStore.init "updater").1.2

/-- Events of the examples: a denied retry, the holder's `Unlock`, a granted retry. -/
def exEvents : List LockEvent := [.tick [], .otherUnlock exHolder [], .tick []]

/-- A second index report of the examples, for the same manifest. -/
def exReport2 : IndexReport := { Hash := exDigest, body := "report-2" }

/-- Store of the examples after scanner A finalized the example manifest with the
first report. -/
def exFinalizedDB : DB := (setScanFinished (Pool.healthy exDB) exReport [exScannerA]).2.db

/-! ## libvuln options -/

/-- Value of `time.Microsecond`, in nanoseconds, the unit of `time.Duration`. -/
def Microsecond : Int := 1000

/-- Value of `time.Millisecond`. -/
def Millisecond : Int := 1000 * Microsecond

/-- Value of `time.Second`. -/
def Second : Int := 1000 * Millisecond

/-- Value of `time.Minute`. -/
def Minute : Int := 60 * Second

/-- Wrap-around of a 64-bit signed integer operation. -/
def wrapInt64 (x : Int) : Int := (x + 2 ^ 63) % 2 ^ 64 - 2 ^ 63

/-- Go's `lessThanHalf(x, y)`: `uint64(x)+uint64(x) < uint64(y)`. -/
def lessThanHalf (x y : Int) : Bool := (x % 2 ^ 64 + x % 2 ^ 64) % 2 ^ 64 < y % 2 ^ 64

/-- Go's `time.Duration.Round`: `d` rounded to the nearest multiple of `m`, halfway
values away from zero; `d` itself when `m <= 0`; the extreme duration on
overflow.  Go's `%` truncates toward zero. -/
def durationRound (d m : Int) : Int :=
  if m ≤ 0 then d
  else
    let r := Int.tmod d m
    if d < 0 then
      if lessThanHalf (-r) m then wrapInt64 (d + -r)
      else
        let d1 := wrapInt64 (wrapInt64 (d - m) + -r)
        if d1 < d then d1 else -(2 ^ 63)
    else
      if lessThanHalf r m then wrapInt64 (d - r)
      else
        let d1 := wrapInt64 (wrapInt64 (d + m) - r)
        if d1 > d then d1 else 2 ^ 63 - 1

/-- The fields of `libvuln.Opts`; an updater or matcher stands for its name, and a
nil `UpdaterSets` slice is `none`. -/
structure Opts where
  MaxConnPool : Int
  ConnString : String
  UpdateInterval : Int
  Migrations : Bool
  UpdaterSets : Option (List String)
  Updaters : List String
  Matchers : List String
  UpdateWorkers : Int
  DisableBackgoundUpdates : Bool
  deriving DecidableEq

/-- Value of `DefaultUpdateInterval`. -/
def DefaultUpdateInterval : Int := 30 * Minute

/-- Value of `DefaultUpdateWorkers`. -/
def DefaultUpdateWorkers : Int := 10

/-- Value of `DefaultMaxConnPool`. -/
def DefaultMaxConnPool : Int := 50

/-- The matchers of `defaultMatchers`, by package. -/
def defaultMatchers : List String :=
  ["alpine", "aws", "debian", "python", "ubuntu", "rhel", "photon"]

/-- The jitter of `Opts.parse` for the value `draw` of `rand.Intn(jitter)`:
`time.Duration(draw-(jitter/2)) * time.Microsecond`, then `Round(100 * time.Millisecond)`. -/
def parseJitter (draw : Int) : Int :=
  durationRound ((draw - 120000 / 2) * Microsecond) (100 * Millisecond)

/-- Embedding of `Opts.parse` (opts.go); `draw` is the value of `rand.Intn(jitter)`. -/
def Opts.parse (o : Opts) (draw : Int) : Option Error × Opts :=
  if o.ConnString = "" then (some (.errorf "no connection string provided"), o)
  else
    let o1 : Opts :=
      if o.UpdateInterval = 0 ∨ o.UpdateInterval < Minute then
        { o with UpdateInterval := DefaultUpdateInterval }
      else o
    let o2 : Opts := { o1 with UpdateInterval := o1.UpdateInterval + parseJitter draw }
    let o3 : Opts := if o2.MaxConnPool = 0 then { o2 with MaxConnPool := DefaultMaxConnPool } else o2
    let o4 : Opts :=
      if o3.UpdateWorkers ≤ 0 then { o3 with UpdateWorkers := DefaultUpdateWorkers } else o3
    (none, { o4 with Matchers := o4.Matchers ++ defaultMatchers })

/-- The keys of the map `defaultFactoryConstructors`. -/
def defaultFactoryConstructors : List String := ["rhel"]

/-- The keys of the map `defaultSets`. -/
def defaultSets : List String :=
  ["alpine", "aws", "debian", "oracle", "photon", "pyupio", "suse"]

/-- The updater-set names the documentation of `Opts.UpdaterSets` lists as
supported. -/
def documentedSets : List String :=
  ["alpine", "aws", "debian", "oracle", "photon", "pyupio", "rhel", "suse", "ubuntu"]

/-- A `driver.UpdaterSetFactory` returned by `updaterSetFunc`: the value of
`defaultSets` under a key, the factory built by the constructor under a key of
`defaultFactoryConstructors`, or the `driver.StaticSet` of the out-of-tree
updaters. -/
inductive UpdaterSetFactory where
  | ofDefaultSets (name : String)
  | constructed (name : String)
  | staticSet (updaters : List String)
  deriving DecidableEq

/-- A line logged by `updaterSetFunc`. -/
inductive LogLine where
  | info (msg : String)
  | warn (msg : String) (detail : String)
  deriving DecidableEq

/-- The loop over `o.UpdaterSets` of `updaterSetFunc`; `constructs name` tells whether
the constructor under `name` returns a factory. -/
def specifiedSetsLoop (constructs : String → Bool) :
    List String → List UpdaterSetFactory → List LogLine → List UpdaterSetFactory × List LogLine
  | [], fs, log => (fs, log)
  | name :: rest, fs, log =>
    if name ∈ defaultSets then
      specifiedSetsLoop constructs rest (fs ++ [.ofDefaultSets name]) log
    else if name ∈ defaultFactoryConstructors then
      if constructs name then specifiedSetsLoop constructs rest (fs ++ [.constructed name]) log
      else
        specifiedSetsLoop constructs rest fs
          (log ++ [.warn "unable to construct updater, skipping" name])
    else
      specifiedSetsLoop constructs rest fs (log ++ [.warn "unknown update set provided" name])

/-- The loop over `defaultFactoryConstructors` of `updaterSetFunc`. -/
def defaultConstructorsLoop (constructs : String → Bool) :
    List String → List UpdaterSetFactory → List LogLine → List UpdaterSetFactory × List LogLine
  | [], fs, log => (fs, log)
  | name :: rest, fs, log =>
    if constructs name then
      defaultConstructorsLoop constructs rest (fs ++ [.constructed name]) log
    else
      defaultConstructorsLoop constructs rest fs
        (log ++ [.warn "unable to construct updater, skipping" name])

/-- The loop adding the out-of-tree updaters to a `driver.UpdaterSet`, which
refuses a name it already holds. -/
def addUpdatersLoop : List String → List String → List LogLine → List String × List LogLine
  | [], us, log => (us, log)
  | u :: rest, us, log =>
    if u ∈ us then addUpdatersLoop rest us (log ++ [.warn "duplicate updater, skipping" u])
    else addUpdatersLoop rest (us ++ [u]) log

/-- Embedding of `Opts.updaterSetFunc` (opts.go): the factories, the error and the
lines logged.  The maps are walked in the order of their keys as listed. -/
def Opts.updaterSetFunc (o : Opts) (constructs : String → Bool) :
    (List UpdaterSetFactory × Option Error) × List LogLine :=
  let r : List UpdaterSetFactory × List LogLine :=
    match o.UpdaterSets with
    | none =>
      defaultConstructorsLoop constructs defaultFactoryConstructors
        (defaultSets.map .ofDefaultSets) [.info "using default updaters"]
    | some sets => specifiedSetsLoop constructs sets [] [.info "creating specified updater sets"]
  let us := addUpdatersLoop o.Updaters [] r.2
  ((r.1 ++ [.staticSet us.1], none), us.2)

/-- Options of the examples: a connection string and nothing else. -/
def exOpts : Opts :=
  { MaxConnPool := 0, ConnString := "host=db", UpdateInterval := 0, Migrations := false,
    UpdaterSets := none, Updaters := [], Matchers := [], UpdateWorkers := 0,
    DisableBackgoundUpdates := false }

/-- The stored version of every package row that the query of `packagesByLayer`
selects for `hash` and the scanner ids `ids`, and that is read back (its
`norm_kind` is not null), has at most ten components, the size of
`claircore.Version.V`. -/
def DB.linkedVersionsFit (db : DB) (hash : Digest) (ids : List Int) : Prop :=
  ∀ l ∈ db.package_scanartifact, l.layer_hash = hash → l.scanner_id ∈ ids →
    ∀ r ∈ db.package, r.id = l.package_id → r.norm_kind ≠ none →
      (r.norm_version.getD []).length ≤ 10

instance (db : DB) (hash : Digest) (ids : List Int) :
    Decidable (db.linkedVersionsFit hash ids) :=
  inferInstanceAs (Decidable (∀ l ∈ db.package_scanartifact, _))

/-- The example store with artifacts in which package 10 (curl) has a stored
normalized version of eleven components. -/
def exLongVersionDB : DB :=
  { exArtifactDB with
    package :=
      [ { id := 10, name := "curl", kind := "binary", version := "7.68",
          norm_kind := some "semver",
          norm_version := some [some 7, some 68, some 0, some 0, some 0, some 0, some 0,
            some 0, some 0, some 0, some 1],
          module := "", arch := "amd64" },
        { id := 11, name := "curl-src", kind := "source", version := "7.68",
          norm_kind := none, norm_version := none, module := "", arch := "" } ] }

/-! # Theorems -/


/-! ## Round trips and lookups -/

@[simp] theorem roundTrip_db (p : Pool) : p.roundTrip.2.db = p.db := by
  unfold Pool.roundTrip
  split <;> rfl

theorem queryRowScanner_db (p : Pool) (s : VersionedScanner) :
    (queryRowScanner p s).2.db = p.db := by
  unfold queryRowScanner
  dsimp only
  split
  · simp
  · split <;> simp

theorem scannerIDsLoop_db (format : String) (scnrs : List VersionedScanner) :
    ∀ (p : Pool) (acc : List Int), (scannerIDsLoop format p scnrs acc).2.db = p.db := by
  induction scnrs with
  | nil => intro p acc; rfl
  | cons s rest ih =>
    intro p acc
    unfold scannerIDsLoop
    have hq := queryRowScanner_db p s
    rcases hres : queryRowScanner p s with ⟨r, p1⟩
    rw [hres] at hq
    cases r with
    | error e => simpa using hq
    | ok id => simp only []; rw [ih]; exact hq

theorem begin_db (p : Pool) : p.Begin.2.db = p.db := by
  unfold Pool.Begin
  dsimp only
  split <;> simp

theorem insertManifestScanned_db (tx : Tx) (p : Pool) (hash : Digest) (id : Int) :
    (tx.insertManifestScanned p hash id).2.db = p.db := by
  unfold Tx.insertManifestScanned
  dsimp only
  split
  · simp
  · split <;> simp

theorem linkLoop_db (hash : Digest) (ids : List Int) :
    ∀ (tx : Tx) (p : Pool), (linkLoop hash tx p ids).2.db = p.db := by
  induction ids with
  | nil => intro tx p; rfl
  | cons id rest ih =>
    intro tx p
    unfold linkLoop
    have hq := insertManifestScanned_db tx p hash id
    rcases hres : tx.insertManifestScanned p hash id with ⟨r, p1⟩
    rw [hres] at hq
    cases r with
    | error e => simpa using hq
    | ok tx1 => simp only []; rw [ih]; exact hq

theorem upsertIndexReport_db (tx : Tx) (p : Pool) (hash : Digest) (doc : IndexReport) :
    (tx.upsertIndexReport p hash doc).2.db = p.db := by
  unfold Tx.upsertIndexReport
  dsimp only
  split <;> simp

theorem rollback_db (tx : Tx) (p : Pool) : (tx.Rollback p).db = p.db := by
  simp [Tx.Rollback]

theorem commit_error_db (tx : Tx) (p : Pool) (e : PgErr) (p1 : Pool)
    (h : tx.Commit p = (some e, p1)) : p1.db = p.db := by
  unfold Tx.Commit at h
  dsimp only at h
  split at h
  · simp only [Prod.mk.injEq] at h
    rw [← h.2]; simp
  · simp at h

/-- Claim C1, finalize atomicity: whenever `setScanFinished` returns an error,
whatever the store state, the report, the scanner list and the answers of the
connection, the committed `scanned_manifest` and `indexreport` relations (and
every other relation) are what they were before the call. -/
theorem setScanFinished_error_leaves_store (p : Pool) (sr : IndexReport)
    (scnrs : List VersionedScanner) (e : Error)
    (h : (setScanFinished p sr scnrs).1 = some e) :
    (setScanFinished p sr scnrs).2.db.scanned_manifest = p.db.scanned_manifest ∧
    (setScanFinished p sr scnrs).2.db.indexreport = p.db.indexreport ∧
    (setScanFinished p sr scnrs).2.db = p.db := by
  have key : (setScanFinished p sr scnrs).2.db = p.db := by
    unfold setScanFinished at h ⊢
    have h1 := scannerIDsLoop_db
      "store:storeManifest failed to select package scanner id: %v" scnrs p []
    rcases hr1 : scannerIDsLoop
      "store:storeManifest failed to select package scanner id: %v" p scnrs [] with ⟨r1, p1⟩
    rw [hr1] at h1 h
    cases r1 with
    | error e1 => exact h1
    | ok ids =>
      have h2 := begin_db p1
      rcases hr2 : p1.Begin with ⟨r2, p2⟩
      rw [hr2] at h2
      simp only [hr2] at h ⊢
      cases r2 with
      | error e2 => exact h2.trans h1
      | ok tx =>
        have h3 := linkLoop_db sr.Hash ids tx p2
        rcases hr3 : linkLoop sr.Hash tx p2 ids with ⟨r3, p3⟩
        rw [hr3] at h3
        simp only [hr3] at h ⊢
        cases r3 with
        | error e3 => simp only [rollback_db]; exact h3.trans (h2.trans h1)
        | ok tx1 =>
          have h4 := upsertIndexReport_db tx1 p3 sr.Hash sr
          rcases hr4 : tx1.upsertIndexReport p3 sr.Hash sr with ⟨r4, p4⟩
          rw [hr4] at h4
          simp only [hr4] at h ⊢
          cases r4 with
          | error e4 => simp only [rollback_db]; exact h4.trans (h3.trans (h2.trans h1))
          | ok tx2 =>
            rcases hr5 : tx2.Commit p4 with ⟨r5, p5⟩
            simp only [hr5] at h ⊢
            cases r5 with
            | none => simp at h
            | some e5 =>
              exact (commit_error_db tx2 p4 e5 p5 hr5).trans (h4.trans (h3.trans (h2.trans h1)))
  exact ⟨by rw [key], by rw [key], key⟩


/-- Witness of claim C1: the report upsert fails after the completion fact of
scanner A was inserted in the transaction; nothing of it is visible. -/
theorem setScanFinished_error_leaves_store_witness :
    (setScanFinished { db := exDB, faults := [false, false, false, true], calls := 0 }
        exReport [exScannerA]).1
      = some (.wrap "failed to upsert scan result: %v" (.pg .connFailure)) ∧
    ((setScanFinished { db := exDB, faults := [false, false, false, true], calls := 0 }
        exReport [exScannerA]).2.db.scanned_manifest = exDB.scanned_manifest ∧
     (setScanFinished { db := exDB, faults := [false, false, false, true], calls := 0 }
        exReport [exScannerA]).2.db.indexreport = exDB.indexreport ∧
     (setScanFinished { db := exDB, faults := [false, false, false, true], calls := 0 }
        exReport [exScannerA]).2.db = exDB) :=
  ⟨by decide, setScanFinished_error_leaves_store _ _ _
    (.wrap "failed to upsert scan result: %v" (.pg .connFailure)) (by decide)⟩

/-! ## `manifestScanned` -/

theorem roundTrip_healthy (p : Pool) (h : p.faults = []) :
    p.roundTrip = (false, { p with calls := p.calls + 1 }) := by
  unfold Pool.roundTrip
  rw [h]

theorem queryRowScanner_healthy (p : Pool) (s : VersionedScanner) (h : p.faults = [])
    (hreg : Registered p.db s) :
    ∃ id, scannerID? p.db s = some id ∧
      queryRowScanner p s = (.ok id, { p with calls := p.calls + 1 }) := by
  unfold queryRowScanner
  rw [roundTrip_healthy p h]
  unfold Registered at hreg
  unfold scannerID?
  simp only [Bool.false_eq_true, if_false]
  cases hsel : selectScanner p.db s with
  | nil => exact absurd hsel hreg
  | cons r rest => exact ⟨r.id, by simp, rfl⟩

theorem scannerIDsLoop_healthy (format : String) (db : DB) (scnrs : List VersionedScanner)
    (hreg : ∀ s ∈ scnrs, Registered db s) :
    ∀ (n : Nat) (acc : List Int),
      scannerIDsLoop format { db := db, faults := [], calls := n } scnrs acc
        = (.ok (acc ++ resolvedIDs db scnrs),
            { db := db, faults := [], calls := n + scnrs.length }) := by
  induction scnrs with
  | nil => intro n acc; simp [scannerIDsLoop, resolvedIDs]
  | cons s rest ih =>
    intro n acc
    obtain ⟨id, hid, hq⟩ := queryRowScanner_healthy { db := db, faults := [], calls := n } s rfl
      (hreg s (List.mem_cons_self _ _))
    unfold scannerIDsLoop
    rw [hq]
    simp only []
    rw [ih (fun x hx => hreg x (List.mem_cons_of_mem _ hx))]
    simp only [resolvedIDs, List.filterMap_cons] at hid ⊢
    simp only [hid, List.append_assoc, List.singleton_append, List.length_cons]
    congr 2
    omega

theorem mem_resolvedIDs (db : DB) (scnrs : List VersionedScanner) (id : Int) :
    id ∈ resolvedIDs db scnrs ↔ ∃ s ∈ scnrs, scannerID? db s = some id := by
  simp [resolvedIDs, List.mem_filterMap]

theorem mem_foundIDsOf (rows : List Int) (id : Int) : id ∈ foundIDsOf rows ↔ id ∈ rows := by
  induction rows with
  | nil => simp [foundIDsOf]
  | cons x rest ih =>
    unfold foundIDsOf
    split
    · rename_i hx
      rw [ih, List.mem_cons]
      constructor
      · exact Or.inr
      · rintro (rfl | h)
        · exact ih.mp hx
        · exact h
    · rw [List.mem_cons, List.mem_cons, ih]

theorem foundIDsOf_length_eq_zero (rows : List Int) :
    (foundIDsOf rows).length = 0 ↔ rows = [] := by
  rw [List.length_eq_zero]
  constructor
  · intro h
    cases rows with
    | nil => rfl
    | cons x rest =>
      have : x ∈ foundIDsOf (x :: rest) := (mem_foundIDsOf _ _).mpr (List.mem_cons_self _ _)
      rw [h] at this
      exact absurd this (List.not_mem_nil _)
  · rintro rfl; rfl

theorem allFound_iff (found ids : List Int) :
    allFound found ids = true ↔ ∀ id ∈ ids, id ∈ found := by
  induction ids with
  | nil => simp [allFound]
  | cons x rest ih =>
    unfold allFound
    split
    · rename_i hx
      rw [ih]
      simp [hx]
    · rename_i hx
      simp [hx]

theorem mem_selectScanned (db : DB) (hash : Digest) (id : Int) :
    id ∈ selectScanned db hash ↔ (⟨hash, id⟩ : ScannedManifestRow) ∈ db.scanned_manifest := by
  unfold selectScanned
  simp only [List.mem_map, List.mem_filter, decide_eq_true_eq]
  constructor
  · rintro ⟨r, ⟨hr, hh⟩, hid⟩
    cases r
    simp only at hh hid
    subst hh; subst hid
    exact hr
  · intro h
    exact ⟨⟨hash, id⟩, ⟨h, rfl⟩, rfl⟩

theorem manifestScanned_healthy (db : DB) (hash : Digest) (scnrs : List VersionedScanner)
    (hreg : ∀ s ∈ scnrs, Registered db s) :
    (manifestScanned (Pool.healthy db) hash scnrs).1 =
      (decide (selectScanned db hash ≠ []) &&
        allFound (foundIDsOf (selectScanned db hash)) (resolvedIDs db scnrs), none) := by
  unfold manifestScanned Pool.healthy
  rw [scannerIDsLoop_healthy _ db scnrs hreg 0 []]
  simp only [querySelectScanned, roundTrip_healthy, Bool.false_eq_true, if_false,
    List.nil_append]
  by_cases hrows : selectScanned db hash = []
  · simp [hrows, foundIDsOf]
  · have hlen : ¬ (foundIDsOf (selectScanned db hash)).length = 0 := by
      rw [foundIDsOf_length_eq_zero]; exact hrows
    simp only [hlen, if_false, hrows, ne_eq, not_false_eq_true, decide_True, Bool.true_and]
    split <;> simp_all

/-- Claim C2, counterexample: with the empty scanner list and a manifest that has
no completion fact, every scanner of the list trivially has its fact, yet
`manifestScanned` answers `false`. -/
theorem manifestScanned_empty_list_counterexample :
    ¬ ((manifestScanned (Pool.healthy exDB) exDigest []).1 = (true, none) ↔
        ∀ s ∈ ([] : List VersionedScanner), ∃ id, scannerID? exDB s = some id ∧
          (⟨exDigest, id⟩ : ScannedManifestRow) ∈ exDB.scanned_manifest) := by
  intro h
  have hfalse : (manifestScanned (Pool.healthy exDB) exDigest []).1 = (false, none) := by decide
  have htrue := h.mpr (fun s hs => absurd hs (List.not_mem_nil s))
  rw [hfalse] at htrue
  exact absurd htrue (by decide)

/-- Claim C2, amended: over a healthy connection and for every list of registered
scanners, `manifestScanned` returns no error, and returns `true` if and only if
the manifest has at least one completion fact and every scanner of the list has
its completion fact; for a non-empty list this is: if and only if every scanner
of the list has its completion fact. -/
theorem manifestScanned_iff_covered (db : DB) (hash : Digest) (scnrs : List VersionedScanner)
    (hreg : ∀ s ∈ scnrs, Registered db s) :
    ∃ b, (manifestScanned (Pool.healthy db) hash scnrs).1 = (b, none) ∧
      (b = true ↔
        (∃ id, (⟨hash, id⟩ : ScannedManifestRow) ∈ db.scanned_manifest) ∧
        ∀ s ∈ scnrs, ∃ id, scannerID? db s = some id ∧
          (⟨hash, id⟩ : ScannedManifestRow) ∈ db.scanned_manifest) ∧
      (scnrs ≠ [] →
        (b = true ↔
          ∀ s ∈ scnrs, ∃ id, scannerID? db s = some id ∧
            (⟨hash, id⟩ : ScannedManifestRow) ∈ db.scanned_manifest)) := by
  have hall : (∀ id ∈ resolvedIDs db scnrs, id ∈ foundIDsOf (selectScanned db hash)) ↔
      ∀ s ∈ scnrs, ∃ id, scannerID? db s = some id ∧
        (⟨hash, id⟩ : ScannedManifestRow) ∈ db.scanned_manifest := by
    constructor
    · intro h s hs
      have hr := hreg s hs
      unfold Registered at hr
      cases hsel : selectScanner db s with
      | nil => exact absurd hsel hr
      | cons r rest =>
        have hid : scannerID? db s = some r.id := by simp [scannerID?, hsel]
        refine ⟨r.id, hid, ?_⟩
        have := h r.id ((mem_resolvedIDs db scnrs r.id).mpr ⟨s, hs, hid⟩)
        rwa [mem_foundIDsOf, mem_selectScanned] at this
    · intro h id hid
      obtain ⟨s, hs, hsid⟩ := (mem_resolvedIDs db scnrs id).mp hid
      obtain ⟨id2, h2, hmem⟩ := h s hs
      rw [hsid] at h2
      cases h2
      rw [mem_foundIDsOf, mem_selectScanned]
      exact hmem
  have hne : selectScanned db hash ≠ [] ↔
      ∃ id, (⟨hash, id⟩ : ScannedManifestRow) ∈ db.scanned_manifest := by
    constructor
    · intro h
      obtain ⟨id, hid⟩ := List.exists_mem_of_ne_nil _ h
      exact ⟨id, (mem_selectScanned db hash id).mp hid⟩
    · rintro ⟨id, hid⟩ h
      have := (mem_selectScanned db hash id).mpr hid
      rw [h] at this
      exact absurd this (List.not_mem_nil _)
  have hmain : (decide (selectScanned db hash ≠ []) &&
        allFound (foundIDsOf (selectScanned db hash)) (resolvedIDs db scnrs)) = true ↔
      (∃ id, (⟨hash, id⟩ : ScannedManifestRow) ∈ db.scanned_manifest) ∧
        ∀ s ∈ scnrs, ∃ id, scannerID? db s = some id ∧
          (⟨hash, id⟩ : ScannedManifestRow) ∈ db.scanned_manifest := by
    rw [Bool.and_eq_true, decide_eq_true_eq, allFound_iff, hall, hne]
  refine ⟨_, manifestScanned_healthy db hash scnrs hreg, hmain, ?_⟩
  intro hnil
  rw [hmain]
  constructor
  · exact fun h => h.2
  · intro h
    refine ⟨?_, h⟩
    obtain ⟨s, hs⟩ := List.exists_mem_of_ne_nil _ hnil
    obtain ⟨id, _, hmem⟩ := h s hs
    exact ⟨id, hmem⟩

/-- Witness of claim C2: scanners A and B are registered and only A has its
completion fact, so the answer for the list A, B is `false`. -/
theorem manifestScanned_iff_covered_witness :
    (∀ s ∈ [exScannerA, exScannerB], Registered exDB s) ∧
    ∃ b, (manifestScanned
        (Pool.healthy { exDB with scanned_manifest := [⟨exDigest, 1⟩] }) exDigest
        [exScannerA, exScannerB]).1 = (b, none) ∧
      (b = true ↔
        (∃ id, (⟨exDigest, id⟩ : ScannedManifestRow) ∈
          ({ exDB with scanned_manifest := [⟨exDigest, 1⟩] } : DB).scanned_manifest) ∧
        ∀ s ∈ [exScannerA, exScannerB], ∃ id,
          scannerID? { exDB with scanned_manifest := [⟨exDigest, 1⟩] } s = some id ∧
          (⟨exDigest, id⟩ : ScannedManifestRow) ∈
            ({ exDB with scanned_manifest := [⟨exDigest, 1⟩] } : DB).scanned_manifest) ∧
      ([exScannerA, exScannerB] ≠ [] →
        (b = true ↔
          ∀ s ∈ [exScannerA, exScannerB], ∃ id,
            scannerID? { exDB with scanned_manifest := [⟨exDigest, 1⟩] } s = some id ∧
            (⟨exDigest, id⟩ : ScannedManifestRow) ∈
              ({ exDB with scanned_manifest := [⟨exDigest, 1⟩] } : DB).scanned_manifest)) :=
  ⟨by decide,
   manifestScanned_iff_covered { exDB with scanned_manifest := [⟨exDigest, 1⟩] } exDigest
     [exScannerA, exScannerB] (by decide)⟩

/-! ## `layerScanned` -/

/-- Claim C3, the code at the failing inputs: scanners A (id 1) and B (id 2) are
registered.  When `scanned_layer` holds the one fact (d, 2), recorded by B,
`layerScanned(d, A)` answers `true` with no error although `scanned_layer` does not
hold (d, 1).  When `scanned_layer` holds both (d, 1) and (d, 2), `layerScanned(d, A)`
answers the error of a scalar subquery with more than one row although the fact
(d, 1) is recorded. -/
theorem layerScanned_ignores_scanner :
    ((layerScanned (Pool.healthy { exDB with scanned_layer := [⟨exDigest, 2⟩] })
        exDigest exScannerA).1 = (true, none) ∧
     scannerID? { exDB with scanned_layer := [⟨exDigest, 2⟩] } exScannerA = some 1 ∧
     (⟨exDigest, 1⟩ : ScannedLayerRow) ∉
      ({ exDB with scanned_layer := [⟨exDigest, 2⟩] } : DB).scanned_layer) ∧
    ((layerScanned
        (Pool.healthy { exDB with scanned_layer := [⟨exDigest, 1⟩, ⟨exDigest, 2⟩] })
        exDigest exScannerA).1 = (false, some (.pg .cardinalityViolation)) ∧
     (⟨exDigest, 1⟩ : ScannedLayerRow) ∈
      ({ exDB with scanned_layer := [⟨exDigest, 1⟩, ⟨exDigest, 2⟩] } : DB).scanned_layer) := by
  decide

/-! ## Distributed lock -/

theorem lockRoundTrip_fields (st : LockStore) (req : Request) :
    (st.roundTrip req).2.nextTx = st.nextTx ∧ (st.roundTrip req).2.openTx = st.openTx ∧
    (st.roundTrip req).2.granted = st.granted := by
  unfold LockStore.roundTrip
  split <;> exact ⟨rfl, rfl, rfl⟩

theorem lockRoundTrip_healthy (st : LockStore) (req : Request) (h : st.answers = []) :
    st.roundTrip req = (.ok, { st with log := st.log ++ [req] }) := by
  unfold LockStore.roundTrip
  rw [h]

theorem endTx_fields (st : LockStore) (tx : Nat) :
    (st.endTx tx).nextTx = st.nextTx ∧
    (st.endTx tx).granted = st.granted.filter (fun g => g.2 ≠ tx) := ⟨rfl, rfl⟩

theorem rollback_fields (st : LockStore) (tx : Nat) :
    (st.Rollback tx).nextTx = st.nextTx ∧
    (st.Rollback tx).granted = st.granted.filter (fun g => g.2 ≠ tx) := by
  unfold LockStore.Rollback
  obtain ⟨h1, _, h3⟩ := lockRoundTrip_fields st (.rollback tx)
  exact ⟨by rw [(endTx_fields _ _).1, h1], by rw [(endTx_fields _ _).2, h3]⟩

theorem begin_cases (st : LockStore) :
    (∃ e, st.Begin.1 = .error e ∧ st.Begin.2.nextTx = st.nextTx ∧
      st.Begin.2.granted = st.granted) ∨
    (st.Begin.1 = .ok st.nextTx ∧ st.Begin.2.nextTx = st.nextTx + 1 ∧
      st.Begin.2.granted = st.granted) := by
  obtain ⟨h1, _, h3⟩ := lockRoundTrip_fields st .begin
  unfold LockStore.Begin
  rcases hrt : st.roundTrip .begin with ⟨a, st1⟩
  rw [hrt] at h1 h3
  simp only at h1 h3
  cases a
  · right; simp [h1, h3]
  · left; exact ⟨_, rfl, h1, h3⟩
  · left; exact ⟨_, rfl, h1, h3⟩

theorem tryAdvisory_cases (st : LockStore) (tx : Nat) (id : Int) :
    (∃ e, (st.tryAdvisoryXactLock tx id).1 = .error e ∧
      (st.tryAdvisoryXactLock tx id).2.nextTx = st.nextTx ∧
      (st.tryAdvisoryXactLock tx id).2.granted = st.granted) ∨
    ((st.tryAdvisoryXactLock tx id).1 = .ok false ∧
      (∃ g ∈ st.granted, g.1 = id) ∧
      (st.tryAdvisoryXactLock tx id).2.nextTx = st.nextTx ∧
      (st.tryAdvisoryXactLock tx id).2.granted = st.granted) ∨
    ((st.tryAdvisoryXactLock tx id).1 = .ok true ∧
      (¬ ∃ g ∈ st.granted, g.1 = id) ∧
      (st.tryAdvisoryXactLock tx id).2.nextTx = st.nextTx ∧
      (st.tryAdvisoryXactLock tx id).2.granted = st.granted ++ [(id, tx)]) := by
  obtain ⟨h1, _, h3⟩ := lockRoundTrip_fields st (.tryAdvisory tx id)
  unfold LockStore.tryAdvisoryXactLock
  rcases hrt : st.roundTrip (.tryAdvisory tx id) with ⟨a, st1⟩
  rw [hrt] at h1 h3
  simp only at h1 h3
  cases a
  · simp only []
    by_cases hany : st1.granted.any (fun g => decide (g.1 = id)) = true
    · right; left
      rw [if_pos hany]
      refine ⟨rfl, ?_, h1, h3⟩
      rw [List.any_eq_true] at hany
      obtain ⟨g, hg, hgid⟩ := hany
      exact ⟨g, h3 ▸ hg, by simpa using hgid⟩
    · right; right
      rw [if_neg hany]
      refine ⟨rfl, ?_, h1, by simp [h3]⟩
      rintro ⟨g, hg, hgid⟩
      apply hany
      rw [List.any_eq_true]
      exact ⟨g, h3 ▸ hg, by simpa using hgid⟩
  · left; exact ⟨_, rfl, h1, h3⟩
  · left; exact ⟨_, rfl, h1, h3⟩

/-- Every way `TryLock` can end, in terms of the instance and of the handles and
grants of the server. -/
theorem tryLock_cases (l : lock) (st : LockStore) (key : String) :
    ((l.TryLock st key).1.1.1 = false ∧ (l.TryLock st key).1.2 = l ∧
      st.nextTx ≤ (l.TryLock st key).2.nextTx ∧
      (l.TryLock st key).2.granted.Sublist st.granted ∧
      (∀ g ∈ st.granted, g.2 < st.nextTx → g ∈ (l.TryLock st key).2.granted)) ∨
    ((l.TryLock st key).1.1 = (true, none) ∧ l.locked = false ∧
      (l.TryLock st key).1.2 = { l with locked := true, tx := some st.nextTx } ∧
      (l.TryLock st key).2.nextTx = st.nextTx + 1 ∧
      (l.TryLock st key).2.granted = st.granted ++ [(keyInt64 key, st.nextTx)] ∧
      ¬ ∃ g ∈ st.granted, g.1 = keyInt64 key) := by
  unfold lock.TryLock
  by_cases hl : l.locked = true
  · left
    rw [if_pos hl]
    exact ⟨rfl, rfl, le_refl _, List.Sublist.refl _, fun g hg _ => hg⟩
  · rw [if_neg hl]
    simp only []
    rcases begin_cases st with ⟨e, hb1, hb2, hb3⟩ | ⟨hb1, hb2, hb3⟩
    · left
      rcases hb : st.Begin with ⟨r, st1⟩
      rw [hb] at hb1 hb2 hb3
      simp only at hb1 hb2 hb3
      subst hb1
      simp only []
      exact ⟨trivial, trivial, by omega, by rw [hb3], fun g hg _ => by rw [hb3]; exact hg⟩
    · rcases hb : st.Begin with ⟨r, st1⟩
      rw [hb] at hb1 hb2 hb3
      simp only at hb1 hb2 hb3
      subst hb1
      simp only []
      have hkeep : ∀ (st2 : LockStore), st2.granted = st.granted →
          ∀ g ∈ st.granted, g.2 < st.nextTx → g ∈ (st2.Rollback st.nextTx).granted := by
        intro st2 h2 g hg hlt
        rw [(rollback_fields st2 st.nextTx).2, h2, List.mem_filter]
        exact ⟨hg, by simp; omega⟩
      rcases tryAdvisory_cases st1 st.nextTx (keyInt64 key) with
        ⟨e, ha1, ha2, ha3⟩ | ⟨ha1, _, ha2, ha3⟩ | ⟨ha1, hfree, ha2, ha3⟩
      · left
        rcases ha : st1.tryAdvisoryXactLock st.nextTx (keyInt64 key) with ⟨r2, st2⟩
        rw [ha] at ha1 ha2 ha3
        simp only at ha1 ha2 ha3
        subst ha1
        simp only []
        refine ⟨trivial, trivial, ?_, ?_, hkeep st2 (ha3.trans hb3)⟩
        · rw [(rollback_fields st2 st.nextTx).1]; omega
        · rw [(rollback_fields st2 st.nextTx).2, ha3, hb3]
          exact List.filter_sublist _
      · left
        rcases ha : st1.tryAdvisoryXactLock st.nextTx (keyInt64 key) with ⟨r2, st2⟩
        rw [ha] at ha1 ha2 ha3
        simp only at ha1 ha2 ha3
        subst ha1
        simp only [Bool.false_eq_true, if_false]
        refine ⟨trivial, trivial, ?_, ?_, hkeep st2 (ha3.trans hb3)⟩
        · rw [(rollback_fields st2 st.nextTx).1]; omega
        · rw [(rollback_fields st2 st.nextTx).2, ha3, hb3]
          exact List.filter_sublist _
      · right
        rcases ha : st1.tryAdvisoryXactLock st.nextTx (keyInt64 key) with ⟨r2, st2⟩
        rw [ha] at ha1 ha2 ha3
        simp only at ha1 ha2 ha3
        subst ha1
        simp only [if_true]
        refine ⟨trivial, by simpa using hl, trivial, by omega, by rw [ha3, hb3], ?_⟩
        rw [← hb3]; exact hfree

theorem commit_cases (st : LockStore) (tx : Nat) :
    ((st.Commit tx).1 = none ∧ (st.Commit tx).2.nextTx = st.nextTx ∧
      (st.Commit tx).2.granted = st.granted.filter (fun g => g.2 ≠ tx)) ∨
    ((∃ e, (st.Commit tx).1 = some e) ∧ (st.Commit tx).2.nextTx = st.nextTx ∧
      (st.Commit tx).2.granted.Sublist st.granted) := by
  obtain ⟨h1, _, h3⟩ := lockRoundTrip_fields st (.commit tx)
  unfold LockStore.Commit
  by_cases ho : tx ∈ st.openTx
  · rw [if_pos ho]
    rcases hrt : st.roundTrip (.commit tx) with ⟨a, st1⟩
    rw [hrt] at h1 h3
    simp only at h1 h3
    cases a
    · left
      exact ⟨rfl, by rw [(endTx_fields _ _).1, h1], by rw [(endTx_fields _ _).2, h3]⟩
    · right
      exact ⟨⟨_, rfl⟩, h1, by rw [h3]⟩
    · right
      refine ⟨⟨_, rfl⟩, by rw [(endTx_fields _ _).1, h1], ?_⟩
      rw [(endTx_fields _ _).2, h3]
      exact List.filter_sublist _
  · right
    rw [if_neg ho]
    exact ⟨⟨_, rfl⟩, rfl, List.Sublist.refl _⟩

/-- Every way `Unlock` can end. -/
theorem unlock_cases (l : lock) (st : LockStore) :
    ((∃ e, (l.Unlock st).1.1 = some e) ∧ (l.Unlock st).1.2 = l ∧
      (l.Unlock st).2.nextTx = st.nextTx ∧ (l.Unlock st).2.granted.Sublist st.granted) ∨
    ((l.Unlock st).1.1 = none ∧ l.locked = true ∧
      ∃ t, l.tx = some t ∧ (l.Unlock st).1.2 = { l with locked := false } ∧
        (l.Unlock st).2.nextTx = st.nextTx ∧
        (l.Unlock st).2.granted = st.granted.filter (fun g => g.2 ≠ t)) := by
  unfold lock.Unlock
  by_cases hl : l.locked = true
  · simp only [hl, Bool.not_true, Bool.false_eq_true, if_false]
    cases htx : l.tx with
    | none => left; exact ⟨⟨_, rfl⟩, rfl, rfl, List.Sublist.refl _⟩
    | some t =>
      simp only []
      rcases commit_cases st t with ⟨hc1, hc2, hc3⟩ | ⟨⟨e, hc1⟩, hc2, hc3⟩
      · right
        rcases hc : st.Commit t with ⟨r, st1⟩
        rw [hc] at hc1 hc2 hc3
        simp only at hc1 hc2 hc3
        subst hc1
        exact ⟨rfl, trivial, t, rfl, rfl, hc2, hc3⟩
      · left
        rcases hc : st.Commit t with ⟨r, st1⟩
        rw [hc] at hc1 hc2 hc3
        simp only at hc1 hc2 hc3
        subst hc1
        exact ⟨⟨_, rfl⟩, rfl, hc2, hc3⟩
  · left
    have hl2 : l.locked = false := by simpa using hl
    simp only [hl2, Bool.not_false, if_true]
    exact ⟨⟨_, rfl⟩, trivial, trivial, List.Sublist.refl _⟩

theorem granted_unique {l : List (Int × Nat)} (h : (l.map Prod.fst).Nodup) {id : Int}
    {a b : Nat} (ha : (id, a) ∈ l) (hb : (id, b) ∈ l) : a = b := by
  have := List.inj_on_of_nodup_map h ha hb rfl
  exact (Prod.mk.inj this).2

/-- The invariant survives a call that leaves the instances alone, does not
lower the next handle and only drops grants. -/
theorem World.Inv.weaken {w w1 : World} (hw : w.Inv) (hlocks : w1.locks = w.locks)
    (hnext : w.store.nextTx ≤ w1.store.nextTx)
    (hsub : w1.store.granted.Sublist w.store.granted) : w1.Inv where
  granted_lt := fun g hg => lt_of_lt_of_le (hw.granted_lt g (hsub.subset hg)) hnext
  tx_lt := fun i t ht => lt_of_lt_of_le (hw.tx_lt i t (hlocks ▸ ht)) hnext
  locked_tx := fun i hi => by rw [hlocks] at hi ⊢; exact hw.locked_tx i hi
  owner := fun g hg => by rw [hlocks]; exact hw.owner g (hsub.subset hg)
  ids_nodup := hw.ids_nodup.sublist (hsub.map Prod.fst)
  tx_inj := by rw [hlocks]; exact hw.tx_inj

theorem World.Inv.tryLock {w : World} (hw : w.Inv) (i : Nat) (key : String)
    (script : List Answer) : (w.tryLock i key script).Inv := by
  rcases tryLock_cases (w.locks i) { w.store with answers := script } key with
    ⟨_, hl, hnext, hsub, _⟩ | ⟨_, hidle, hl, hnext, hgr, hfree⟩
  · refine hw.weaken ?_ hnext hsub
    show Function.update w.locks i _ = w.locks
    rw [hl]; exact Function.update_eq_self i w.locks
  · have hlocks : ∀ j, (w.tryLock i key script).locks j =
        if j = i then { w.locks i with locked := true, tx := some w.store.nextTx }
        else w.locks j := by
      intro j
      show Function.update w.locks i _ j = _
      rw [hl]
      by_cases hj : j = i
      · subst hj; simp
      · simp [hj]
    have hnext1 : (w.tryLock i key script).store.nextTx = w.store.nextTx + 1 := hnext
    have hgr1 : (w.tryLock i key script).store.granted =
        w.store.granted ++ [(keyInt64 key, w.store.nextTx)] := hgr
    constructor
    · intro g hg
      rw [hgr1, List.mem_append, List.mem_singleton] at hg
      rw [hnext1]
      rcases hg with hg | rfl
      · exact Nat.lt_succ_of_lt (hw.granted_lt g hg)
      · exact Nat.lt_succ_self _
    · intro j t ht
      rw [hlocks] at ht
      rw [hnext1]
      by_cases hj : j = i
      · rw [if_pos hj] at ht
        simp only [Option.some.injEq] at ht
        omega
      · rw [if_neg hj] at ht
        exact Nat.lt_succ_of_lt (hw.tx_lt j t ht)
    · intro j hj
      rw [hlocks] at hj ⊢
      by_cases hji : j = i
      · rw [if_pos hji]; exact ⟨_, rfl⟩
      · rw [if_neg hji] at hj ⊢; exact hw.locked_tx j hj
    · intro g hg
      rw [hgr1, List.mem_append, List.mem_singleton] at hg
      rcases hg with hg | rfl
      · obtain ⟨j, hj1, hj2⟩ := hw.owner g hg
        have hji : j ≠ i := by
          rintro rfl
          rw [hidle] at hj1
          exact absurd hj1 (by decide)
        exact ⟨j, by rw [hlocks, if_neg hji]; exact ⟨hj1, hj2⟩⟩
      · exact ⟨i, by rw [hlocks, if_pos rfl]; exact ⟨rfl, rfl⟩⟩
    · rw [hgr1, List.map_append, List.map_singleton]
      refine List.Nodup.append hw.ids_nodup (List.nodup_singleton _) ?_
      intro x hx hx2
      rw [List.mem_singleton] at hx2
      subst hx2
      rw [List.mem_map] at hx
      obtain ⟨g, hg, hgid⟩ := hx
      exact hfree ⟨g, hg, hgid⟩
    · intro a b t ha hb hta htb
      rw [hlocks] at ha hta
      rw [hlocks] at hb htb
      by_cases hai : a = i <;> by_cases hbi : b = i
      · rw [hai, hbi]
      · rw [if_pos hai] at hta
        rw [if_neg hbi] at htb
        simp only [Option.some.injEq] at hta
        have := hw.tx_lt b t htb
        omega
      · rw [if_pos hbi] at htb
        rw [if_neg hai] at hta
        simp only [Option.some.injEq] at htb
        have := hw.tx_lt a t hta
        omega
      · rw [if_neg hai] at ha hta
        rw [if_neg hbi] at hb htb
        exact hw.tx_inj a b t ha hb hta htb

theorem World.Inv.unlock {w : World} (hw : w.Inv) (i : Nat) (script : List Answer) :
    (w.unlock i script).Inv := by
  rcases unlock_cases (w.locks i) { w.store with answers := script } with
    ⟨_, hl, hnext, hsub⟩ | ⟨_, hheld, t, htx, hl, hnext, hgr⟩
  · refine hw.weaken ?_ (le_of_eq hnext.symm) hsub
    show Function.update w.locks i _ = w.locks
    rw [hl]; exact Function.update_eq_self i w.locks
  · have hlocks : ∀ j, (w.unlock i script).locks j =
        if j = i then { w.locks i with locked := false } else w.locks j := by
      intro j
      show Function.update w.locks i _ j = _
      rw [hl]
      by_cases hj : j = i
      · subst hj; simp
      · simp [hj]
    have hnext1 : (w.unlock i script).store.nextTx = w.store.nextTx := hnext
    have hgr1 : (w.unlock i script).store.granted =
        w.store.granted.filter (fun g => g.2 ≠ t) := hgr
    constructor
    · intro g hg
      rw [hgr1] at hg
      rw [hnext1]
      exact hw.granted_lt g (List.mem_of_mem_filter hg)
    · intro j t1 ht
      rw [hlocks] at ht
      rw [hnext1]
      by_cases hj : j = i
      · rw [if_pos hj] at ht
        exact hw.tx_lt i t1 ht
      · rw [if_neg hj] at ht
        exact hw.tx_lt j t1 ht
    · intro j hj
      rw [hlocks] at hj ⊢
      by_cases hji : j = i
      · rw [if_pos hji] at hj
        exact absurd hj (by simp)
      · rw [if_neg hji] at hj ⊢; exact hw.locked_tx j hj
    · intro g hg
      rw [hgr1, List.mem_filter] at hg
      obtain ⟨j, hj1, hj2⟩ := hw.owner g hg.1
      have hji : j ≠ i := by
        rintro rfl
        rw [htx] at hj2
        simp only [Option.some.injEq] at hj2
        have := hg.2
        simp [hj2] at this
      exact ⟨j, by rw [hlocks, if_neg hji]; exact ⟨hj1, hj2⟩⟩
    · rw [hgr1]
      exact hw.ids_nodup.sublist ((List.filter_sublist _).map Prod.fst)
    · intro a b t1 ha hb hta htb
      rw [hlocks] at ha hta
      rw [hlocks] at hb htb
      by_cases hai : a = i
      · rw [if_pos hai] at ha
        exact absurd ha (by simp)
      · by_cases hbi : b = i
        · rw [if_pos hbi] at hb
          exact absurd hb (by simp)
        · rw [if_neg hai] at ha hta
          rw [if_neg hbi] at hb htb
          exact hw.tx_inj a b t1 ha hb hta htb

theorem World.Inv.init (retry : Nat → Int) :
    World.Inv { store := LockStore.init, locks := fun i => NewLock (retry i) } where
  granted_lt := fun g hg => absurd hg (List.not_mem_nil g)
  tx_lt := fun i t ht => by simp [NewLock] at ht
  locked_tx := fun i hi => by simp [NewLock] at hi
  owner := fun g hg => absurd hg (List.not_mem_nil g)
  ids_nodup := List.nodup_nil
  tx_inj := fun i j t hi => by simp [NewLock] at hi

theorem Reachable.inv {w : World} (h : Reachable w) : w.Inv := by
  induction h with
  | init retry => exact World.Inv.init retry
  | tryLock i key script _ ih => exact ih.tryLock i key script
  | unlock i script _ ih => exact ih.unlock i script

/-- An idle instance is granted a lock id that no transaction owns, when the
connection is healthy. -/
theorem tryLock_granted_of_free (l : lock) (st : LockStore) (key : String)
    (hl : l.locked = false) (hs : st.answers = [])
    (hfree : ¬ ∃ g ∈ st.granted, g.1 = keyInt64 key) :
    (l.TryLock st key).1.1 = (true, none) := by
  have hany : (st.granted.any fun g => decide (g.1 = keyInt64 key)) = false := by
    rw [Bool.eq_false_iff]
    intro h
    rw [List.any_eq_true] at h
    obtain ⟨g, hg, hgid⟩ := h
    exact hfree ⟨g, hg, by simpa using hgid⟩
  unfold lock.TryLock LockStore.Begin LockStore.tryAdvisoryXactLock
  simp [hl, lockRoundTrip_healthy, hs, hany]

/-- Claim C4, lock mutual exclusion: in every world reachable by interleaved
`TryLock` and `Unlock` calls of any number of instances, with any answers of the
server, (1) at most one instance is Held for a lock id, the id of a key being
its FNV-1a hash on every instance; (2) while an instance is Held for the id of
`key`, a `TryLock(key)` by any instance returns `false`, whatever the server
answers; (3) once the holder's `Unlock` has returned nil, a `TryLock(key)` over a
healthy connection by any idle instance, the former holder included, returns
`true` with no error; and (4) an instance whose `TryLock(key)` returns `true` is
Held for the id of `key` afterwards. -/
theorem lock_mutual_exclusion (w : World) (hw : Reachable w) :
    (∀ i j id, w.Held i id → w.Held j id → i = j) ∧
    (∀ i j key script, w.Held i (keyInt64 key) →
      ((w.locks j).TryLock { w.store with answers := script } key).1.1.1 = false) ∧
    (∀ i key script, w.Held i (keyInt64 key) →
      ((w.locks i).Unlock { w.store with answers := script }).1.1 = none →
      ((w.unlock i script).locks i).locked = false ∧
      ∀ j, ((w.unlock i script).locks j).locked = false →
        (((w.unlock i script).locks j).TryLock
          { (w.unlock i script).store with answers := [] } key).1.1 = (true, none)) ∧
    (∀ i key script,
      ((w.locks i).TryLock { w.store with answers := script } key).1.1.1 = true →
      (w.tryLock i key script).Held i (keyInt64 key)) := by
  have inv := hw.inv
  refine ⟨?_, ?_, ?_, ?_⟩
  · rintro i j id ⟨hi, ti, hti, hgi⟩ ⟨hj, tj, htj, hgj⟩
    have := granted_unique inv.ids_nodup hgi hgj
    subst this
    exact inv.tx_inj i j ti hi hj hti htj
  · rintro i j key script ⟨_, ti, _, hgi⟩
    rcases tryLock_cases (w.locks j) { w.store with answers := script } key with
      ⟨h, _⟩ | ⟨_, _, _, _, _, hfree⟩
    · exact h
    · exact absurd ⟨(keyInt64 key, ti), hgi, rfl⟩ hfree
  · rintro i key script ⟨_, ti, hti, hgi⟩ hnil
    rcases unlock_cases (w.locks i) { w.store with answers := script } with
      ⟨⟨e, he⟩, _⟩ | ⟨_, _, t, htx, hl, _, hgr⟩
    · rw [hnil] at he
      exact absurd he (by simp)
    · have htt : ti = t := by
        rw [hti] at htx
        exact Option.some.inj htx
      subst htt
      have hlocked : ((w.unlock i script).locks i).locked = false := by
        show (Function.update w.locks i _ i).locked = false
        rw [hl]; simp
      refine ⟨hlocked, fun j hj => ?_⟩
      apply tryLock_granted_of_free _ _ _ hj rfl
      rintro ⟨g, hg, hgid⟩
      have hg1 : g ∈ w.store.granted.filter (fun g => g.2 ≠ ti) := hgr ▸ hg
      rw [List.mem_filter] at hg1
      have hmem : (keyInt64 key, g.2) ∈ w.store.granted := by
        rw [← hgid]; exact hg1.1
      have := granted_unique inv.ids_nodup hmem hgi
      simp [this] at hg1
  · intro i key script htrue
    rcases tryLock_cases (w.locks i) { w.store with answers := script } key with
      ⟨h, _⟩ | ⟨_, _, hl, _, hgr, _⟩
    · rw [h] at htrue
      exact absurd htrue (by decide)
    · have hlock : (w.tryLock i key script).locks i =
          { w.locks i with locked := true, tx := some w.store.nextTx } := by
        show Function.update w.locks i _ i = _
        rw [hl]; simp
      refine ⟨by rw [hlock], w.store.nextTx, by rw [hlock], ?_⟩
      have hgr1 : (w.tryLock i key script).store.granted =
          w.store.granted ++ [(keyInt64 key, w.store.nextTx)] := hgr
      rw [hgr1]
      simp

/-- Witness of claim C4: the world in which instance 0 was granted the lock of
key "updater" is reachable, and instance 0 is Held there. -/
theorem lock_mutual_exclusion_witness :
    (Reachable exWorld ∧ exWorld.Held 0 (keyInt64 "updater")) ∧
    ((∀ i j id, exWorld.Held i id → exWorld.Held j id → i = j) ∧
    (∀ i j key script, exWorld.Held i (keyInt64 key) →
      ((exWorld.locks j).TryLock { exWorld.store with answers := script } key).1.1.1 = false) ∧
    (∀ i key script, exWorld.Held i (keyInt64 key) →
      ((exWorld.locks i).Unlock { exWorld.store with answers := script }).1.1 = none →
      ((exWorld.unlock i script).locks i).locked = false ∧
      ∀ j, ((exWorld.unlock i script).locks j).locked = false →
        (((exWorld.unlock i script).locks j).TryLock
          { (exWorld.unlock i script).store with answers := [] } key).1.1 = (true, none)) ∧
    (∀ i key script,
      ((exWorld.locks i).TryLock { exWorld.store with answers := script } key).1.1.1 = true →
      (exWorld.tryLock i key script).Held i (keyInt64 key))) :=
  ⟨⟨Reachable.tryLock 0 "updater" [] (Reachable.init _),
     by refine ⟨by decide, 0, by decide, ?_⟩; decide⟩,
   lock_mutual_exclusion exWorld (Reachable.tryLock 0 "updater" [] (Reachable.init _))⟩

/-! ## `registerScanners` -/

theorem mem_selectScanner (db : DB) (s : VersionedScanner) (r : ScannerRow) :
    r ∈ selectScanner db s ↔ r ∈ db.scanner ∧ r.identity = s.identity := by
  unfold selectScanner ScannerRow.identity VersionedScanner.identity
  simp only [List.mem_filter, decide_eq_true_eq, Prod.mk.injEq]

theorem registered_iff (db : DB) (s : VersionedScanner) :
    Registered db s ↔ ∃ r ∈ db.scanner, r.identity = s.identity := by
  unfold Registered
  constructor
  · intro h
    obtain ⟨r, hr⟩ := List.exists_mem_of_ne_nil _ h
    exact ⟨r, (mem_selectScanner db s r).mp hr⟩
  · rintro ⟨r, hr, hid⟩ h
    have := (mem_selectScanner db s r).mpr ⟨hr, hid⟩
    rw [h] at this
    exact absurd this (List.not_mem_nil _)

theorem registered_mono {db db1 : DB} (h : ∀ r ∈ db.scanner, r ∈ db1.scanner)
    {s : VersionedScanner} (hs : Registered db s) : Registered db1 s := by
  rw [registered_iff] at hs ⊢
  obtain ⟨r, hr, hid⟩ := hs
  exact ⟨r, h r hr, hid⟩

theorem filter_identity_length_le_one (l : List ScannerRow) (k : String × String × String)
    (h : (l.map ScannerRow.identity).Nodup) :
    (l.filter (fun r => decide (r.identity = k))).length ≤ 1 := by
  induction l with
  | nil => simp
  | cons r rest ih =>
    rw [List.map_cons, List.nodup_cons] at h
    by_cases hr : r.identity = k
    · have hrest : rest.filter (fun r => decide (r.identity = k)) = [] := by
        rw [List.filter_eq_nil_iff]
        intro x hx
        simp only [decide_eq_true_eq]
        intro hxk
        apply h.1
        rw [hr, ← hxk]
        exact List.mem_map_of_mem _ hx
      simp [List.filter_cons, hr, hrest]
    · simp only [List.filter_cons, hr, decide_False, Bool.false_eq_true, if_false]
      exact ih h.2

theorem selectScanner_eq_filter_identity (db : DB) (s : VersionedScanner) :
    selectScanner db s = db.scanner.filter (fun r => decide (r.identity = s.identity)) := by
  unfold selectScanner ScannerRow.identity VersionedScanner.identity
  congr 1
  funext r
  simp only [Prod.mk.injEq]

theorem selectScanner_singleton (db : DB) (s : VersionedScanner) (hu : db.scannerUnique)
    (hs : Registered db s) : ∃ r, selectScanner db s = [r] := by
  have hlen : (selectScanner db s).length ≤ 1 := by
    rw [selectScanner_eq_filter_identity]
    exact filter_identity_length_le_one _ _ hu
  unfold Registered at hs
  cases hsel : selectScanner db s with
  | nil => exact absurd hsel hs
  | cons r rest =>
    rw [hsel] at hlen
    cases rest with
    | nil => exact ⟨r, rfl⟩
    | cons _ _ => simp at hlen

theorem lookupLoop_db (scnrs : List VersionedScanner) :
    ∀ p : Pool, (lookupLoop p scnrs).2.db = p.db := by
  induction scnrs with
  | nil => intro p; rfl
  | cons s rest ih =>
    intro p
    unfold lookupLoop
    have hq := queryRowScanner_db p s
    rcases hres : queryRowScanner p s with ⟨r, p1⟩
    rw [hres] at hq
    cases r <;> simp only [] <;> rw [ih] <;> exact hq

theorem queryRowScanner_ok_registered (p : Pool) (s : VersionedScanner) (id : Int) (p1 : Pool)
    (h : queryRowScanner p s = (.ok id, p1)) : Registered p.db s := by
  unfold queryRowScanner at h
  dsimp only at h
  split at h
  · simp at h
  · unfold Registered
    rw [roundTrip_db] at h
    intro hnil
    rw [hnil] at h
    simp at h

/-- A valid id of the first loop comes from a row of `scanner`. -/
theorem lookupLoop_valid (scnrs : List VersionedScanner) :
    ∀ p : Pool, List.Forall₂ (fun (id : NullInt64) s => id.Valid = true → Registered p.db s)
      (lookupLoop p scnrs).1 scnrs := by
  induction scnrs with
  | nil => intro p; exact List.Forall₂.nil
  | cons s rest ih =>
    intro p
    unfold lookupLoop
    have hq := queryRowScanner_db p s
    rcases hres : queryRowScanner p s with ⟨r, p1⟩
    rw [hres] at hq
    simp only at hq
    have ih1 := ih p1
    rw [hq] at ih1
    cases r with
    | error e =>
      simp only []
      exact List.Forall₂.cons (fun h => absurd h (by simp)) ih1
    | ok id =>
      simp only []
      exact List.Forall₂.cons (fun _ => queryRowScanner_ok_registered p s id p1 hres) ih1

/-- Effect of the `insertScanner` statement on the relation. -/
theorem execInsertScanner_cases (p : Pool) (s : VersionedScanner) :
    ((execInsertScanner p s).2.db.scanner = p.db.scanner ∧
      ((execInsertScanner p s).1 = none → Registered p.db s)) ∨
    ((execInsertScanner p s).1 = none ∧ ¬ Registered p.db s ∧
      (execInsertScanner p s).2.db.scanner =
        p.db.scanner ++ [⟨p.db.scanner_id_seq + 1, s.Name, s.Version, s.Kind⟩]) := by
  unfold execInsertScanner
  dsimp only
  by_cases hf : p.roundTrip.1 = true
  · left
    rw [if_pos hf]
    exact ⟨by simp, fun h => absurd h (by simp)⟩
  · rw [if_neg hf]
    rw [roundTrip_db]
    cases hsel : selectScanner p.db s with
    | nil =>
      right
      exact ⟨rfl, fun h => h hsel, rfl⟩
    | cons r rest =>
      left
      refine ⟨rfl, fun _ => ?_⟩
      unfold Registered
      rw [hsel]
      exact List.cons_ne_nil _ _

theorem execInsertScanner_spec (p : Pool) (s : VersionedScanner) :
    (∀ r ∈ p.db.scanner, r ∈ (execInsertScanner p s).2.db.scanner) ∧
    (p.db.scannerUnique → (execInsertScanner p s).2.db.scannerUnique) ∧
    ((execInsertScanner p s).1 = none → Registered (execInsertScanner p s).2.db s) ∧
    (Registered p.db s → (execInsertScanner p s).2.db.scanner = p.db.scanner) := by
  rcases execInsertScanner_cases p s with ⟨h1, h2⟩ | ⟨_, h2, h3⟩
  · refine ⟨fun r hr => h1 ▸ hr, fun hu => ?_, fun hn => ?_, fun _ => h1⟩
    · unfold DB.scannerUnique at hu ⊢
      rw [h1]; exact hu
    · exact registered_mono (fun r hr => h1 ▸ hr) (h2 hn)
  · refine ⟨fun r hr => ?_, fun hu => ?_, fun _ => ?_, fun hreg => absurd hreg h2⟩
    · rw [h3]; exact List.mem_append_left _ hr
    · unfold DB.scannerUnique at hu ⊢
      rw [h3, List.map_append, List.map_singleton]
      refine List.Nodup.append hu (List.nodup_singleton _) ?_
      intro k hk hk2
      rw [List.mem_singleton] at hk2
      rw [List.mem_map] at hk
      obtain ⟨r, hr, hrk⟩ := hk
      apply h2
      rw [registered_iff]
      exact ⟨r, hr, by rw [hrk, hk2]; rfl⟩
    · rw [registered_iff]
      exact ⟨⟨p.db.scanner_id_seq + 1, s.Name, s.Version, s.Kind⟩,
        by rw [h3]; exact List.mem_append_right _ (List.mem_singleton_self _), rfl⟩

theorem insertLoop_spec (ids : List NullInt64) :
    ∀ (scnrs : List VersionedScanner) (p : Pool),
      List.Forall₂ (fun (id : NullInt64) s => id.Valid = true → Registered p.db s) ids scnrs →
      (∀ r ∈ p.db.scanner, r ∈ (insertLoop p ids scnrs).2.db.scanner) ∧
      (p.db.scannerUnique → (insertLoop p ids scnrs).2.db.scannerUnique) ∧
      ((insertLoop p ids scnrs).1 = none →
        ∀ s ∈ scnrs, Registered (insertLoop p ids scnrs).2.db s) := by
  induction ids with
  | nil =>
    intro scnrs p h
    cases h
    simp [insertLoop]
  | cons id ids ih =>
    intro scnrs p h
    cases h with
    | cons hhead htail =>
      rename_i s rest
      by_cases hv : id.Valid = true
      · have heq : insertLoop p (id :: ids) (s :: rest) = insertLoop p ids rest := by
          simp [insertLoop, hv]
        rw [heq]
        obtain ⟨h1, h2, h3⟩ := ih rest p htail
        refine ⟨h1, h2, fun hn x hx => ?_⟩
        rw [List.mem_cons] at hx
        rcases hx with rfl | hx
        · exact registered_mono h1 (hhead hv)
        · exact h3 hn x hx
      · obtain ⟨e1, e2, e3, _⟩ := execInsertScanner_spec p s
        rcases hex : execInsertScanner p s with ⟨r, p1⟩
        rw [hex] at e1 e2 e3
        simp only at e1 e2 e3
        cases r with
        | some e =>
          have heq : insertLoop p (id :: ids) (s :: rest) =
              (some (.wrap "failed to insert scanner %v: %v" (.pg e)), p1) := by
            simp [insertLoop, hv, hex]
          rw [heq]
          exact ⟨e1, e2, fun hn => absurd hn (by simp)⟩
        | none =>
          have heq : insertLoop p (id :: ids) (s :: rest) = insertLoop p1 ids rest := by
            simp [insertLoop, hv, hex]
          rw [heq]
          have htail1 : List.Forall₂
              (fun (id : NullInt64) s => id.Valid = true → Registered p1.db s) ids rest :=
            htail.imp (fun _ _ hab hval => registered_mono e1 (hab hval))
          obtain ⟨h1, h2, h3⟩ := ih rest p1 htail1
          refine ⟨fun r hr => h1 r (e1 r hr), fun hu => h2 (e2 hu), fun hn x hx => ?_⟩
          rw [List.mem_cons] at hx
          rcases hx with rfl | hx
          · exact registered_mono h1 (e3 rfl)
          · exact h3 hn x hx

theorem insertLoop_rows_of_registered (ids : List NullInt64) :
    ∀ (scnrs : List VersionedScanner) (p : Pool), (∀ s ∈ scnrs, Registered p.db s) →
      (insertLoop p ids scnrs).2.db.scanner = p.db.scanner := by
  induction ids with
  | nil => intro scnrs p _; simp [insertLoop]
  | cons id ids ih =>
    intro scnrs p h
    cases scnrs with
    | nil => simp [insertLoop]
    | cons s rest =>
      have hrest : ∀ x ∈ rest, Registered p.db x := fun x hx => h x (List.mem_cons_of_mem _ hx)
      by_cases hv : id.Valid = true
      · have heq : insertLoop p (id :: ids) (s :: rest) = insertLoop p ids rest := by
          simp [insertLoop, hv]
        rw [heq]
        exact ih rest p hrest
      · obtain ⟨_, _, _, e4⟩ := execInsertScanner_spec p s
        have hsame := e4 (h s (List.mem_cons_self _ _))
        rcases hex : execInsertScanner p s with ⟨r, p1⟩
        rw [hex] at hsame
        simp only at hsame
        cases r with
        | some e =>
          have heq : insertLoop p (id :: ids) (s :: rest) =
              (some (.wrap "failed to insert scanner %v: %v" (.pg e)), p1) := by
            simp [insertLoop, hv, hex]
          rw [heq]
          exact hsame
        | none =>
          have heq : insertLoop p (id :: ids) (s :: rest) = insertLoop p1 ids rest := by
            simp [insertLoop, hv, hex]
          rw [heq, ih rest p1 (fun x hx => registered_mono (fun r hr => hsame ▸ hr) (hrest x hx))]
          exact hsame

theorem lookupLoop_healthy (db : DB) (scnrs : List VersionedScanner)
    (hreg : ∀ s ∈ scnrs, Registered db s) :
    ∀ n : Nat, (∀ id ∈ (lookupLoop { db := db, faults := [], calls := n } scnrs).1,
        id.Valid = true) ∧
      (lookupLoop { db := db, faults := [], calls := n } scnrs).2 =
        { db := db, faults := [], calls := n + scnrs.length } := by
  induction scnrs with
  | nil => intro n; simp [lookupLoop]
  | cons s rest ih =>
    intro n
    obtain ⟨id, _, hq⟩ := queryRowScanner_healthy { db := db, faults := [], calls := n } s rfl
      (hreg s (List.mem_cons_self _ _))
    obtain ⟨h1, h2⟩ := ih (fun x hx => hreg x (List.mem_cons_of_mem _ hx)) (n + 1)
    unfold lookupLoop
    rw [hq]
    simp only []
    constructor
    · intro x hx
      rw [List.mem_cons] at hx
      rcases hx with rfl | hx
      · rfl
      · exact h1 x hx
    · rw [h2, List.length_cons]
      congr 1
      omega

theorem insertLoop_all_valid (ids : List NullInt64) :
    ∀ (scnrs : List VersionedScanner) (p : Pool), (∀ id ∈ ids, id.Valid = true) →
      insertLoop p ids scnrs = (none, p) := by
  induction ids with
  | nil => intro scnrs p _; simp [insertLoop]
  | cons id ids ih =>
    intro scnrs p h
    cases scnrs with
    | nil => simp [insertLoop]
    | cons s rest =>
      have hv := h id (List.mem_cons_self _ _)
      have heq : insertLoop p (id :: ids) (s :: rest) = insertLoop p ids rest := by
        simp [insertLoop, hv]
      rw [heq]
      exact ih rest p (fun x hx => h x (List.mem_cons_of_mem _ hx))

/-- Claim C5, idempotent registration: for every store state whose `scanner`
relation satisfies its unique constraint, every list of scanners (duplicates
allowed) and every script of connection failures, every row of `scanner` present
before `registerScanners` is present afterwards, the id an identity resolved to
is the id it resolves to afterwards, and the unique constraint still holds; and
after a call that returned nil every listed identity resolves to exactly one
row, a second call over a healthy connection returns nil after its lookups
alone, leaving the database as it is, and a second call over any connection
leaves the rows of `scanner` as they are. -/
theorem registerScanners_idempotent (p : Pool) (scnrs : List VersionedScanner)
    (hu : p.db.scannerUnique) :
    (∀ r ∈ p.db.scanner, r ∈ (registerScanners p scnrs).2.db.scanner) ∧
    (∀ s id, scannerID? p.db s = some id →
      scannerID? (registerScanners p scnrs).2.db s = some id) ∧
    (registerScanners p scnrs).2.db.scannerUnique ∧
    ((registerScanners p scnrs).1 = none →
      (∀ s ∈ scnrs, ∃ r, selectScanner (registerScanners p scnrs).2.db s = [r]) ∧
      registerScanners (Pool.healthy (registerScanners p scnrs).2.db) scnrs =
        (none, { db := (registerScanners p scnrs).2.db, faults := [],
                 calls := scnrs.length }) ∧
      ∀ (faults : List Bool) (n : Nat),
        (registerScanners { db := (registerScanners p scnrs).2.db, faults := faults, calls := n }
          scnrs).2.db.scanner = (registerScanners p scnrs).2.db.scanner) := by
  have hvalid := lookupLoop_valid scnrs p
  have hdb := lookupLoop_db scnrs p
  have hvalid1 : List.Forall₂
      (fun (id : NullInt64) s => id.Valid = true → Registered (lookupLoop p scnrs).2.db s)
      (lookupLoop p scnrs).1 scnrs := by rw [hdb]; exact hvalid
  obtain ⟨h1, h2, h3⟩ := insertLoop_spec (lookupLoop p scnrs).1 scnrs (lookupLoop p scnrs).2 hvalid1
  rw [hdb] at h1 h2
  have hreg : registerScanners p scnrs =
      insertLoop (lookupLoop p scnrs).2 (lookupLoop p scnrs).1 scnrs := rfl
  rw [← hreg] at h1 h2 h3
  have hu1 := h2 hu
  refine ⟨h1, ?_, hu1, fun hn => ?_⟩
  · intro s id hid
    unfold scannerID? at hid
    cases hsel : selectScanner p.db s with
    | nil => rw [hsel] at hid; simp at hid
    | cons r rest =>
      rw [hsel] at hid
      simp only [List.head?_cons, Option.map_some', Option.some.injEq] at hid
      have hr : r ∈ selectScanner p.db s := by rw [hsel]; exact List.mem_cons_self _ _
      rw [mem_selectScanner] at hr
      have hr1 : r ∈ selectScanner (registerScanners p scnrs).2.db s :=
        (mem_selectScanner _ _ _).mpr ⟨h1 r hr.1, hr.2⟩
      obtain ⟨r1, hr1eq⟩ := selectScanner_singleton _ s hu1
        ((registered_iff _ _).mpr ⟨r, h1 r hr.1, hr.2⟩)
      rw [hr1eq, List.mem_singleton] at hr1
      unfold scannerID?
      rw [hr1eq, ← hr1]
      simp [hid]
  · have hall := h3 hn
    refine ⟨fun s hs => selectScanner_singleton _ s hu1 (hall s hs), ?_, ?_⟩
    · obtain ⟨hv, hp⟩ := lookupLoop_healthy (registerScanners p scnrs).2.db scnrs hall 0
      show insertLoop (lookupLoop (Pool.healthy _) scnrs).2 (lookupLoop (Pool.healthy _) scnrs).1
        scnrs = _
      unfold Pool.healthy
      rw [insertLoop_all_valid _ _ _ hv, hp]
      simp
    · intro faults n
      show (insertLoop (lookupLoop _ scnrs).2 (lookupLoop _ scnrs).1 scnrs).2.db.scanner = _
      have hdb2 := lookupLoop_db scnrs
        { db := (registerScanners p scnrs).2.db, faults := faults, calls := n }
      rw [insertLoop_rows_of_registered _ _ _ (by rw [hdb2]; exact hall), hdb2]

/-- Witness of claim C5: scanner A is registered and keeps id 1; C and B are
new and get ids 2 and 3; the second mention of C changes no row. -/
theorem registerScanners_idempotent_witness :
    (exDBA.scannerUnique ∧
     (registerScanners (Pool.healthy exDBA) exScanners).2.db.scanner =
      [⟨1, "dpkg", "1.0", "package"⟩, ⟨2, "apk", "3", "package"⟩,
       ⟨3, "rpm", "1.0", "package"⟩]) ∧
    ((∀ r ∈ (Pool.healthy exDBA).db.scanner,
        r ∈ (registerScanners (Pool.healthy exDBA) exScanners).2.db.scanner) ∧
    (∀ s id, scannerID? (Pool.healthy exDBA).db s = some id →
      scannerID? (registerScanners (Pool.healthy exDBA) exScanners).2.db s = some id) ∧
    (registerScanners (Pool.healthy exDBA) exScanners).2.db.scannerUnique ∧
    ((registerScanners (Pool.healthy exDBA) exScanners).1 = none →
      (∀ s ∈ exScanners, ∃ r,
        selectScanner (registerScanners (Pool.healthy exDBA) exScanners).2.db s = [r]) ∧
      registerScanners (Pool.healthy (registerScanners (Pool.healthy exDBA) exScanners).2.db)
          exScanners =
        (none, { db := (registerScanners (Pool.healthy exDBA) exScanners).2.db, faults := [],
                 calls := exScanners.length }) ∧
      ∀ (faults : List Bool) (n : Nat),
        (registerScanners
          { db := (registerScanners (Pool.healthy exDBA) exScanners).2.db, faults := faults,
            calls := n } exScanners).2.db.scanner =
          (registerScanners (Pool.healthy exDBA) exScanners).2.db.scanner)) :=
  ⟨⟨by decide, by decide⟩,
   registerScanners_idempotent (Pool.healthy exDBA) exScanners (by decide)⟩

/-! ## Artifacts by layer -/

theorem scannerIDsLoop_ok (format : String) (scnrs : List VersionedScanner) :
    ∀ (p : Pool) (acc ids : List Int) (p1 : Pool),
      scannerIDsLoop format p scnrs acc = (.ok ids, p1) →
      (∀ s ∈ scnrs, Registered p.db s) ∧ ids = acc ++ resolvedIDs p.db scnrs := by
  induction scnrs with
  | nil =>
    intro p acc ids p1 h
    simp only [scannerIDsLoop, Prod.mk.injEq, Except.ok.injEq] at h
    simp [resolvedIDs, h.1]
  | cons s rest ih =>
    intro p acc ids p1 h
    unfold scannerIDsLoop at h
    have hdb := queryRowScanner_db p s
    rcases hq : queryRowScanner p s with ⟨r, p2⟩
    rw [hq] at h hdb
    simp only at hdb
    cases r with
    | error e => simp at h
    | ok id =>
      simp only at h
      obtain ⟨h1, h2⟩ := ih p2 _ ids p1 h
      rw [hdb] at h1 h2
      have hreg := queryRowScanner_ok_registered p s id p2 hq
      have hid : scannerID? p.db s = some id := by
        unfold queryRowScanner at hq
        dsimp only at hq
        split at hq
        · simp at hq
        · rw [roundTrip_db] at hq
          unfold scannerID?
          cases hsel : selectScanner p.db s with
          | nil => rw [hsel] at hq; simp at hq
          | cons r0 rest0 =>
            rw [hsel] at hq
            simp only [Prod.mk.injEq, Except.ok.injEq] at hq
            simp [hq.1]
      refine ⟨fun x hx => ?_, ?_⟩
      · rw [List.mem_cons] at hx
        rcases hx with rfl | hx
        · exact hreg
        · exact h1 x hx
      · rw [h2]
        simp [resolvedIDs, List.filterMap_cons, hid]

theorem scannerIDsLoop_error_of_unregistered (format : String) (scnrs : List VersionedScanner)
    (p : Pool) (acc : List Int) (h : ∃ s ∈ scnrs, ¬ Registered p.db s) :
    ∃ e p1, scannerIDsLoop format p scnrs acc = (.error e, p1) := by
  rcases hres : scannerIDsLoop format p scnrs acc with ⟨r, p1⟩
  cases r with
  | error e => exact ⟨e, p1, rfl⟩
  | ok ids =>
    obtain ⟨s, hs, hns⟩ := h
    exact absurd ((scannerIDsLoop_ok format scnrs p acc ids p1 hres).1 s hs) hns

theorem poolQuery_healthy {α : Type} (db : DB) (n : Nat) (rows : DB → List α) :
    poolQuery { db := db, faults := [], calls := n } rows =
      (.ok (rows db), { db := db, faults := [], calls := n + 1 }) := by
  unfold poolQuery
  rw [roundTrip_healthy _ rfl]
  rfl

theorem mem_leftJoin_fst {α β : Type} (a : List α) (b : List β) (cond : α → β → Bool)
    (row : α × Option β) (h : row ∈ leftJoin a b cond) : row.1 ∈ a := by
  unfold leftJoin at h
  rw [List.mem_flatMap] at h
  obtain ⟨x, hx, hrow⟩ := h
  split at hrow
  · rw [List.mem_singleton] at hrow
    rw [hrow]; exact hx
  · rw [List.mem_map] at hrow
    obtain ⟨z, _, hz⟩ := hrow
    rw [← hz]; exact hx

theorem filter_key_singleton {β : Type} (b : List β) (f : β → Int) (hu : (b.map f).Nodup)
    (r : β) (hr : r ∈ b) : b.filter (fun x => decide (f r = f x)) = [r] := by
  induction b with
  | nil => exact absurd hr (List.not_mem_nil _)
  | cons y rest ih =>
    rw [List.map_cons, List.nodup_cons] at hu
    rw [List.mem_cons] at hr
    rcases hr with rfl | hr
    · have hrest : rest.filter (fun x => decide (f r = f x)) = [] := by
        rw [List.filter_eq_nil_iff]
        intro x hx
        simp only [decide_eq_true_eq]
        intro hxk
        apply hu.1
        rw [hxk]
        exact List.mem_map_of_mem _ hx
      simp [List.filter_cons, hrest]
    · have hne : f r ≠ f y := by
        intro heq
        apply hu.1
        rw [← heq]
        exact List.mem_map_of_mem _ hr
      simp only [List.filter_cons, hne, decide_False, Bool.false_eq_true, if_false]
      exact ih hu.2 hr

theorem exists_forall₂ {α β : Type} (R : α → β → Prop) (l : List α)
    (h : ∀ a ∈ l, ∃ b, R a b) : ∃ bs, List.Forall₂ R l bs := by
  induction l with
  | nil => exact ⟨[], List.Forall₂.nil⟩
  | cons a rest ih =>
    obtain ⟨b, hb⟩ := h a (List.mem_cons_self _ _)
    obtain ⟨bs, hbs⟩ := ih (fun x hx => h x (List.mem_cons_of_mem _ hx))
    exact ⟨b :: bs, List.Forall₂.cons hb hbs⟩

/-- A left join along a reference to a key, then a selection on the left row:
the selected left rows, each with its one partner. -/
theorem leftJoin_filter_of_key {α β : Type} (a : List α) (b : List β) (ref : α → Int)
    (key : β → Int) (hu : (b.map key).Nodup) (hfk : ∀ x ∈ a, ∃ r ∈ b, key r = ref x)
    (sel : α → Bool) :
    ∃ rows, (leftJoin a b (fun x r => decide (ref x = key r))).filter (fun row => sel row.1)
        = rows ∧
      List.Forall₂ (fun x (row : α × Option β) =>
        ∃ r ∈ b, key r = ref x ∧ row = (x, some r)) (a.filter sel) rows := by
  refine ⟨_, rfl, ?_⟩
  induction a with
  | nil => exact List.Forall₂.nil
  | cons x rest ih =>
    have ih1 := ih (fun y hy => hfk y (List.mem_cons_of_mem _ hy))
    obtain ⟨r, hr, hrk⟩ := hfk x (List.mem_cons_self _ _)
    have hone : b.filter (fun z => decide (ref x = key z)) = [r] := by
      rw [← hrk]; exact filter_key_singleton b key hu r hr
    have hjoin : leftJoin (x :: rest) b (fun x r => decide (ref x = key r)) =
        (x, some r) :: leftJoin rest b (fun x r => decide (ref x = key r)) := by
      unfold leftJoin
      rw [List.flatMap_cons, hone]
      rfl
    rw [hjoin, List.filter_cons, List.filter_cons]
    by_cases hs : sel x = true
    · simp only [hs, if_true]
      exact List.Forall₂.cons ⟨r, hr, hrk, rfl⟩ ih1
    · simp only [hs, Bool.false_eq_true, if_false]
      exact ih1

theorem distRows_ok (rows : List (DistScanArtifactRow × Option DistRow)) :
    ∀ (acc res : List Distribution),
      List.Forall₂ (fun row x => scanDist row = some x) rows res →
      distRows rows acc = (some (acc ++ res), none) := by
  induction rows with
  | nil => intro acc res h; cases h; simp [distRows]
  | cons row rest ih =>
    intro acc res h
    cases h with
    | cons hhead htail =>
      unfold distRows
      rw [hhead]
      simp only []
      rw [ih _ _ htail]
      simp

theorem repoRows_ok (rows : List (RepoScanArtifactRow × Option RepoRow)) :
    ∀ (acc res : List Repository),
      List.Forall₂ (fun row x => scanRepo row = some x) rows res →
      repoRows rows acc = (some (acc ++ res), none) := by
  induction rows with
  | nil => intro acc res h; cases h; simp [repoRows]
  | cons row rest ih =>
    intro acc res h
    cases h with
    | cons hhead htail =>
      unfold repoRows
      rw [hhead]
      simp only []
      rw [ih _ _ htail]
      simp

theorem packageRows_ok
    (rows : List ((PackageScanArtifactRow × Option PackageRow) × Option PackageRow)) :
    ∀ (acc res : List Package),
      List.Forall₂ (fun row x => scanPackage row = some (.ret x)) rows res →
      packageRows rows acc = .ret (some (acc ++ res), none) := by
  induction rows with
  | nil => intro acc res h; cases h; simp [packageRows]
  | cons row rest ih =>
    intro acc res h
    cases h with
    | cons hhead htail =>
      unfold packageRows
      rw [hhead]
      simp only []
      rw [ih _ _ htail]
      simp

theorem forall₂_chain {α β γ : Type} (R : α → β → Prop) (S : β → γ → Prop)
    (hS : ∀ a b, R a b → ∃ c, S b c) {as : List α} {bs : List β} (h : List.Forall₂ R as bs) :
    ∃ cs, List.Forall₂ S bs cs ∧ List.Forall₂ (fun a c => ∃ b, R a b ∧ S b c) as cs := by
  induction h with
  | nil => exact ⟨[], List.Forall₂.nil, List.Forall₂.nil⟩
  | @cons a b as1 bs1 hab _ ih =>
    obtain ⟨c, hc⟩ := hS a b hab
    obtain ⟨cs, h1, h2⟩ := ih
    exact ⟨c :: cs, List.Forall₂.cons hc h1, List.Forall₂.cons ⟨b, hab, hc⟩ h2⟩

/-- What `distributionsByLayer` answers over a healthy connection and a store that
satisfies its schema. -/
theorem distributionsByLayer_healthy (db : DB) (hash : Digest) (scnrs : List VersionedScanner)
    (hne : scnrs ≠ []) (hreg : ∀ s ∈ scnrs, Registered db s) (hint : db.distIntegrity) :
    ∃ res, (distributionsByLayer (Pool.healthy db) hash scnrs).1 = (some res, none) ∧
      List.Forall₂ (fun (l : DistScanArtifactRow) x =>
          ∃ r ∈ db.dist, r.id = l.dist_id ∧ scanDist (l, some r) = some x)
        (db.dist_scanartifact.filter
          (fun l => l.layer_hash = hash ∧ l.scanner_id ∈ resolvedIDs db scnrs)) res := by
  have hlen : ¬ scnrs.length = 0 := fun h => hne (List.length_eq_zero.mp h)
  unfold distributionsByLayer Pool.healthy
  rw [if_neg hlen, scannerIDsLoop_healthy _ db scnrs hreg 0 [], List.nil_append]
  simp only [poolQuery_healthy]
  obtain ⟨rows, hrows, hall⟩ := leftJoin_filter_of_key db.dist_scanartifact db.dist
    (fun l => l.dist_id) (fun r => r.id) hint.1 hint.2
    (fun l => decide (l.layer_hash = hash ∧ l.scanner_id ∈ resolvedIDs db scnrs))
  have hq : distQuery db hash (resolvedIDs db scnrs) = rows := hrows
  rw [hq]
  obtain ⟨res, hres, hlinks⟩ := forall₂_chain _ (fun row x => scanDist row = some x)
    (fun l row h => by
      obtain ⟨r, _, _, hrow⟩ := h
      rw [hrow]; exact ⟨_, rfl⟩) hall
  refine ⟨res, by rw [distRows_ok rows [] res hres, List.nil_append], ?_⟩
  refine hlinks.imp ?_
  rintro l x ⟨row, ⟨r, hr, hrk, hrow⟩, hscan⟩
  exact ⟨r, hr, hrk, hrow ▸ hscan⟩

/-- What `repositoriesByLayer` answers over a healthy connection and a store that
satisfies its schema. -/
theorem repositoriesByLayer_healthy (db : DB) (hash : Digest) (scnrs : List VersionedScanner)
    (hne : scnrs ≠ []) (hreg : ∀ s ∈ scnrs, Registered db s) (hint : db.repoIntegrity) :
    ∃ res, (repositoriesByLayer (Pool.healthy db) hash scnrs).1 = (some res, none) ∧
      List.Forall₂ (fun (l : RepoScanArtifactRow) x =>
          ∃ r ∈ db.repo, r.id = l.repo_id ∧ scanRepo (l, some r) = some x)
        (db.repo_scanartifact.filter
          (fun l => l.layer_hash = hash ∧ l.scanner_id ∈ resolvedIDs db scnrs)) res := by
  have hlen : ¬ scnrs.length = 0 := fun h => hne (List.length_eq_zero.mp h)
  unfold repositoriesByLayer Pool.healthy
  rw [if_neg hlen, scannerIDsLoop_healthy _ db scnrs hreg 0 [], List.nil_append]
  simp only [poolQuery_healthy]
  obtain ⟨rows, hrows, hall⟩ := leftJoin_filter_of_key db.repo_scanartifact db.repo
    (fun l => l.repo_id) (fun r => r.id) hint.1 hint.2
    (fun l => decide (l.layer_hash = hash ∧ l.scanner_id ∈ resolvedIDs db scnrs))
  have hq : repoQuery db hash (resolvedIDs db scnrs) = rows := hrows
  rw [hq]
  obtain ⟨res, hres, hlinks⟩ := forall₂_chain _ (fun row x => scanRepo row = some x)
    (fun l row h => by
      obtain ⟨r, _, _, hrow⟩ := h
      rw [hrow]; exact ⟨_, rfl⟩) hall
  refine ⟨res, by rw [repoRows_ok rows [] res hres, List.nil_append], ?_⟩
  refine hlinks.imp ?_
  rintro l x ⟨row, ⟨r, hr, hrk, hrow⟩, hscan⟩
  exact ⟨r, hr, hrk, hrow ▸ hscan⟩

theorem forall₂_comp {α β γ : Type} {R : α → β → Prop} {S : β → γ → Prop}
    {as : List α} {bs : List β} (h1 : List.Forall₂ R as bs) :
    ∀ {cs : List γ}, List.Forall₂ S bs cs →
      List.Forall₂ (fun a c => ∃ b, R a b ∧ S b c) as cs := by
  induction h1 with
  | nil => intro cs h2; cases h2; exact List.Forall₂.nil
  | @cons a b as1 bs1 hab _ ih =>
    intro cs h2
    cases h2 with
    | cons hbc htail => exact List.Forall₂.cons ⟨b, hab, hbc⟩ (ih htail)

theorem forall₂_filter {α β : Type} {R : α → β → Prop} (p : α → Bool) (q : β → Bool)
    (hpq : ∀ a b, R a b → p a = q b) {as : List α} {bs : List β}
    (h : List.Forall₂ R as bs) : List.Forall₂ R (as.filter p) (bs.filter q) := by
  induction h with
  | nil => exact List.Forall₂.nil
  | @cons a b as1 bs1 hab _ ih =>
    rw [List.filter_cons, List.filter_cons, hpq a b hab]
    by_cases hq : q b = true
    · simp only [hq, if_true]
      exact List.Forall₂.cons hab ih
    · simp only [hq, Bool.false_eq_true, if_false]
      exact ih

/-- The version loop stays inside the array when the stored array has room: it
writes the stored components, `NULL` read as `0`, and leaves the other entries. -/
theorem assignV_ok (elems : List (Option Int)) :
    ∀ (V : List Int) (i : Nat), V.length = 10 → i + elems.length ≤ 10 →
      ∃ V1, assignV V i elems = some V1 ∧ V1.length = 10 ∧
        (∀ j, j < elems.length → V1[i + j]? = (elems[j]?).map (fun n => n.getD 0)) ∧
        (∀ j, (j < i ∨ i + elems.length ≤ j) → V1[j]? = V[j]?) := by
  induction elems with
  | nil =>
    intro V i hV _
    exact ⟨V, rfl, hV, fun j hj => absurd hj (Nat.not_lt_zero _), fun _ _ => rfl⟩
  | cons n rest ih =>
    intro V i hV hlen
    rw [List.length_cons] at hlen
    have hi : i < 10 := by omega
    obtain ⟨V1, h1, h2, h3, h4⟩ := ih (V.set i (n.getD 0)) (i + 1)
      (by rw [List.length_set]; exact hV) (by omega)
    refine ⟨V1, ?_, h2, ?_, ?_⟩
    · unfold assignV
      rw [if_pos hi]
      exact h1
    · intro j hj
      cases j with
      | zero =>
        rw [Nat.add_zero, h4 i (Or.inl (Nat.lt_succ_self i))]
        rw [List.getElem?_set_self (by rw [hV]; exact hi)]
        simp
      | succ k =>
        rw [List.length_cons] at hj
        have := h3 k (by omega)
        rw [show i + (k + 1) = i + 1 + k by omega, this]
        simp
    · intro j hj
      rw [List.length_cons] at hj
      rw [h4 j (by omega), List.getElem?_set_ne (by omega)]

theorem scanPackage_ret (l : PackageScanArtifactRow) (r sr : PackageRow)
    (hfit : r.norm_kind ≠ none → (r.norm_version.getD []).length ≤ 10) :
    ∃ pkg, scanPackage ((l, some r), some sr) = some (.ret pkg) := by
  unfold scanPackage
  simp only []
  cases hk : r.norm_kind with
  | none => exact ⟨_, rfl⟩
  | some k =>
    simp only []
    obtain ⟨V1, h1, _⟩ := assignV_ok (r.norm_version.getD []) (List.replicate 10 0) 0
      (by simp) (by have := hfit (by rw [hk]; simp); omega)
    have hV : PackageFields.zero.NormalizedVersion.V = List.replicate 10 0 := rfl
    rw [hV, h1]
    exact ⟨_, rfl⟩

/-- What `packagesByLayer` answers over a healthy connection and a store that
satisfies its schema and whose stored versions fit the version array. -/
theorem packagesByLayer_healthy (db : DB) (hash : Digest) (scnrs : List VersionedScanner)
    (hne : scnrs ≠ []) (hreg : ∀ s ∈ scnrs, Registered db s) (hint : db.packageIntegrity)
    (hfit : db.versionsFit) :
    ∃ res, (packagesByLayer (Pool.healthy db) hash scnrs).1 = .ret (some res, none) ∧
      List.Forall₂ (fun (l : PackageScanArtifactRow) pkg =>
          ∃ r ∈ db.package, ∃ sr ∈ db.package, r.id = l.package_id ∧ sr.id = l.source_id ∧
            scanPackage ((l, some r), some sr) = some (.ret pkg))
        (db.package_scanartifact.filter
          (fun l => l.layer_hash = hash ∧ l.scanner_id ∈ resolvedIDs db scnrs)) res := by
  have hlen : ¬ scnrs.length = 0 := fun h => hne (List.length_eq_zero.mp h)
  unfold packagesByLayer Pool.healthy
  rw [if_neg hlen, scannerIDsLoop_healthy _ db scnrs hreg 0 [], List.nil_append]
  simp only [poolQuery_healthy]
  -- first join: every link row with its package
  obtain ⟨rows1, hrows1, hall1⟩ := leftJoin_filter_of_key db.package_scanartifact db.package
    (fun l => l.package_id) (fun r => r.id) hint.1 (fun l hl => (hint.2 l hl).1)
    (fun _ => true)
  rw [List.filter_true] at hrows1
  have hall1 : List.Forall₂ (fun (l : PackageScanArtifactRow)
      (row : PackageScanArtifactRow × Option PackageRow) =>
      ∃ r ∈ db.package, r.id = l.package_id ∧ row = (l, some r))
      db.package_scanartifact rows1 := by
    have := hall1
    rwa [List.filter_true] at this
  -- second join: every such row with its source package, then the selection
  have hfk2 : ∀ x ∈ rows1, ∃ r ∈ db.package, r.id = x.1.source_id := by
    intro x hx
    have hx1 : x.1 ∈ db.package_scanartifact := by
      rw [← hrows1] at hx
      exact mem_leftJoin_fst _ _ _ x hx
    exact (hint.2 x.1 hx1).2
  obtain ⟨rows2, hrows2, hall2⟩ := leftJoin_filter_of_key rows1 db.package
    (fun (lp : PackageScanArtifactRow × Option PackageRow) => lp.1.source_id)
    (fun r => r.id) hint.1 hfk2
    (fun lp => decide (lp.1.layer_hash = hash ∧ lp.1.scanner_id ∈ resolvedIDs db scnrs))
  have hq : packageQuery db hash (resolvedIDs db scnrs) = rows2 := by
    unfold packageQuery
    rw [hrows1]
    exact hrows2
  rw [hq]
  have hsel := forall₂_filter
    (fun (l : PackageScanArtifactRow) =>
      decide (l.layer_hash = hash ∧ l.scanner_id ∈ resolvedIDs db scnrs))
    (fun (lp : PackageScanArtifactRow × Option PackageRow) =>
      decide (lp.1.layer_hash = hash ∧ lp.1.scanner_id ∈ resolvedIDs db scnrs))
    (fun l row h => by obtain ⟨r, _, _, hrow⟩ := h; rw [hrow]) hall1
  have hlinks := forall₂_comp hsel hall2
  obtain ⟨res, hres, hfinal⟩ := forall₂_chain _
    (fun row pkg => scanPackage row = some (.ret pkg))
    (fun l row h => by
      obtain ⟨lp, ⟨r, hr, _, hlp⟩, sr, _, _, hrow⟩ := h
      rw [hrow, hlp]
      exact scanPackage_ret l r sr (hfit r hr)) hlinks
  refine ⟨res, by rw [packageRows_ok rows2 [] res hres, List.nil_append], ?_⟩
  refine hfinal.imp ?_
  rintro l pkg ⟨row, ⟨lp, ⟨r, hr, hrk, hlp⟩, sr, hsr, hsrk, hrow⟩, hscan⟩
  subst hlp
  subst hrow
  exact ⟨r, hr, sr, hsr, hrk, hsrk, hscan⟩

/-- The fields of the package built from a result row. -/
theorem scanPackage_spec (l : PackageScanArtifactRow) (r sr : PackageRow) (pkg : Package)
    (hfit : r.norm_kind ≠ none → (r.norm_version.getD []).length ≤ 10)
    (h : scanPackage ((l, some r), some sr) = some (.ret pkg)) :
    (pkg.ID = formatInt r.id ∧ pkg.Name = r.name ∧ pkg.Kind = r.kind ∧
      pkg.Version = r.version ∧ pkg.Module = r.module ∧ pkg.Arch = r.arch ∧
      pkg.PackageDB = l.package_db ∧ pkg.RepositoryHint = l.repository_hint) ∧
    pkg.Source = some { PackageFields.zero with
      ID := formatInt sr.id, Name := sr.name, Kind := sr.kind, Version := sr.version,
      Module := sr.module, Arch := sr.arch } ∧
    (r.norm_kind = none → pkg.NormalizedVersion = Version.zero) ∧
    (∀ k, r.norm_kind = some k →
      pkg.NormalizedVersion.Kind = k ∧ pkg.NormalizedVersion.V.length = 10 ∧
      (∀ (i : Nat) (v : Int), (r.norm_version.getD [])[i]? = some (some v) →
        pkg.NormalizedVersion.V[i]? = some v) ∧
      (∀ i : Nat, (r.norm_version.getD [])[i]? = some none → pkg.NormalizedVersion.V[i]? = some 0) ∧
      (∀ i : Nat, (r.norm_version.getD []).length ≤ i → i < 10 →
        pkg.NormalizedVersion.V[i]? = some 0)) := by
  unfold scanPackage at h
  simp only [] at h
  cases hk : r.norm_kind with
  | none =>
    rw [hk] at h
    simp only [Option.some.injEq, Outcome.ret.injEq] at h
    subst h
    exact ⟨⟨rfl, rfl, rfl, rfl, rfl, rfl, rfl, rfl⟩, rfl, fun _ => rfl,
      fun k hk2 => absurd hk2 (by simp)⟩
  | some k =>
    rw [hk] at h
    simp only [] at h
    obtain ⟨V1, h1, h2, h3, h4⟩ := assignV_ok (r.norm_version.getD []) (List.replicate 10 0) 0
      (by simp) (by have := hfit (by rw [hk]; simp); omega)
    have hV : PackageFields.zero.NormalizedVersion.V = List.replicate 10 0 := rfl
    rw [hV, h1] at h
    simp only [Option.some.injEq, Outcome.ret.injEq] at h
    subst h
    refine ⟨⟨rfl, rfl, rfl, rfl, rfl, rfl, rfl, rfl⟩, rfl, fun hn => absurd hn (by simp),
      fun k2 hk2 => ?_⟩
    simp only [Option.some.injEq] at hk2
    subst hk2
    refine ⟨rfl, h2, fun i v hi => ?_, fun i hi => ?_, fun i hi hi10 => ?_⟩
    · have hlt : i < (r.norm_version.getD []).length := by
        by_contra hge
        rw [List.getElem?_eq_none (by omega)] at hi
        simp at hi
      have := h3 i hlt
      rw [Nat.zero_add, hi] at this
      simpa using this
    · have hlt : i < (r.norm_version.getD []).length := by
        by_contra hge
        rw [List.getElem?_eq_none (by omega)] at hi
        simp at hi
      have := h3 i hlt
      rw [Nat.zero_add, hi] at this
      simpa using this
    · have := h4 i (Or.inr (by omega))
      show V1[i]? = some 0
      rw [this, List.getElem?_replicate, if_pos hi10]

/-- Claim C7, package read-back: over a healthy connection and a store that
satisfies its schema and whose stored versions have at most ten components, for
every non-empty list of registered scanners, `packagesByLayer` returns one
package per selected linking row, whose name, kind, version, module and arch
are the columns of the joined package row, whose package-db and repository-hint
are the columns of the linking row, whose `Source` is built from the joined
source-package row, and whose `NormalizedVersion` is the zero value when
`norm_kind` is null and otherwise has `Kind = norm_kind`, `V[i]` equal to stored
component `i` for every stored index (a `NULL` component reads as `0`) and the
remaining components zero. -/
theorem packagesByLayer_faithful (db : DB) (hash : Digest) (scnrs : List VersionedScanner)
    (hne : scnrs ≠ []) (hreg : ∀ s ∈ scnrs, Registered db s) (hint : db.packageIntegrity)
    (hfit : db.versionsFit) :
    ∃ res, (packagesByLayer (Pool.healthy db) hash scnrs).1 = .ret (some res, none) ∧
      List.Forall₂ (fun (l : PackageScanArtifactRow) (pkg : Package) =>
          ∃ r ∈ db.package, ∃ sr ∈ db.package, r.id = l.package_id ∧ sr.id = l.source_id ∧
            (pkg.Name = r.name ∧ pkg.Kind = r.kind ∧ pkg.Version = r.version ∧
              pkg.Module = r.module ∧ pkg.Arch = r.arch ∧
              pkg.PackageDB = l.package_db ∧ pkg.RepositoryHint = l.repository_hint) ∧
            pkg.Source = some { PackageFields.zero with
              ID := formatInt sr.id, Name := sr.name, Kind := sr.kind, Version := sr.version,
              Module := sr.module, Arch := sr.arch } ∧
            (r.norm_kind = none → pkg.NormalizedVersion = Version.zero) ∧
            (∀ k, r.norm_kind = some k →
              pkg.NormalizedVersion.Kind = k ∧ pkg.NormalizedVersion.V.length = 10 ∧
              (∀ (i : Nat) (v : Int), (r.norm_version.getD [])[i]? = some (some v) →
                pkg.NormalizedVersion.V[i]? = some v) ∧
              (∀ i : Nat, (r.norm_version.getD [])[i]? = some none →
                pkg.NormalizedVersion.V[i]? = some 0) ∧
              (∀ i : Nat, (r.norm_version.getD []).length ≤ i → i < 10 →
                pkg.NormalizedVersion.V[i]? = some 0)))
        (db.package_scanartifact.filter
          (fun l => l.layer_hash = hash ∧ l.scanner_id ∈ resolvedIDs db scnrs)) res := by
  obtain ⟨res, h1, h2⟩ := packagesByLayer_healthy db hash scnrs hne hreg hint hfit
  refine ⟨res, h1, h2.imp ?_⟩
  rintro l pkg ⟨r, hr, sr, hsr, hrk, hsrk, hscan⟩
  obtain ⟨⟨_, a2, a3, a4, a5, a6, a7, a8⟩, b, c, d⟩ :=
    scanPackage_spec l r sr pkg (hfit r hr) hscan
  exact ⟨r, hr, sr, hsr, hrk, hsrk, ⟨a2, a3, a4, a5, a6, a7, a8⟩, b, c, d⟩

/-- Witness of claim C7: the example store, scanner A and the first example layer,
whose one selected package is curl with a three-component stored version. -/
theorem packagesByLayer_faithful_witness :
    ([exScannerA] ≠ [] ∧ (∀ s ∈ [exScannerA], Registered exArtifactDB s) ∧
      exArtifactDB.packageIntegrity ∧ exArtifactDB.versionsFit) ∧
    (∃ res, (packagesByLayer (Pool.healthy exArtifactDB) exDigest [exScannerA]).1 = .ret (some res, none) ∧
      List.Forall₂ (fun (l : PackageScanArtifactRow) (pkg : Package) =>
          ∃ r ∈ exArtifactDB.package, ∃ sr ∈ exArtifactDB.package, r.id = l.package_id ∧ sr.id = l.source_id ∧
            (pkg.Name = r.name ∧ pkg.Kind = r.kind ∧ pkg.Version = r.version ∧
              pkg.Module = r.module ∧ pkg.Arch = r.arch ∧
              pkg.PackageDB = l.package_db ∧ pkg.RepositoryHint = l.repository_hint) ∧
            pkg.Source = some { PackageFields.zero with
              ID := formatInt sr.id, Name := sr.name, Kind := sr.kind, Version := sr.version,
              Module := sr.module, Arch := sr.arch } ∧
            (r.norm_kind = none → pkg.NormalizedVersion = Version.zero) ∧
            (∀ k, r.norm_kind = some k →
              pkg.NormalizedVersion.Kind = k ∧ pkg.NormalizedVersion.V.length = 10 ∧
              (∀ (i : Nat) (v : Int), (r.norm_version.getD [])[i]? = some (some v) →
                pkg.NormalizedVersion.V[i]? = some v) ∧
              (∀ i : Nat, (r.norm_version.getD [])[i]? = some none →
                pkg.NormalizedVersion.V[i]? = some 0) ∧
              (∀ i : Nat, (r.norm_version.getD []).length ≤ i → i < 10 →
                pkg.NormalizedVersion.V[i]? = some 0)))
        (exArtifactDB.package_scanartifact.filter
          (fun l => l.layer_hash = exDigest ∧ l.scanner_id ∈ resolvedIDs exArtifactDB [exScannerA])) res) :=
  ⟨⟨by decide, by decide, by decide, by decide⟩,
   packagesByLayer_faithful exArtifactDB exDigest [exScannerA] (by decide) (by decide)
     (by decide) (by decide)⟩

/-! ## Unregistered scanners and empty results -/

theorem selectScanner_nil_of_unregistered {db : DB} {s : VersionedScanner}
    (h : ¬ Registered db s) : selectScanner db s = [] := by
  unfold Registered at h
  exact not_not.mp h

theorem layerScanned_unregistered (p : Pool) (hash : Digest) (s : VersionedScanner)
    (h : ¬ Registered p.db s) : ∃ e, (layerScanned p hash s).1 = (false, some e) := by
  unfold layerScanned queryRowLayerScanned
  dsimp only
  by_cases hf : p.roundTrip.1 = true
  · rw [if_pos hf]
    exact ⟨_, rfl⟩
  · rw [if_neg hf, roundTrip_db, selectScanner_nil_of_unregistered h]
    exact ⟨_, rfl⟩

/-- Claim C9, an unregistered scanner is an error: whatever the store holds for
the digest and whatever the connection answers, `layerScanned` returns `false`
with a non-nil error when its scanner has no row in `scanner`, and
`manifestScanned`, `packagesByLayer`, `distributionsByLayer` and
`repositoriesByLayer` return a non-nil error (with `false`, respectively a nil
list) when a scanner of their list has no row in `scanner`. -/
theorem unregistered_scanner_is_error (p : Pool) (hash : Digest) (s : VersionedScanner)
    (scnrs : List VersionedScanner) (hs : s ∈ scnrs) (hun : ¬ Registered p.db s) :
    (∃ e, (layerScanned p hash s).1 = (false, some e)) ∧
    (∃ e, (manifestScanned p hash scnrs).1 = (false, some e)) ∧
    (∃ e, (packagesByLayer p hash scnrs).1 = .ret (none, some e)) ∧
    (∃ e, (distributionsByLayer p hash scnrs).1 = (none, some e)) ∧
    (∃ e, (repositoriesByLayer p hash scnrs).1 = (none, some e)) := by
  have hlen : ¬ scnrs.length = 0 := by
    intro h
    rw [List.length_eq_zero] at h
    rw [h] at hs
    exact absurd hs (List.not_mem_nil _)
  refine ⟨layerScanned_unregistered p hash s hun, ?_, ?_, ?_, ?_⟩
  · obtain ⟨e, p1, he⟩ := scannerIDsLoop_error_of_unregistered
      "store:manifestScanned failed to retrieve expected scanner id for scnr %v: %v"
      scnrs p [] ⟨s, hs, hun⟩
    unfold manifestScanned
    rw [he]
    exact ⟨e, rfl⟩
  · obtain ⟨e, p1, he⟩ := scannerIDsLoop_error_of_unregistered
      "store:packagesByLayer failed to retrieve id for scanner %v: %v"
      scnrs p [] ⟨s, hs, hun⟩
    unfold packagesByLayer
    rw [if_neg hlen, he]
    exact ⟨e, rfl⟩
  · obtain ⟨e, p1, he⟩ := scannerIDsLoop_error_of_unregistered
      "store:distributionseByLayer failed to retrieve scanner ids for scnr %v: %v"
      scnrs p [] ⟨s, hs, hun⟩
    unfold distributionsByLayer
    rw [if_neg hlen, he]
    exact ⟨e, rfl⟩
  · obtain ⟨e, p1, he⟩ := scannerIDsLoop_error_of_unregistered
      "store:repositoriesByLayer failed to retrieve scanner ids for scnr %v: %v"
      scnrs p [] ⟨s, hs, hun⟩
    unfold repositoriesByLayer
    rw [if_neg hlen, he]
    exact ⟨e, rfl⟩

/-- Witness of claim C9: scanner C is not registered in the example store, although
facts and links of the example layer exist for scanners A and B. -/
theorem unregistered_scanner_is_error_witness :
    (exScannerC ∈ [exScannerA, exScannerC] ∧
      ¬ Registered (Pool.healthy exArtifactDB).db exScannerC) ∧
    ((∃ e, (layerScanned (Pool.healthy exArtifactDB) exDigest exScannerC).1 = (false, some e)) ∧
    (∃ e, (manifestScanned (Pool.healthy exArtifactDB) exDigest
      [exScannerA, exScannerC]).1 = (false, some e)) ∧
    (∃ e, (packagesByLayer (Pool.healthy exArtifactDB) exDigest
      [exScannerA, exScannerC]).1 = .ret (none, some e)) ∧
    (∃ e, (distributionsByLayer (Pool.healthy exArtifactDB) exDigest
      [exScannerA, exScannerC]).1 = (none, some e)) ∧
    (∃ e, (repositoriesByLayer (Pool.healthy exArtifactDB) exDigest
      [exScannerA, exScannerC]).1 = (none, some e))) :=
  ⟨⟨by decide, by decide⟩,
   unregistered_scanner_is_error (Pool.healthy exArtifactDB) exDigest exScannerC
     [exScannerA, exScannerC] (by decide) (by decide)⟩

theorem leftJoin_filter_nil {α β : Type} (a : List α) (b : List β) (cond : α → β → Bool)
    (sel : α → Bool) (h : ∀ x ∈ a, sel x = false) :
    (leftJoin a b cond).filter (fun row => sel row.1) = [] := by
  rw [List.filter_eq_nil_iff]
  intro row hrow
  rw [h row.1 (mem_leftJoin_fst a b cond row hrow)]
  simp

/-- Claim C10, empty results are successes: with the empty scanner list each of
`packagesByLayer`, `distributionsByLayer` and `repositoriesByLayer` returns an
empty non-nil list and no error and leaves the pool as it is (no round trip is
issued); and over a healthy connection, when every scanner of the list is
registered and no linking row has the layer digest together with one of the
resolved scanner ids, each returns an empty non-nil list and no error. -/
theorem byLayer_empty_is_success (p : Pool) (db : DB) (hash : Digest)
    (scnrs : List VersionedScanner) (hreg : ∀ s ∈ scnrs, Registered db s)
    (hpkg : ∀ l ∈ db.package_scanartifact,
      ¬ (l.layer_hash = hash ∧ l.scanner_id ∈ resolvedIDs db scnrs))
    (hdist : ∀ l ∈ db.dist_scanartifact,
      ¬ (l.layer_hash = hash ∧ l.scanner_id ∈ resolvedIDs db scnrs))
    (hrepo : ∀ l ∈ db.repo_scanartifact,
      ¬ (l.layer_hash = hash ∧ l.scanner_id ∈ resolvedIDs db scnrs)) :
    (packagesByLayer p hash [] = (.ret (some [], none), p) ∧
      distributionsByLayer p hash [] = ((some [], none), p) ∧
      repositoriesByLayer p hash [] = ((some [], none), p)) ∧
    ((packagesByLayer (Pool.healthy db) hash scnrs).1 = .ret (some [], none) ∧
      (distributionsByLayer (Pool.healthy db) hash scnrs).1 = (some [], none) ∧
      (repositoriesByLayer (Pool.healthy db) hash scnrs).1 = (some [], none)) := by
  refine ⟨⟨rfl, rfl, rfl⟩, ?_⟩
  by_cases hlen : scnrs.length = 0
  · rw [List.length_eq_zero] at hlen
    subst hlen
    exact ⟨rfl, rfl, rfl⟩
  · refine ⟨?_, ?_, ?_⟩
    · unfold packagesByLayer Pool.healthy
      rw [if_neg hlen, scannerIDsLoop_healthy _ db scnrs hreg 0 [], List.nil_append]
      simp only [poolQuery_healthy]
      have hq : packageQuery db hash (resolvedIDs db scnrs) = [] := by
        unfold packageQuery
        apply leftJoin_filter_nil _ _ _
          (fun (lp : PackageScanArtifactRow × Option PackageRow) =>
            decide (lp.1.layer_hash = hash ∧ lp.1.scanner_id ∈ resolvedIDs db scnrs))
        intro lp hlp
        have := hpkg lp.1 (mem_leftJoin_fst _ _ _ lp hlp)
        simpa using this
      rw [hq]
      rfl
    · unfold distributionsByLayer Pool.healthy
      rw [if_neg hlen, scannerIDsLoop_healthy _ db scnrs hreg 0 [], List.nil_append]
      simp only [poolQuery_healthy]
      have hq : distQuery db hash (resolvedIDs db scnrs) = [] := by
        unfold distQuery
        apply leftJoin_filter_nil _ _ _
          (fun (l : DistScanArtifactRow) =>
            decide (l.layer_hash = hash ∧ l.scanner_id ∈ resolvedIDs db scnrs))
        intro l hl
        have := hdist l hl
        simpa using this
      rw [hq]
      rfl
    · unfold repositoriesByLayer Pool.healthy
      rw [if_neg hlen, scannerIDsLoop_healthy _ db scnrs hreg 0 [], List.nil_append]
      simp only [poolQuery_healthy]
      have hq : repoQuery db hash (resolvedIDs db scnrs) = [] := by
        unfold repoQuery
        apply leftJoin_filter_nil _ _ _
          (fun (l : RepoScanArtifactRow) =>
            decide (l.layer_hash = hash ∧ l.scanner_id ∈ resolvedIDs db scnrs))
        intro l hl
        have := hrepo l hl
        simpa using this
      rw [hq]
      rfl

/-- Witness of claim C10: the second example layer has links of scanner A only, so
the list with scanner B alone selects no row. -/
theorem byLayer_empty_is_success_witness :
    ((∀ s ∈ [exScannerB], Registered exArtifactDB s) ∧
     (∀ l ∈ exArtifactDB.package_scanartifact,
      ¬ (l.layer_hash = exDigest2 ∧ l.scanner_id ∈ resolvedIDs exArtifactDB [exScannerB])) ∧
     (∀ l ∈ exArtifactDB.dist_scanartifact,
      ¬ (l.layer_hash = exDigest2 ∧ l.scanner_id ∈ resolvedIDs exArtifactDB [exScannerB])) ∧
     (∀ l ∈ exArtifactDB.repo_scanartifact,
      ¬ (l.layer_hash = exDigest2 ∧ l.scanner_id ∈ resolvedIDs exArtifactDB [exScannerB]))) ∧
    ((packagesByLayer (Pool.healthy exArtifactDB) exDigest2 [] =
        (.ret (some [], none), Pool.healthy exArtifactDB) ∧
      distributionsByLayer (Pool.healthy exArtifactDB) exDigest2 [] =
        ((some [], none), Pool.healthy exArtifactDB) ∧
      repositoriesByLayer (Pool.healthy exArtifactDB) exDigest2 [] =
        ((some [], none), Pool.healthy exArtifactDB)) ∧
    ((packagesByLayer (Pool.healthy exArtifactDB) exDigest2 [exScannerB]).1 =
        .ret (some [], none) ∧
      (distributionsByLayer (Pool.healthy exArtifactDB) exDigest2 [exScannerB]).1 =
        (some [], none) ∧
      (repositoriesByLayer (Pool.healthy exArtifactDB) exDigest2 [exScannerB]).1 =
        (some [], none))) :=
  ⟨⟨by decide, by decide, by decide, by decide⟩,
   byLayer_empty_is_success (Pool.healthy exArtifactDB) exArtifactDB exDigest2 [exScannerB]
     (by decide) (by decide) (by decide) (by decide)⟩

/-! ## Finalize, then read -/

theorem begin_ok (p : Pool) (tx : Tx) (p1 : Pool) (h : p.Begin = (.ok tx, p1)) :
    tx.work = p.db := by
  unfold Pool.Begin at h
  dsimp only at h
  split at h
  · simp at h
  · simp only [Prod.mk.injEq, Except.ok.injEq] at h
    rw [← h.1]
    simp

theorem linkLoop_ok (hash : Digest) (ids : List Int) :
    ∀ (tx : Tx) (p : Pool) (tx1 : Tx) (p1 : Pool), linkLoop hash tx p ids = (.ok tx1, p1) →
      tx1.work = { tx.work with scanned_manifest :=
        tx.work.scanned_manifest ++ ids.map (fun id => ⟨hash, id⟩) } := by
  induction ids with
  | nil =>
    intro tx p tx1 p1 h
    simp only [linkLoop, Prod.mk.injEq, Except.ok.injEq] at h
    rw [← h.1]
    simp
  | cons id rest ih =>
    intro tx p tx1 p1 h
    unfold linkLoop at h
    rcases hins : tx.insertManifestScanned p hash id with ⟨r, p2⟩
    rw [hins] at h
    cases r with
    | error e => simp at h
    | ok tx2 =>
      simp only at h
      have h2 := ih tx2 p2 tx1 p1 h
      unfold Tx.insertManifestScanned at hins
      dsimp only at hins
      split at hins
      · simp at hins
      · split at hins
        · simp at hins
        · simp only [Prod.mk.injEq, Except.ok.injEq] at hins
          rw [h2, ← hins.1]
          simp

theorem upsertIndexReport_ok (tx : Tx) (p : Pool) (hash : Digest) (doc : IndexReport)
    (tx1 : Tx) (p1 : Pool) (h : tx.upsertIndexReport p hash doc = (.ok tx1, p1)) :
    tx1.work = { tx.work with indexreport := upsertRow hash doc tx.work.indexreport } := by
  unfold Tx.upsertIndexReport at h
  dsimp only at h
  split at h
  · simp at h
  · simp only [Prod.mk.injEq, Except.ok.injEq] at h
    rw [← h.1]

theorem commit_ok (tx : Tx) (p p1 : Pool) (h : tx.Commit p = (none, p1)) : p1.db = tx.work := by
  unfold Tx.Commit at h
  dsimp only at h
  split at h
  · simp at h
  · simp only [Prod.mk.injEq, true_and] at h
    rw [← h]

/-- The committed database after a `setScanFinished` that returned nil. -/
theorem setScanFinished_ok (p : Pool) (sr : IndexReport) (scnrs : List VersionedScanner)
    (h : (setScanFinished p sr scnrs).1 = none) :
    (∀ s ∈ scnrs, Registered p.db s) ∧
    (setScanFinished p sr scnrs).2.db =
      { p.db with
        scanned_manifest := p.db.scanned_manifest ++
          (resolvedIDs p.db scnrs).map (fun id => ⟨sr.Hash, id⟩),
        indexreport := upsertRow sr.Hash sr p.db.indexreport } := by
  unfold setScanFinished at h ⊢
  have h1 := scannerIDsLoop_db
    "store:storeManifest failed to select package scanner id: %v" scnrs p []
  rcases hr1 : scannerIDsLoop
    "store:storeManifest failed to select package scanner id: %v" p scnrs [] with ⟨r1, p1⟩
  rw [hr1] at h1 h
  simp only at h1
  cases r1 with
  | error e1 => simp at h
  | ok ids =>
    obtain ⟨hreg, hids⟩ := scannerIDsLoop_ok _ scnrs p [] ids p1 hr1
    rw [List.nil_append] at hids
    rcases hr2 : p1.Begin with ⟨r2, p2⟩
    simp only [hr2] at h ⊢
    cases r2 with
    | error e2 => simp at h
    | ok tx =>
      have htx := begin_ok p1 tx p2 hr2
      rcases hr3 : linkLoop sr.Hash tx p2 ids with ⟨r3, p3⟩
      simp only [hr3] at h ⊢
      cases r3 with
      | error e3 => simp at h
      | ok tx1 =>
        have htx1 := linkLoop_ok sr.Hash ids tx p2 tx1 p3 hr3
        rcases hr4 : tx1.upsertIndexReport p3 sr.Hash sr with ⟨r4, p4⟩
        simp only [hr4] at h ⊢
        cases r4 with
        | error e4 => simp at h
        | ok tx2 =>
          have htx2 := upsertIndexReport_ok tx1 p3 sr.Hash sr tx2 p4 hr4
          rcases hr5 : tx2.Commit p4 with ⟨r5, p5⟩
          simp only [hr5] at h ⊢
          cases r5 with
          | some e5 => simp at h
          | none =>
            refine ⟨hreg, ?_⟩
            rw [commit_ok tx2 p4 p5 hr5, htx2, htx1, htx, h1, hids]

theorem upsertRow_select (hash : Digest) (doc : IndexReport) (l : List IndexReportRow) :
    ∃ rest, (upsertRow hash doc l).filter (fun r => decide (r.manifest_hash = hash)) =
      ⟨hash, doc⟩ :: rest := by
  induction l with
  | nil => exact ⟨[], by simp [upsertRow]⟩
  | cons r rs ih =>
    unfold upsertRow
    by_cases hr : r.manifest_hash = hash
    · rw [if_pos hr]
      exact ⟨rs.filter (fun r => decide (r.manifest_hash = hash)), by simp [List.filter_cons]⟩
    · rw [if_neg hr]
      obtain ⟨rest, hrest⟩ := ih
      exact ⟨rest, by simp [List.filter_cons, hr, hrest]⟩

theorem linkLoop_healthy (hash : Digest) (db : DB) (ids : List Int) :
    ∀ (tx : Tx) (n : Nat), ids.Nodup →
      (∀ id ∈ ids, (⟨hash, id⟩ : ScannedManifestRow) ∉ tx.work.scanned_manifest) →
      ∃ tx1, linkLoop hash tx { db := db, faults := [], calls := n } ids =
        (.ok tx1, { db := db, faults := [], calls := n + ids.length }) := by
  induction ids with
  | nil => intro tx n _ _; exact ⟨tx, rfl⟩
  | cons id rest ih =>
    intro tx n hnd hnew
    rw [List.nodup_cons] at hnd
    have hid := hnew id (List.mem_cons_self _ _)
    have hins : tx.insertManifestScanned { db := db, faults := [], calls := n } hash id =
        (.ok { work := { tx.work with
          scanned_manifest := tx.work.scanned_manifest ++ [⟨hash, id⟩] } },
          { db := db, faults := [], calls := n + 1 }) := by
      unfold Tx.insertManifestScanned
      rw [roundTrip_healthy _ rfl]
      simp [hid]
    obtain ⟨tx1, h1⟩ := ih
      { work := { tx.work with scanned_manifest := tx.work.scanned_manifest ++ [⟨hash, id⟩] } }
      (n + 1) hnd.2 (by
        intro x hx hmem
        simp only [List.mem_append, List.mem_singleton] at hmem
        rcases hmem with hmem | hmem
        · exact hnew x (List.mem_cons_of_mem _ hx) hmem
        · simp only [ScannedManifestRow.mk.injEq, true_and] at hmem
          exact hnd.1 (hmem ▸ hx))
    refine ⟨tx1, ?_⟩
    unfold linkLoop
    rw [hins]
    simp only []
    rw [h1, List.length_cons]
    congr 2
    omega

theorem resolvedIDs_nodup (db : DB) (scnrs : List VersionedScanner) (hkey : db.scannerKey)
    (hnd : scnrs.Nodup) : (resolvedIDs db scnrs).Nodup := by
  unfold resolvedIDs
  refine List.Nodup.filterMap ?_ hnd
  intro s s1 id hs hs1
  rw [Option.mem_def] at hs hs1
  have hrow : ∀ (x : VersionedScanner), scannerID? db x = some id →
      ∃ r ∈ db.scanner, r.id = id ∧ r.identity = x.identity := by
    intro x hx
    unfold scannerID? at hx
    cases hsel : selectScanner db x with
    | nil => rw [hsel] at hx; simp at hx
    | cons r rest =>
      rw [hsel] at hx
      simp only [List.head?_cons, Option.map_some', Option.some.injEq] at hx
      have hr : r ∈ selectScanner db x := by rw [hsel]; exact List.mem_cons_self _ _
      rw [mem_selectScanner] at hr
      exact ⟨r, hr.1, hx, hr.2⟩
  obtain ⟨r, hr, hrid, hrs⟩ := hrow s hs
  obtain ⟨r1, hr1, hr1id, hr1s⟩ := hrow s1 hs1
  have heq : r = r1 := List.inj_on_of_nodup_map hkey hr hr1 (by rw [hrid, hr1id])
  subst heq
  have hident : s.identity = s1.identity := hrs.symm.trans hr1s
  unfold VersionedScanner.identity at hident
  simp only [Prod.mk.injEq] at hident
  cases s
  cases s1
  simp only at hident
  simp [hident.1, hident.2.1, hident.2.2]

/-- A healthy `setScanFinished` for distinct registered scanners and a manifest
without completion fact returns nil. -/
theorem setScanFinished_succeeds (db : DB) (sr : IndexReport) (scnrs : List VersionedScanner)
    (hreg : ∀ s ∈ scnrs, Registered db s) (hkey : db.scannerKey) (hnd : scnrs.Nodup)
    (hnew : ∀ id, (⟨sr.Hash, id⟩ : ScannedManifestRow) ∉ db.scanned_manifest) :
    (setScanFinished (Pool.healthy db) sr scnrs).1 = none := by
  unfold setScanFinished Pool.healthy
  rw [scannerIDsLoop_healthy _ db scnrs hreg 0 [], List.nil_append]
  simp only []
  have hbegin : ∀ n, Pool.Begin { db := db, faults := [], calls := n } =
      (.ok { work := db }, { db := db, faults := [], calls := n + 1 }) := by
    intro n
    unfold Pool.Begin
    rw [roundTrip_healthy _ rfl]
    rfl
  rw [hbegin]
  simp only []
  obtain ⟨tx1, h1⟩ := linkLoop_healthy sr.Hash db (resolvedIDs db scnrs) { work := db }
    (0 + scnrs.length + 1) (resolvedIDs_nodup db scnrs hkey hnd) (fun id _ => hnew id)
  rw [h1]
  simp only []
  have hup : ∀ n, tx1.upsertIndexReport { db := db, faults := [], calls := n } sr.Hash sr =
      (.ok { work := { tx1.work with
          indexreport := upsertRow sr.Hash sr tx1.work.indexreport } },
        { db := db, faults := [], calls := n + 1 }) := by
    intro n
    unfold Tx.upsertIndexReport
    rw [roundTrip_healthy _ rfl]
    rfl
  rw [hup]
  simp only []
  unfold Tx.Commit
  rw [roundTrip_healthy _ rfl]
  rfl

/-- Claim C8, finalize then read: for every index report and every non-empty
scanner list, after a `setScanFinished` that returned nil (under any answers of
the connection), `manifestScanned(report.Hash, scanners)` over a healthy
connection returns `true` with no error and `indexReport(report.Hash)` returns
the upserted document with `found = true` and no error; and `setScanFinished`
does return nil over a healthy connection when the scanners are distinct and
registered and the manifest has no prior completion fact. -/
theorem setScanFinished_then_read (sr : IndexReport) (scnrs : List VersionedScanner)
    (hne : scnrs ≠ []) :
    (∀ p : Pool, (setScanFinished p sr scnrs).1 = none →
      (manifestScanned (Pool.healthy (setScanFinished p sr scnrs).2.db) sr.Hash scnrs).1
        = (true, none) ∧
      (indexReport (Pool.healthy (setScanFinished p sr scnrs).2.db) sr.Hash).1
        = (some sr, true, none)) ∧
    (∀ db : DB, (∀ s ∈ scnrs, Registered db s) → db.scannerKey → scnrs.Nodup →
      (∀ id, (⟨sr.Hash, id⟩ : ScannedManifestRow) ∉ db.scanned_manifest) →
      (setScanFinished (Pool.healthy db) sr scnrs).1 = none) := by
  refine ⟨fun p hok => ?_, fun db hreg hkey hnd hnew =>
    setScanFinished_succeeds db sr scnrs hreg hkey hnd hnew⟩
  obtain ⟨hreg, hdb⟩ := setScanFinished_ok p sr scnrs hok
  have hscanner : (setScanFinished p sr scnrs).2.db.scanner = p.db.scanner := by rw [hdb]
  have hsel : ∀ s, selectScanner (setScanFinished p sr scnrs).2.db s = selectScanner p.db s := by
    intro s
    unfold selectScanner
    rw [hscanner]
  have hreg1 : ∀ s ∈ scnrs, Registered (setScanFinished p sr scnrs).2.db s := by
    intro s hs
    unfold Registered
    rw [hsel]
    exact hreg s hs
  have hres : resolvedIDs (setScanFinished p sr scnrs).2.db scnrs = resolvedIDs p.db scnrs := by
    unfold resolvedIDs scannerID?
    simp only [hsel]
  have hfacts : ∀ id ∈ resolvedIDs p.db scnrs,
      id ∈ selectScanned (setScanFinished p sr scnrs).2.db sr.Hash := by
    intro id hid
    rw [mem_selectScanned, hdb]
    exact List.mem_append_right _ (List.mem_map_of_mem _ hid)
  constructor
  · rw [manifestScanned_healthy _ _ _ hreg1, hres]
    obtain ⟨s, hs⟩ := List.exists_mem_of_ne_nil _ hne
    have hsreg := hreg s hs
    obtain ⟨id, hid⟩ : ∃ id, scannerID? p.db s = some id := by
      unfold Registered at hsreg
      unfold scannerID?
      cases hsel1 : selectScanner p.db s with
      | nil => exact absurd hsel1 hsreg
      | cons r rest => exact ⟨r.id, rfl⟩
    have hmem : id ∈ resolvedIDs p.db scnrs := (mem_resolvedIDs _ _ _).mpr ⟨s, hs, hid⟩
    have hne1 : selectScanned (setScanFinished p sr scnrs).2.db sr.Hash ≠ [] := by
      intro h
      have := hfacts id hmem
      rw [h] at this
      exact absurd this (List.not_mem_nil _)
    have hall : allFound (foundIDsOf (selectScanned (setScanFinished p sr scnrs).2.db sr.Hash))
        (resolvedIDs p.db scnrs) = true := by
      rw [allFound_iff]
      intro x hx
      rw [mem_foundIDsOf]
      exact hfacts x hx
    simp [hne1, hall]
  · unfold indexReport Pool.healthy
    rw [roundTrip_healthy _ rfl]
    simp only [Bool.false_eq_true, if_false]
    obtain ⟨rest, hrest⟩ := upsertRow_select sr.Hash sr p.db.indexreport
    have hselr : selectIndexReport (setScanFinished p sr scnrs).2.db sr.Hash =
        sr :: rest.map (fun r => r.scan_result) := by
      unfold selectIndexReport
      rw [hdb]
      simp only []
      rw [hrest]
      rfl
    rw [hselr]

/-- Witness of claim C8: scanners A and B finalize the example report on the
example store. -/
theorem setScanFinished_then_read_witness :
    ([exScannerA, exScannerB] ≠ [] ∧
      (setScanFinished (Pool.healthy exDB) exReport [exScannerA, exScannerB]).1 = none) ∧
    ((manifestScanned
        (Pool.healthy (setScanFinished (Pool.healthy exDB) exReport
          [exScannerA, exScannerB]).2.db) exReport.Hash [exScannerA, exScannerB]).1
        = (true, none) ∧
      (indexReport
        (Pool.healthy (setScanFinished (Pool.healthy exDB) exReport
          [exScannerA, exScannerB]).2.db) exReport.Hash).1
        = (some exReport, true, none)) :=
  ⟨⟨by decide,
    (setScanFinished_then_read exReport [exScannerA, exScannerB] (by decide)).2 exDB
      (by decide) (by decide) (by decide) (fun _ => List.not_mem_nil _)⟩,
   (setScanFinished_then_read exReport [exScannerA, exScannerB] (by decide)).1
     (Pool.healthy exDB)
     ((setScanFinished_then_read exReport [exScannerA, exScannerB] (by decide)).2 exDB
       (by decide) (by decide) (by decide) (fun _ => List.not_mem_nil _))⟩

/-! ## Effects of the lock calls on the server -/

theorem lockRoundTrip_log (st : LockStore) (req : Request) :
    (st.roundTrip req).2.log = st.log ++ [req] := by
  unfold LockStore.roundTrip
  split <;> rfl

theorem begin_full (st : LockStore) :
    (st.Begin.1 = .error .connFailure ∧ st.Begin.2.nextTx = st.nextTx ∧
      st.Begin.2.openTx = st.openTx ∧ st.Begin.2.granted = st.granted ∧
      st.Begin.2.log = st.log ++ [.begin]) ∨
    (st.Begin.1 = .ok st.nextTx ∧ st.Begin.2.nextTx = st.nextTx + 1 ∧
      st.Begin.2.openTx = st.openTx ++ [st.nextTx] ∧ st.Begin.2.granted = st.granted ∧
      st.Begin.2.log = st.log ++ [.begin]) := by
  obtain ⟨h1, h2, h3⟩ := lockRoundTrip_fields st .begin
  have h4 := lockRoundTrip_log st .begin
  unfold LockStore.Begin
  rcases hrt : st.roundTrip .begin with ⟨a, st1⟩
  rw [hrt] at h1 h2 h3 h4
  simp only at h1 h2 h3 h4
  cases a
  · right; simp [h1, h2, h3, h4]
  · left; exact ⟨rfl, h1, h2, h3, h4⟩
  · left; exact ⟨rfl, h1, h2, h3, h4⟩

theorem tryAdvisory_full (st : LockStore) (tx : Nat) (id : Int) :
    ((st.tryAdvisoryXactLock tx id).1 = .error .connFailure ∧
      (st.tryAdvisoryXactLock tx id).2.nextTx = st.nextTx ∧
      (st.tryAdvisoryXactLock tx id).2.openTx = st.openTx ∧
      (st.tryAdvisoryXactLock tx id).2.granted = st.granted ∧
      (st.tryAdvisoryXactLock tx id).2.log = st.log ++ [.tryAdvisory tx id]) ∨
    ((st.tryAdvisoryXactLock tx id).1 = .ok false ∧ (∃ g ∈ st.granted, g.1 = id) ∧
      (st.tryAdvisoryXactLock tx id).2.nextTx = st.nextTx ∧
      (st.tryAdvisoryXactLock tx id).2.openTx = st.openTx ∧
      (st.tryAdvisoryXactLock tx id).2.granted = st.granted ∧
      (st.tryAdvisoryXactLock tx id).2.log = st.log ++ [.tryAdvisory tx id]) ∨
    ((st.tryAdvisoryXactLock tx id).1 = .ok true ∧ (¬ ∃ g ∈ st.granted, g.1 = id) ∧
      (st.tryAdvisoryXactLock tx id).2.nextTx = st.nextTx ∧
      (st.tryAdvisoryXactLock tx id).2.openTx = st.openTx ∧
      (st.tryAdvisoryXactLock tx id).2.granted = st.granted ++ [(id, tx)] ∧
      (st.tryAdvisoryXactLock tx id).2.log = st.log ++ [.tryAdvisory tx id]) := by
  obtain ⟨h1, h2, h3⟩ := lockRoundTrip_fields st (.tryAdvisory tx id)
  have h4 := lockRoundTrip_log st (.tryAdvisory tx id)
  unfold LockStore.tryAdvisoryXactLock
  rcases hrt : st.roundTrip (.tryAdvisory tx id) with ⟨a, st1⟩
  rw [hrt] at h1 h2 h3 h4
  simp only at h1 h2 h3 h4
  cases a
  · simp only []
    by_cases hany : st1.granted.any (fun g => decide (g.1 = id)) = true
    · right; left
      rw [if_pos hany]
      refine ⟨rfl, ?_, h1, h2, h3, h4⟩
      rw [List.any_eq_true] at hany
      obtain ⟨g, hg, hgid⟩ := hany
      exact ⟨g, h3 ▸ hg, by simpa using hgid⟩
    · right; right
      rw [if_neg hany]
      refine ⟨rfl, ?_, h1, h2, by simp [h3], h4⟩
      rintro ⟨g, hg, hgid⟩
      apply hany
      rw [List.any_eq_true]
      exact ⟨g, h3 ▸ hg, by simpa using hgid⟩
  · left; exact ⟨rfl, h1, h2, h3, h4⟩
  · left; exact ⟨rfl, h1, h2, h3, h4⟩

theorem rollback_full (st : LockStore) (tx : Nat) :
    (st.Rollback tx).nextTx = st.nextTx ∧
    (st.Rollback tx).openTx = st.openTx.filter (fun t => t ≠ tx) ∧
    (st.Rollback tx).granted = st.granted.filter (fun g => g.2 ≠ tx) ∧
    (st.Rollback tx).log = st.log ++ [.rollback tx] := by
  obtain ⟨h1, h2, h3⟩ := lockRoundTrip_fields st (.rollback tx)
  have h4 := lockRoundTrip_log st (.rollback tx)
  unfold LockStore.Rollback LockStore.endTx
  exact ⟨h1, by rw [← h2], by rw [← h3], h4⟩

theorem commit_full (st : LockStore) (tx : Nat) :
    (tx ∉ st.openTx ∧ st.Commit tx = (some .ErrTxClosed, st)) ∨
    (tx ∈ st.openTx ∧ (st.Commit tx).1 = none ∧ (st.Commit tx).2.nextTx = st.nextTx ∧
      (st.Commit tx).2.openTx = st.openTx.filter (fun t => t ≠ tx) ∧
      (st.Commit tx).2.granted = st.granted.filter (fun g => g.2 ≠ tx) ∧
      (st.Commit tx).2.log = st.log ++ [.commit tx]) ∨
    (tx ∈ st.openTx ∧ (st.Commit tx).1 = some .connFailure ∧
      (st.Commit tx).2.nextTx = st.nextTx ∧ (st.Commit tx).2.openTx = st.openTx ∧
      (st.Commit tx).2.granted = st.granted ∧
      (st.Commit tx).2.log = st.log ++ [.commit tx]) ∨
    (tx ∈ st.openTx ∧ (st.Commit tx).1 = some .connFailure ∧
      (st.Commit tx).2.nextTx = st.nextTx ∧
      (st.Commit tx).2.openTx = st.openTx.filter (fun t => t ≠ tx) ∧
      (st.Commit tx).2.granted = st.granted.filter (fun g => g.2 ≠ tx) ∧
      (st.Commit tx).2.log = st.log ++ [.commit tx]) := by
  obtain ⟨h1, h2, h3⟩ := lockRoundTrip_fields st (.commit tx)
  have h4 := lockRoundTrip_log st (.commit tx)
  unfold LockStore.Commit
  by_cases ho : tx ∈ st.openTx
  · rw [if_pos ho]
    rcases hrt : st.roundTrip (.commit tx) with ⟨a, st1⟩
    rw [hrt] at h1 h2 h3 h4
    simp only at h1 h2 h3 h4
    cases a
    · right; left
      exact ⟨ho, rfl, h1, by simp [LockStore.endTx, h2], by simp [LockStore.endTx, h3], h4⟩
    · right; right; left
      exact ⟨ho, rfl, h1, h2, h3, h4⟩
    · right; right; right
      exact ⟨ho, rfl, h1, by simp [LockStore.endTx, h2], by simp [LockStore.endTx, h3], h4⟩
  · left
    rw [if_neg ho]
    exact ⟨ho, rfl⟩

/-- Every way `TryLock` can end, with its effect on the instance and on the
server: refused on a set flag, `Begin` failed, the advisory query failed, the
lock id was denied, or it was granted. -/
theorem tryLock_full (l : lock) (st : LockStore) (key : String) :
    (l.locked = true ∧ l.TryLock st key = (((false, none), l), st)) ∨
    (l.locked = false ∧ (l.TryLock st key).1 = ((false, some (.pg .connFailure)), l) ∧
      (l.TryLock st key).2.nextTx = st.nextTx ∧ (l.TryLock st key).2.openTx = st.openTx ∧
      (l.TryLock st key).2.granted = st.granted ∧
      (l.TryLock st key).2.log = st.log ++ [.begin]) ∨
    (l.locked = false ∧
      (∃ e, (l.TryLock st key).1 = ((false, some e), l)) ∧
      (l.TryLock st key).2.nextTx = st.nextTx + 1 ∧
      (l.TryLock st key).2.openTx = (st.openTx ++ [st.nextTx]).filter (fun t => t ≠ st.nextTx) ∧
      (l.TryLock st key).2.granted = st.granted.filter (fun g => g.2 ≠ st.nextTx) ∧
      (l.TryLock st key).2.log = st.log ++
        [.begin, .tryAdvisory st.nextTx (keyInt64 key), .rollback st.nextTx]) ∨
    (l.locked = false ∧ (l.TryLock st key).1 = ((false, none), l) ∧
      (∃ g ∈ st.granted, g.1 = keyInt64 key) ∧
      (l.TryLock st key).2.nextTx = st.nextTx + 1 ∧
      (l.TryLock st key).2.openTx = (st.openTx ++ [st.nextTx]).filter (fun t => t ≠ st.nextTx) ∧
      (l.TryLock st key).2.granted = st.granted.filter (fun g => g.2 ≠ st.nextTx) ∧
      (l.TryLock st key).2.log = st.log ++
        [.begin, .tryAdvisory st.nextTx (keyInt64 key), .rollback st.nextTx]) ∨
    (l.locked = false ∧
      (l.TryLock st key).1 = ((true, none), { l with locked := true, tx := some st.nextTx }) ∧
      (¬ ∃ g ∈ st.granted, g.1 = keyInt64 key) ∧
      (l.TryLock st key).2.nextTx = st.nextTx + 1 ∧
      (l.TryLock st key).2.openTx = st.openTx ++ [st.nextTx] ∧
      (l.TryLock st key).2.granted = st.granted ++ [(keyInt64 key, st.nextTx)] ∧
      (l.TryLock st key).2.log = st.log ++ [.begin, .tryAdvisory st.nextTx (keyInt64 key)]) := by
  unfold lock.TryLock
  by_cases hl : l.locked = true
  · left
    rw [if_pos hl]
    exact ⟨hl, rfl⟩
  · right
    have hl2 : l.locked = false := by simpa using hl
    rw [if_neg hl]
    simp only []
    rcases begin_full st with ⟨hb0, hb1, hb2, hb3, hb4⟩ | ⟨hb0, hb1, hb2, hb3, hb4⟩
    · left
      rcases hb : st.Begin with ⟨r, st1⟩
      rw [hb] at hb0 hb1 hb2 hb3 hb4
      simp only at hb0 hb1 hb2 hb3 hb4
      subst hb0
      exact ⟨hl2, rfl, hb1, hb2, hb3, hb4⟩
    · right
      rcases hb : st.Begin with ⟨r, st1⟩
      rw [hb] at hb0 hb1 hb2 hb3 hb4
      simp only at hb0 hb1 hb2 hb3 hb4
      subst hb0
      simp only []
      have hroll : ∀ (st2 : LockStore), st2.nextTx = st1.nextTx → st2.openTx = st1.openTx →
          st2.granted = st1.granted →
          st2.log = st1.log ++ [.tryAdvisory st.nextTx (keyInt64 key)] →
          (st2.Rollback st.nextTx).nextTx = st.nextTx + 1 ∧
          (st2.Rollback st.nextTx).openTx =
            (st.openTx ++ [st.nextTx]).filter (fun t => t ≠ st.nextTx) ∧
          (st2.Rollback st.nextTx).granted = st.granted.filter (fun g => g.2 ≠ st.nextTx) ∧
          (st2.Rollback st.nextTx).log = st.log ++
            [.begin, .tryAdvisory st.nextTx (keyInt64 key), .rollback st.nextTx] := by
        intro st2 e1 e2 e3 e4
        obtain ⟨r1, r2, r3, r4⟩ := rollback_full st2 st.nextTx
        refine ⟨by rw [r1, e1, hb1], by rw [r2, e2, hb2], by rw [r3, e3, hb3], ?_⟩
        rw [r4, e4, hb4]
        simp
      rcases tryAdvisory_full st1 st.nextTx (keyInt64 key) with
        ⟨ha0, ha1, ha2, ha3, ha4⟩ | ⟨ha0, hden, ha1, ha2, ha3, ha4⟩ |
        ⟨ha0, hfree, ha1, ha2, ha3, ha4⟩
      · left
        rcases ha : st1.tryAdvisoryXactLock st.nextTx (keyInt64 key) with ⟨r2, st2⟩
        rw [ha] at ha0 ha1 ha2 ha3 ha4
        simp only at ha0 ha1 ha2 ha3 ha4
        subst ha0
        simp only []
        exact ⟨hl2, ⟨_, rfl⟩, hroll st2 ha1 ha2 ha3 ha4⟩
      · right; left
        rcases ha : st1.tryAdvisoryXactLock st.nextTx (keyInt64 key) with ⟨r2, st2⟩
        rw [ha] at ha0 ha1 ha2 ha3 ha4
        simp only at ha0 ha1 ha2 ha3 ha4
        subst ha0
        simp only [Bool.false_eq_true, if_false]
        exact ⟨hl2, trivial, hb3 ▸ hden, hroll st2 ha1 ha2 ha3 ha4⟩
      · right; right
        rcases ha : st1.tryAdvisoryXactLock st.nextTx (keyInt64 key) with ⟨r2, st2⟩
        rw [ha] at ha0 ha1 ha2 ha3 ha4
        simp only at ha0 ha1 ha2 ha3 ha4
        subst ha0
        simp only [if_true]
        refine ⟨hl2, trivial, hb3 ▸ hfree, by rw [ha1, hb1], by rw [ha2, hb2],
          by rw [ha3, hb3], ?_⟩
        rw [ha4, hb4]
        simp

/-- Every way `Unlock` can end, with its effect on the instance and on the
server: the flag is not set, no transaction is retained, the retained
transaction has already ended, the commit succeeds, the commit fails and the
transaction stays open, or the commit fails and the transaction is aborted. -/
theorem unlock_full (l : lock) (st : LockStore) :
    (l.locked = false ∧ l.Unlock st =
      ((some (.errorf "attempted to unlock when no lock has been acquired"), l), st)) ∨
    (l.locked = true ∧ l.tx = none ∧ l.Unlock st =
      ((some (.errorf "attempted to unlock but no transaction is populated in scanLock"), l),
        st)) ∨
    (l.locked = true ∧ ∃ t, l.tx = some t ∧
      ((t ∉ st.openTx ∧ l.Unlock st =
          ((some (.wrap "failed to commit transaction and free lock: %v" (.pg .ErrTxClosed)), l),
            st)) ∨
       (t ∈ st.openTx ∧ (l.Unlock st).1 = (none, { l with locked := false }) ∧
          (l.Unlock st).2.nextTx = st.nextTx ∧
          (l.Unlock st).2.openTx = st.openTx.filter (fun x => x ≠ t) ∧
          (l.Unlock st).2.granted = st.granted.filter (fun g => g.2 ≠ t) ∧
          (l.Unlock st).2.log = st.log ++ [.commit t]) ∨
       (t ∈ st.openTx ∧ (l.Unlock st).1 =
            (some (.wrap "failed to commit transaction and free lock: %v" (.pg .connFailure)),
              l) ∧
          (l.Unlock st).2.nextTx = st.nextTx ∧ (l.Unlock st).2.openTx = st.openTx ∧
          (l.Unlock st).2.granted = st.granted ∧
          (l.Unlock st).2.log = st.log ++ [.commit t]) ∨
       (t ∈ st.openTx ∧ (l.Unlock st).1 =
            (some (.wrap "failed to commit transaction and free lock: %v" (.pg .connFailure)),
              l) ∧
          (l.Unlock st).2.nextTx = st.nextTx ∧
          (l.Unlock st).2.openTx = st.openTx.filter (fun x => x ≠ t) ∧
          (l.Unlock st).2.granted = st.granted.filter (fun g => g.2 ≠ t) ∧
          (l.Unlock st).2.log = st.log ++ [.commit t]))) := by
  unfold lock.Unlock
  by_cases hl : l.locked = true
  · right
    simp only [hl, Bool.not_true, Bool.false_eq_true, if_false]
    cases htx : l.tx with
    | none => left; exact ⟨trivial, rfl, rfl⟩
    | some t =>
      right
      refine ⟨trivial, t, rfl, ?_⟩
      simp only []
      rcases commit_full st t with ⟨hc0, hc1⟩ | ⟨hc0, hc1, hc2, hc3, hc4, hc5⟩ |
        ⟨hc0, hc1, hc2, hc3, hc4, hc5⟩ | ⟨hc0, hc1, hc2, hc3, hc4, hc5⟩
      · left
        rw [hc1]
        exact ⟨hc0, rfl⟩
      · right; left
        rcases hc : st.Commit t with ⟨r, st1⟩
        rw [hc] at hc1 hc2 hc3 hc4 hc5
        simp only at hc1 hc2 hc3 hc4 hc5
        subst hc1
        exact ⟨hc0, rfl, hc2, hc3, hc4, hc5⟩
      · right; right; left
        rcases hc : st.Commit t with ⟨r, st1⟩
        rw [hc] at hc1 hc2 hc3 hc4 hc5
        simp only at hc1 hc2 hc3 hc4 hc5
        subst hc1
        exact ⟨hc0, rfl, hc2, hc3, hc4, hc5⟩
      · right; right; right
        rcases hc : st.Commit t with ⟨r, st1⟩
        rw [hc] at hc1 hc2 hc3 hc4 hc5
        simp only at hc1 hc2 hc3 hc4 hc5
        subst hc1
        exact ⟨hc0, rfl, hc2, hc3, hc4, hc5⟩
  · left
    have hl2 : l.locked = false := by simpa using hl
    simp only [hl2, Bool.not_false, if_true]
    exact ⟨trivial, trivial⟩

/-- Claim C12, `TryLock` on a Held instance: whatever the key and the server, it
returns `(false, nil)`, leaves the instance (flag and retained transaction
included) as it is and leaves the server as it is: no request is logged, so no
transaction is begun and no advisory-lock request is issued. -/
theorem tryLock_held_is_noop (l : lock) (st : LockStore) (key : String)
    (hheld : l.locked = true) :
    l.TryLock st key = (((false, none), l), st) ∧
    (l.TryLock st key).1.2.locked = l.locked ∧ (l.TryLock st key).1.2.tx = l.tx ∧
    (l.TryLock st key).2.log = st.log ∧ (l.TryLock st key).2.nextTx = st.nextTx ∧
    (l.TryLock st key).2.openTx = st.openTx ∧ (l.TryLock st key).2.granted = st.granted := by
  have h : l.TryLock st key = (((false, none), l), st) := by
    unfold lock.TryLock
    rw [if_pos hheld]
  rw [h]
  exact ⟨rfl, rfl, rfl, rfl, rfl, rfl, rfl⟩

/-- Witness of claim C12: the holder of the example world tries again with the
same key and with another key. -/
theorem tryLock_held_is_noop_witness :
    (exWorld.locks 0).locked = true ∧
    ((exWorld.locks 0).TryLock exWorld.store "updater" =
        (((false, none), exWorld.locks 0), exWorld.store) ∧
    ((exWorld.locks 0).TryLock exWorld.store "updater").1.2.locked = (exWorld.locks 0).locked ∧
    ((exWorld.locks 0).TryLock exWorld.store "updater").1.2.tx = (exWorld.locks 0).tx ∧
    ((exWorld.locks 0).TryLock exWorld.store "updater").2.log = exWorld.store.log ∧
    ((exWorld.locks 0).TryLock exWorld.store "updater").2.nextTx = exWorld.store.nextTx ∧
    ((exWorld.locks 0).TryLock exWorld.store "updater").2.openTx = exWorld.store.openTx ∧
    ((exWorld.locks 0).TryLock exWorld.store "updater").2.granted = exWorld.store.granted) :=
  ⟨by decide, tryLock_held_is_noop (exWorld.locks 0) exWorld.store "updater" (by decide)⟩

/-- Claim C13, the transition of `Unlock`: for every instance and server,
(1) when the flag is not set, (2) when the flag is set and no transaction is
retained, and (3) when the commit of the retained transaction fails, `Unlock`
returns a non-nil error and leaves the instance (flag and handle) as it is, in
cases (1) and (2) without a request to the server; (4) otherwise it returns
nil, clears the flag, keeps the other fields, sends exactly one request, the
commit of the retained transaction, after which that transaction is no longer
open and owns no advisory lock. -/
theorem unlock_transition (l : lock) (st : LockStore) :
    (l.locked = false → ∃ e, l.Unlock st = ((some e, l), st)) ∧
    (l.locked = true → l.tx = none → ∃ e, l.Unlock st = ((some e, l), st)) ∧
    (∀ t e, l.locked = true → l.tx = some t → (st.Commit t).1 = some e →
      ∃ e1, (l.Unlock st).1 = (some e1, l)) ∧
    (∀ t, l.locked = true → l.tx = some t → (st.Commit t).1 = none →
      (l.Unlock st).1 = (none, { l with locked := false }) ∧
      (l.Unlock st).2.log = st.log ++ [.commit t] ∧
      t ∉ (l.Unlock st).2.openTx ∧ ∀ g ∈ (l.Unlock st).2.granted, g.2 ≠ t) := by
  refine ⟨fun h => ?_, fun h htx => ?_, fun t e h htx hc => ?_, fun t h htx hc => ?_⟩
  · rcases unlock_full l st with ⟨_, h1⟩ | ⟨h0, _⟩ | ⟨h0, _⟩
    · exact ⟨_, h1⟩
    · rw [h] at h0; exact absurd h0 (by decide)
    · rw [h] at h0; exact absurd h0 (by decide)
  · rcases unlock_full l st with ⟨h0, _⟩ | ⟨_, _, h1⟩ | ⟨_, t, ht, _⟩
    · rw [h] at h0; exact absurd h0 (by decide)
    · exact ⟨_, h1⟩
    · rw [htx] at ht; exact absurd ht (by simp)
  · unfold lock.Unlock
    simp only [h, htx, Bool.not_true, Bool.false_eq_true, if_false]
    rcases hcm : st.Commit t with ⟨r, st1⟩
    rw [hcm] at hc
    simp only at hc
    subst hc
    exact ⟨_, rfl⟩
  · have heq : l.Unlock st = ((none, { l with locked := false }), (st.Commit t).2) := by
      unfold lock.Unlock
      simp only [h, htx, Bool.not_true, Bool.false_eq_true, if_false]
      rcases hcm : st.Commit t with ⟨r, st1⟩
      rw [hcm] at hc
      simp only at hc
      subst hc
      rfl
    rw [heq]
    rcases commit_full st t with ⟨_, hc1⟩ | ⟨_, _, _, h3, h4, h5⟩ | ⟨_, hc1, _⟩ | ⟨_, hc1, _⟩
    · rw [hc1] at hc
      exact absurd hc (by simp)
    · refine ⟨rfl, h5, ?_, ?_⟩
      · show t ∉ (st.Commit t).2.openTx
        rw [h3, List.mem_filter]
        simp
      · intro g hg
        have hg1 : g ∈ (st.Commit t).2.granted := hg
        rw [h4, List.mem_filter] at hg1
        simpa using hg1.2
    · rw [hc1] at hc
      exact absurd hc (by simp)
    · rw [hc1] at hc
      exact absurd hc (by simp)

/-- Witness of claim C13: the holder of the example world unlocks over a healthy
connection, and a fresh instance unlocks without holding. -/
theorem unlock_transition_witness :
    ((NewLock 5).locked = false ∧ (exWorld.locks 0).locked = true ∧
      (exWorld.locks 0).tx = some 0 ∧ (exWorld.store.Commit 0).1 = none) ∧
    (∃ e, (NewLock 5).Unlock exWorld.store = ((some e, NewLock 5), exWorld.store)) ∧
    ((exWorld.locks 0).Unlock exWorld.store).1 =
        (none, { exWorld.locks 0 with locked := false }) ∧
    ((exWorld.locks 0).Unlock exWorld.store).2.log = exWorld.store.log ++ [.commit 0] ∧
    0 ∉ ((exWorld.locks 0).Unlock exWorld.store).2.openTx ∧
    ∀ g ∈ ((exWorld.locks 0).Unlock exWorld.store).2.granted, g.2 ≠ 0 :=
  ⟨⟨by decide, by decide, by decide, by decide⟩,
   (unlock_transition (NewLock 5) exWorld.store).1 (by decide),
   (unlock_transition (exWorld.locks 0) exWorld.store).2.2.2 0 (by decide) (by decide)
     (by decide)⟩

theorem LockStore.Extends.refl (st : LockStore) : st.Extends st where
  next_le := le_refl _
  open_old := fun _ _ h => h
  granted_kept := fun _ _ _ _ h => h
  log_kept := fun _ h => h
  rollback_new := fun _ h => Or.inl h

theorem LockStore.Extends.trans {a b c : LockStore} (h1 : a.Extends b) (h2 : b.Extends c) :
    a.Extends c where
  next_le := le_trans h1.next_le h2.next_le
  open_old := fun t ht hc =>
    h1.open_old t ht (h2.open_old t (lt_of_lt_of_le ht h1.next_le) hc)
  granted_kept := fun t id ht hc hg =>
    h2.granted_kept t id (lt_of_lt_of_le ht h1.next_le) hc
      (h1.granted_kept t id ht (h2.open_old t (lt_of_lt_of_le ht h1.next_le) hc) hg)
  log_kept := fun r hr => h2.log_kept r (h1.log_kept r hr)
  rollback_new := fun t ht => by
    rcases h2.rollback_new t ht with h | ⟨h3, h4⟩
    · rcases h1.rollback_new t h with h5 | ⟨h5, h6⟩
      · exact Or.inl h5
      · exact Or.inr ⟨h5, lt_of_lt_of_le h6 h2.next_le⟩
    · exact Or.inr ⟨le_trans h1.next_le h3, h4⟩

/-- The scripted answers play no part in `Extends`. -/
theorem LockStore.Extends.of_script {st st1 : LockStore} {script : List Answer}
    (h : LockStore.Extends { st with answers := script } st1) : st.Extends st1 where
  next_le := h.next_le
  open_old := h.open_old
  granted_kept := h.granted_kept
  log_kept := h.log_kept
  rollback_new := h.rollback_new

/-- The two ways the server moves: requests are logged and nothing else changes,
or a transaction begun in the move ends. -/
theorem extends_of_log (st st1 : LockStore) (reqs : List Request)
    (h1 : st1.nextTx = st.nextTx) (h2 : st1.openTx = st.openTx) (h3 : st1.granted = st.granted)
    (h4 : st1.log = st.log ++ reqs) (hreqs : ∀ t, Request.rollback t ∉ reqs) :
    st.Extends st1 where
  next_le := le_of_eq h1.symm
  open_old := fun _ _ h => h2 ▸ h
  granted_kept := fun _ _ _ _ h => h3 ▸ h
  log_kept := fun r hr => by rw [h4]; exact List.mem_append_left _ hr
  rollback_new := fun t ht => by
    rw [h4, List.mem_append] at ht
    rcases ht with h | h
    · exact Or.inl h
    · exact absurd h (hreqs t)

theorem tryLock_extends (l : lock) (st : LockStore) (key : String) :
    st.Extends (l.TryLock st key).2 := by
  have hend : ∀ (st1 : LockStore), st1.nextTx = st.nextTx + 1 →
      st1.openTx = (st.openTx ++ [st.nextTx]).filter (fun t => t ≠ st.nextTx) →
      st1.granted = st.granted.filter (fun g => g.2 ≠ st.nextTx) →
      st1.log = st.log ++
        [.begin, .tryAdvisory st.nextTx (keyInt64 key), .rollback st.nextTx] →
      st.Extends st1 := by
    intro st1 h1 h2 h3 h4
    constructor
    · omega
    · intro t ht hc
      rw [h2, List.mem_filter, List.mem_append, List.mem_singleton] at hc
      rcases hc.1 with h | h
      · exact h
      · omega
    · intro t id ht _ hg
      rw [h3, List.mem_filter]
      exact ⟨hg, by simp; omega⟩
    · intro r hr
      rw [h4]; exact List.mem_append_left _ hr
    · intro t ht
      rw [h4, List.mem_append] at ht
      rcases ht with h | h
      · exact Or.inl h
      · right
        simp only [List.mem_cons, Request.rollback.injEq, List.mem_singleton, List.mem_nil_iff,
          or_false, false_or, reduceCtorEq] at h
        omega
  rcases tryLock_full l st key with ⟨_, h⟩ | ⟨_, _, h1, h2, h3, h4⟩ |
      ⟨_, _, h1, h2, h3, h4⟩ | ⟨_, _, _, h1, h2, h3, h4⟩ | ⟨_, _, _, h1, h2, h3, h4⟩
  · rw [h]; exact LockStore.Extends.refl st
  · exact extends_of_log st _ [.begin] h1 h2 h3 h4 (by simp)
  · exact hend _ h1 h2 h3 h4
  · exact hend _ h1 h2 h3 h4
  · constructor
    · omega
    · intro t ht hc
      rw [h2, List.mem_append, List.mem_singleton] at hc
      rcases hc with h | h
      · exact h
      · omega
    · intro t id _ _ hg
      rw [h3]; exact List.mem_append_left _ hg
    · intro r hr
      rw [h4]; exact List.mem_append_left _ hr
    · intro t ht
      rw [h4, List.mem_append] at ht
      rcases ht with h | h
      · exact Or.inl h
      · simp at h

theorem unlock_extends (l : lock) (st : LockStore) : st.Extends (l.Unlock st).2 := by
  have hend : ∀ (st1 : LockStore) (t : Nat), st1.nextTx = st.nextTx →
      st1.openTx = st.openTx.filter (fun x => x ≠ t) →
      st1.granted = st.granted.filter (fun g => g.2 ≠ t) →
      st1.log = st.log ++ [.commit t] → st.Extends st1 := by
    intro st1 t h1 h2 h3 h4
    constructor
    · omega
    · intro x _ hc
      rw [h2] at hc
      exact List.mem_of_mem_filter hc
    · intro x id _ hc hg
      rw [h2, List.mem_filter] at hc
      rw [h3, List.mem_filter]
      exact ⟨hg, by simpa using hc.2⟩
    · intro r hr
      rw [h4]; exact List.mem_append_left _ hr
    · intro x hx
      rw [h4, List.mem_append] at hx
      rcases hx with h | h
      · exact Or.inl h
      · simp at h
  rcases unlock_full l st with ⟨_, h⟩ | ⟨_, _, h⟩ | ⟨_, t, _, hcases⟩
  · rw [h]; exact LockStore.Extends.refl st
  · rw [h]; exact LockStore.Extends.refl st
  · rcases hcases with ⟨_, h⟩ | ⟨_, _, h1, h2, h3, h4⟩ | ⟨_, _, h1, h2, h3, h4⟩ |
      ⟨_, _, h1, h2, h3, h4⟩
    · rw [h]; exact LockStore.Extends.refl st
    · exact hend _ t h1 h2 h3 h4
    · exact extends_of_log st _ [.commit t] h1 h2 h3 h4 (by simp)
    · exact hend _ t h1 h2 h3 h4

/-! ## Blocking `Lock` -/

theorem IdleClean.idle_extends {l0 l : lock} {st st1 : LockStore} {tr : List Attempt}
    (h : IdleClean l0 l st tr) (hx : st.Extends st1) : IdleClean l0 l st1 tr := by
  obtain ⟨h1, h2, h3⟩ := h
  refine ⟨h1, h2, fun a ha => ⟨(h3 a ha).1, fun t ht => ?_⟩⟩
  obtain ⟨hlt, hclosed⟩ := (h3 a ha).2 t ht
  exact ⟨lt_of_lt_of_le hlt hx.next_le, fun hopen => hclosed (hx.open_old t hlt hopen)⟩

/-- One ticker attempt of an Idle-and-clean `Lock` call: it fails with an error
and stays Idle and clean, or is denied and stays Idle and clean, or is granted
and becomes Held. -/
theorem attempt_step (key : String) (l0 l : lock) (st : LockStore) (script : List Answer)
    (tr : List Attempt) (h : IdleClean l0 l st tr) :
    ((∃ e, (l.TryLock { st with answers := script } key).1.1.2 = some e) ∧
      IdleClean l0 (l.TryLock { st with answers := script } key).1.2
        (l.TryLock { st with answers := script } key).2
        (tr ++ [attemptOf st (l.TryLock { st with answers := script } key)])) ∨
    ((l.TryLock { st with answers := script } key).1.1.2 = none ∧
      IdleClean l0 (l.TryLock { st with answers := script } key).1.2
        (l.TryLock { st with answers := script } key).2
        (tr ++ [attemptOf st (l.TryLock { st with answers := script } key)])) ∨
    ((l.TryLock { st with answers := script } key).1.1.2 = none ∧
      HeldOnce key (l.TryLock { st with answers := script } key).1.2
        (l.TryLock { st with answers := script } key).2
        (tr ++ [attemptOf st (l.TryLock { st with answers := script } key)])) := by
  have hx : st.Extends (l.TryLock { st with answers := script } key).2 :=
    (tryLock_extends l { st with answers := script } key).of_script
  have hold := h.idle_extends hx
  obtain ⟨hl0, hidle, hall⟩ := h
  have hN : ({ st with answers := script } : LockStore).nextTx = st.nextTx := rfl
  have hO : ({ st with answers := script } : LockStore).openTx = st.openTx := rfl
  have hG : ({ st with answers := script } : LockStore).granted = st.granted := rfl
  -- an attempt that was not granted leaves the instance Idle and clean
  have hclean : ∀ (b : Option Error),
      (l.TryLock { st with answers := script } key).1 = ((false, b), l) →
      ((l.TryLock { st with answers := script } key).2.nextTx = st.nextTx ∧
        (l.TryLock { st with answers := script } key).2.openTx = st.openTx) ∨
      ((l.TryLock { st with answers := script } key).2.nextTx = st.nextTx + 1 ∧
        (l.TryLock { st with answers := script } key).2.openTx =
          (st.openTx ++ [st.nextTx]).filter (fun t => t ≠ st.nextTx)) →
      IdleClean l0 (l.TryLock { st with answers := script } key).1.2
        (l.TryLock { st with answers := script } key).2
        (tr ++ [attemptOf st (l.TryLock { st with answers := script } key)]) := by
    intro b hres hst
    obtain ⟨_, _, hold3⟩ := hold
    refine ⟨by rw [hres]; exact hl0, by rw [hres]; exact hidle, fun a ha => ?_⟩
    rw [List.mem_append, List.mem_singleton] at ha
    rcases ha with ha | ha
    · exact hold3 a ha
    · subst ha
      unfold attemptOf
      refine ⟨by rw [hres], fun t ht => ?_⟩
      rcases hst with ⟨h1, h2⟩ | ⟨h1, h2⟩
      · simp only [h1, if_true] at ht
        exact absurd ht (by simp)
      · have hne : ¬ st.nextTx + 1 = st.nextTx := by omega
        simp only [h1, hne, if_false, Option.some.injEq] at ht
        subst ht
        refine ⟨by rw [h1]; omega, ?_⟩
        rw [h2, List.mem_filter]
        simp
  rcases tryLock_full l { st with answers := script } key with
    ⟨hl, _⟩ | ⟨_, hres, h1, h2, _, _⟩ | ⟨_, ⟨e, hres⟩, h1, h2, _, _⟩ |
    ⟨_, hres, _, h1, h2, _, _⟩ | ⟨_, hres, _, h1, h2, h3, _⟩
  · rw [hidle] at hl
    exact absurd hl (by decide)
  · left
    exact ⟨⟨_, by rw [hres]⟩, hclean _ hres (Or.inl ⟨h1, h2⟩)⟩
  · left
    exact ⟨⟨e, by rw [hres]⟩, hclean _ hres (Or.inr ⟨h1, h2⟩)⟩
  · right; left
    exact ⟨by rw [hres], hclean _ hres (Or.inr ⟨h1, h2⟩)⟩
  · right; right
    refine ⟨by rw [hres], by rw [hres], st.nextTx, tr, ?_, by rw [hres], ?_, ?_, ?_⟩
    · unfold attemptOf
      have hne : ¬ st.nextTx + 1 = st.nextTx := by omega
      rw [hres]
      simp [h1, hN]
    · rw [h3, hN]
      simp
    · rw [h2, hN]
      simp
    · intro a ha
      obtain ⟨hacq, hop⟩ := hall a ha
      refine ⟨hacq, fun t1 ht1 => ?_⟩
      obtain ⟨hlt, hclosed⟩ := hop t1 ht1
      refine ⟨hlt, ?_⟩
      rw [h2, hO, hN, List.mem_append, List.mem_singleton]
      rintro (h | h)
      · exact hclosed h
      · omega

/-- The retry loop started Idle and clean, or Held, ends Held when it returns
nil, Idle and clean when it returns an error or is still waiting, and never
panics. -/
theorem retryLoop_spec (key : String) (l0 : lock) (events : List LockEvent) :
    ∀ (l : lock) (st : LockStore) (tr : List Attempt),
      IdleClean l0 l st tr ∨ HeldOnce key l st tr →
      ((retryLoop key events l st tr).result = .returned none →
        HeldOnce key (retryLoop key events l st tr).l (retryLoop key events l st tr).st
          (retryLoop key events l st tr).attempts) ∧
      (∀ e, (retryLoop key events l st tr).result = .returned (some e) →
        IdleClean l0 (retryLoop key events l st tr).l (retryLoop key events l st tr).st
          (retryLoop key events l st tr).attempts) ∧
      (∀ msg, (retryLoop key events l st tr).result ≠ .panicked msg) := by
  induction events with
  | nil =>
    intro l st tr h
    unfold retryLoop
    by_cases hl : l.locked = true
    · rw [if_pos hl]
      rcases h with h | h
      · rw [h.2.1] at hl
        exact absurd hl (by decide)
      · exact ⟨fun _ => h, fun e he => absurd he (by simp), fun msg => by simp⟩
    · rw [if_neg hl]
      exact ⟨fun he => absurd he (by simp), fun e he => absurd he (by simp),
        fun msg => by simp⟩
  | cons ev rest ih =>
    intro l st tr h
    unfold retryLoop
    by_cases hl : l.locked = true
    · rw [if_pos hl]
      rcases h with h | h
      · rw [h.2.1] at hl
        exact absurd hl (by decide)
      · exact ⟨fun _ => h, fun e he => absurd he (by simp), fun msg => by simp⟩
    · rw [if_neg hl]
      have hidle : IdleClean l0 l st tr := by
        rcases h with h | h
        · exact h
        · exact absurd h.1 hl
      cases ev with
      | tick script =>
        simp only []
        rcases attempt_step key l0 l st script tr hidle with
          ⟨⟨e, he⟩, hc⟩ | ⟨hnone, hc⟩ | ⟨hnone, hc⟩
        · rw [he]
          exact ⟨fun h1 => absurd h1 (by simp), fun _ _ => hc, fun msg => by simp⟩
        · rw [hnone]
          exact ih _ _ _ (Or.inl hc)
        · rw [hnone]
          exact ih _ _ _ (Or.inr hc)
      | done =>
        exact ⟨fun h1 => absurd h1 (by simp), fun _ _ => hidle, fun msg => by simp⟩
      | otherTryLock o k script =>
        exact ih _ _ _ (Or.inl (hidle.idle_extends (tryLock_extends o _ k).of_script))
      | otherUnlock o script =>
        exact ih _ _ _ (Or.inl (hidle.idle_extends (unlock_extends o _).of_script))

theorem HeldOnce.granted_once {key : String} {l : lock} {st : LockStore} {tr : List Attempt}
    (h : HeldOnce key l st tr) : (tr.filter (fun a => a.acquired)).length = 1 := by
  obtain ⟨_, t, tr0, htr, _, _, _, hall⟩ := h
  have h0 : tr0.filter (fun a => a.acquired) = [] := by
    rw [List.filter_eq_nil_iff]
    intro a ha
    rw [(hall a ha).1]
    simp
  rw [htr, List.filter_append, h0]
  rfl

/-- Claim C14, blocking `Lock`: for every Idle instance with a positive retry
interval, every server, every script of its answers and every sequence of
ticker firings, cancellation and calls of other instances, (1) when `Lock`
returns nil, exactly one `TryLock` of the call was granted, the last one, the
instance is Held, it retains the transaction of that attempt, which is open and
owns the lock id of the key, and every transaction opened by an earlier attempt
has ended; (2) when `Lock` returns an error, the instance is as it was (Idle),
no attempt was granted and every transaction an attempt opened has ended;
(3) `Lock` does not panic. -/
theorem lock_acquires_once_or_fails_cleanly (l : lock) (st : LockStore) (key : String)
    (events : List LockEvent) (hidle : l.locked = false) (hpos : 0 < l.retry) :
    ((l.Lock st key events).result = .returned none →
      ((l.Lock st key events).attempts.filter (fun a => a.acquired)).length = 1 ∧
      HeldOnce key (l.Lock st key events).l (l.Lock st key events).st
        (l.Lock st key events).attempts) ∧
    (∀ e, (l.Lock st key events).result = .returned (some e) →
      IdleClean l (l.Lock st key events).l (l.Lock st key events).st
        (l.Lock st key events).attempts) ∧
    (∀ msg, (l.Lock st key events).result ≠ .panicked msg) := by
  have hstart : IdleClean l l st [] :=
    ⟨rfl, hidle, fun a ha => absurd ha (List.not_mem_nil a)⟩
  have hscript : ({ st with answers := st.answers } : LockStore) = st := rfl
  have hstep := attempt_step key l l st st.answers [] hstart
  rw [hscript, List.nil_append] at hstep
  have main : ((l.Lock st key events).result = .returned none →
      HeldOnce key (l.Lock st key events).l (l.Lock st key events).st
        (l.Lock st key events).attempts) ∧
    (∀ e, (l.Lock st key events).result = .returned (some e) →
      IdleClean l (l.Lock st key events).l (l.Lock st key events).st
        (l.Lock st key events).attempts) ∧
    (∀ msg, (l.Lock st key events).result ≠ .panicked msg) := by
    unfold lock.Lock
    have hl : ¬ l.locked = true := by rw [hidle]; decide
    rw [if_neg hl]
    rcases hstep with ⟨⟨e, he⟩, hc⟩ | ⟨hnone, hc⟩ | ⟨hnone, hc⟩
    · rw [he]
      exact ⟨fun h1 => absurd h1 (by simp), fun _ _ => hc, fun msg => by simp⟩
    · rw [hnone]
      simp only []
      have hl1 : ¬ (l.TryLock st key).1.2.locked = true := by rw [hc.2.1]; decide
      have hr : ¬ (l.TryLock st key).1.2.retry ≤ 0 := by rw [hc.1]; omega
      rw [if_neg hl1, if_neg hr]
      exact retryLoop_spec key l events _ _ _ (Or.inl hc)
    · rw [hnone]
      simp only []
      rw [if_pos hc.1]
      exact ⟨fun _ => hc, fun e he => absurd he (by simp), fun msg => by simp⟩
  exact ⟨fun h => ⟨(main.1 h).granted_once, main.1 h⟩, main.2.1, main.2.2⟩

/-- Witness of claim C14: a fresh instance with a five nanosecond interval calls
`Lock("updater")` while another instance holds that lock; its first attempt and
its first retry are denied, the holder unlocks, and its second retry is
granted. -/
theorem lock_acquires_once_or_fails_cleanly_witness :
    ((NewLock 5).locked = false ∧ 0 < (NewLock 5).retry ∧
      ((NewLock 5).Lock exHeldStore "updater" exEvents).result = .returned none ∧
      ((NewLock 5).Lock exHeldStore "updater" exEvents).attempts =
        [⟨false, none, some 1⟩, ⟨false, none, some 2⟩, ⟨true, none, some 3⟩]) ∧
    ((((NewLock 5).Lock exHeldStore "updater" exEvents).result = .returned none →
      (((NewLock 5).Lock exHeldStore "updater" exEvents).attempts.filter
        (fun a => a.acquired)).length = 1 ∧
      HeldOnce "updater" ((NewLock 5).Lock exHeldStore "updater" exEvents).l
        ((NewLock 5).Lock exHeldStore "updater" exEvents).st
        ((NewLock 5).Lock exHeldStore "updater" exEvents).attempts) ∧
    (∀ e, ((NewLock 5).Lock exHeldStore "updater" exEvents).result = .returned (some e) →
      IdleClean (NewLock 5) ((NewLock 5).Lock exHeldStore "updater" exEvents).l
        ((NewLock 5).Lock exHeldStore "updater" exEvents).st
        ((NewLock 5).Lock exHeldStore "updater" exEvents).attempts) ∧
    (∀ msg, ((NewLock 5).Lock exHeldStore "updater" exEvents).result ≠ .panicked msg)) :=
  ⟨⟨by decide, by decide, by decide, by decide⟩,
   lock_acquires_once_or_fails_cleanly (NewLock 5) exHeldStore "updater" exEvents
     (by decide) (by decide)⟩

/-! ## Lock state invariant -/

theorem LockInv.inv_extends {l : lock} {st st1 : LockStore} (h : LockInv l st)
    (hx : st.Extends st1) : LockInv l st1 := by
  obtain ⟨h1, h2⟩ := h
  have hwf : ∀ t, Request.rollback t ∈ st1.log → t < st1.nextTx := by
    intro t ht
    rcases hx.rollback_new t ht with h | ⟨_, h⟩
    · exact lt_of_lt_of_le (h2 t h) hx.next_le
    · exact h
  refine ⟨fun hl => ?_, hwf⟩
  obtain ⟨t, htx, hlt, ⟨id, hreq⟩, hnr, hown⟩ := h1 hl
  refine ⟨t, htx, lt_of_lt_of_le hlt hx.next_le, ⟨id, hx.log_kept _ hreq⟩, ?_, ?_⟩
  · intro hr
    rcases hx.rollback_new t hr with h | ⟨h, _⟩
    · exact hnr h
    · omega
  · intro hopen
    obtain ⟨id1, hg⟩ := hown (hx.open_old t hlt hopen)
    exact ⟨id1, hx.granted_kept t id1 hlt hopen hg⟩

theorem LockInv.after_tryLock {l : lock} {st : LockStore} (h : LockInv l st) (key : String) :
    LockInv (l.TryLock st key).1.2 (l.TryLock st key).2 := by
  have hx := tryLock_extends l st key
  rcases tryLock_full l st key with ⟨_, hres⟩ | ⟨_, hres, _⟩ | ⟨_, ⟨e, hres⟩, _⟩ |
    ⟨_, hres, _⟩ | ⟨_, hres, _, h1, h2, h3, h4⟩
  · rw [hres]; exact h
  · have := h.inv_extends hx
    rw [hres]; exact this
  · have := h.inv_extends hx
    rw [hres]; exact this
  · have := h.inv_extends hx
    rw [hres]; exact this
  · have hwf := (h.inv_extends hx).2
    refine ⟨fun _ => ⟨st.nextTx, by rw [hres], by rw [h1]; omega, ⟨keyInt64 key, ?_⟩, ?_, ?_⟩,
      hwf⟩
    · rw [h4]; simp
    · rw [h4]
      intro hr
      rw [List.mem_append] at hr
      rcases hr with hr | hr
      · have := h.2 _ hr
        omega
      · simp at hr
    · intro _
      exact ⟨keyInt64 key, by rw [h3]; simp⟩

theorem LockInv.after_unlock {l : lock} {st : LockStore} (h : LockInv l st) :
    LockInv (l.Unlock st).1.2 (l.Unlock st).2 := by
  have hx := unlock_extends l st
  have hkeep : (l.Unlock st).1.2 = l → LockInv (l.Unlock st).1.2 (l.Unlock st).2 := by
    intro heq
    rw [heq]
    exact h.inv_extends hx
  rcases unlock_full l st with ⟨_, hres⟩ | ⟨_, _, hres⟩ | ⟨_, t, _, hcases⟩
  · exact hkeep (by rw [hres])
  · exact hkeep (by rw [hres])
  · rcases hcases with ⟨_, hres⟩ | ⟨_, hres, _⟩ | ⟨_, hres, _⟩ | ⟨_, hres, _⟩
    · exact hkeep (by rw [hres])
    · refine ⟨fun hl => ?_, (h.inv_extends hx).2⟩
      rw [hres] at hl
      exact absurd hl (by simp)
    · exact hkeep (by rw [hres])
    · exact hkeep (by rw [hres])

/-- The scripted answers play no part in the invariant. -/
theorem LockInv.script {l : lock} {st : LockStore} (h : LockInv l st) (script : List Answer) :
    LockInv l { st with answers := script } := h

theorem LockInv.after_retryLoop (key : String) (events : List LockEvent) :
    ∀ (l : lock) (st : LockStore) (tr : List Attempt), LockInv l st →
      LockInv (retryLoop key events l st tr).l (retryLoop key events l st tr).st := by
  induction events with
  | nil =>
    intro l st tr h
    unfold retryLoop
    split <;> exact h
  | cons ev rest ih =>
    intro l st tr h
    unfold retryLoop
    by_cases hl : l.locked = true
    · rw [if_pos hl]; exact h
    · rw [if_neg hl]
      cases ev with
      | tick script =>
        simp only []
        have hstep := (h.script script).after_tryLock key
        split
        · exact hstep
        · exact ih _ _ _ hstep
      | done => exact h
      | otherTryLock o k script =>
        exact ih _ _ _ (h.inv_extends (tryLock_extends o _ k).of_script)
      | otherUnlock o script =>
        exact ih _ _ _ (h.inv_extends (unlock_extends o _).of_script)

theorem LockInv.after_lockCall {l : lock} {st : LockStore} (h : LockInv l st) (key : String)
    (events : List LockEvent) :
    LockInv (l.Lock st key events).l (l.Lock st key events).st := by
  unfold lock.Lock
  have hstep := h.after_tryLock key
  split
  · exact h
  · split
    · exact hstep
    · split
      · exact hstep
      · split
        · exact hstep
        · exact LockInv.after_retryLoop key events _ _ _ hstep

theorem LockReachable.lockInv {l : lock} {st : LockStore} (h : LockReachable l st) :
    LockInv l st := by
  induction h with
  | init retry =>
    exact ⟨fun hl => by simp [NewLock] at hl, fun t ht => by simp [LockStore.init] at ht⟩
  | tryLock key script _ ih => exact (ih.script script).after_tryLock key
  | unlock script _ ih => exact (ih.script script).after_unlock
  | lockCall key script events _ ih => exact (ih.script script).after_lockCall key events
  | otherTryLock o key script _ ih => exact ih.inv_extends (tryLock_extends o _ key).of_script
  | otherUnlock o script _ ih => exact ih.inv_extends (unlock_extends o _).of_script

/-- Claim C18, lock state invariant: in every state of an instance and the
server reachable from `NewLock` by `TryLock`, `Lock` and `Unlock` calls of the
instance and by calls of other instances, with any answers of the server, a set
flag comes with a populated transaction handle; that transaction was begun,
the advisory lock was requested in it and it was never rolled back (`TryLock`
rolls back every transaction that is not granted the lock), and it owns an
advisory lock as long as it is open.  So `Unlock` never returns its "no
transaction is populated" error, whatever the server answers. -/
theorem locked_implies_tx (l : lock) (st : LockStore) (h : LockReachable l st) :
    (l.locked = true → ∃ t, l.tx = some t ∧ t < st.nextTx ∧
      (∃ id, Request.tryAdvisory t id ∈ st.log) ∧ Request.rollback t ∉ st.log ∧
      (t ∈ st.openTx → ∃ id, (id, t) ∈ st.granted)) ∧
    ∀ script, (l.Unlock { st with answers := script }).1.1 ≠
      some (.errorf "attempted to unlock but no transaction is populated in scanLock") := by
  have hinv := h.lockInv
  refine ⟨hinv.1, fun script => ?_⟩
  rcases unlock_full l { st with answers := script } with
    ⟨_, hres⟩ | ⟨hl, htx, _⟩ | ⟨_, t, _, hcases⟩
  · rw [hres]
    intro hc
    simp only [Option.some.injEq, Error.errorf.injEq] at hc
    exact absurd hc (by decide)
  · obtain ⟨t, ht, _⟩ := hinv.1 hl
    rw [htx] at ht
    exact absurd ht (by simp)
  · rcases hcases with ⟨_, hres⟩ | ⟨_, hres, _⟩ | ⟨_, hres, _⟩ | ⟨_, hres, _⟩
    · rw [hres]; simp
    · rw [hres]; simp
    · rw [hres]; simp
    · rw [hres]; simp

/-- Witness of claim C18: the state after a fresh instance was granted the lock of
"updater" by a `Lock` call. -/
theorem locked_implies_tx_witness :
    (LockReachable ((NewLock 5).Lock { LockStore.init with answers := [] } "updater" []).l
        ((NewLock 5).Lock { LockStore.init with answers := [] } "updater" []).st ∧
      ((NewLock 5).Lock { LockStore.init with answers := [] } "updater" []).l.locked = true) ∧
    ((((NewLock 5).Lock { LockStore.init with answers := [] } "updater" []).l.locked = true →
      ∃ t, ((NewLock 5).Lock { LockStore.init with answers := [] } "updater" []).l.tx = some t ∧
        t < ((NewLock 5).Lock { LockStore.init with answers := [] } "updater" []).st.nextTx ∧
        (∃ id, Request.tryAdvisory t id ∈
          ((NewLock 5).Lock { LockStore.init with answers := [] } "updater" []).st.log) ∧
        Request.rollback t ∉
          ((NewLock 5).Lock { LockStore.init with answers := [] } "updater" []).st.log ∧
        (t ∈ ((NewLock 5).Lock { LockStore.init with answers := [] } "updater" []).st.openTx →
          ∃ id, (id, t) ∈
            ((NewLock 5).Lock { LockStore.init with answers := [] } "updater" []).st.granted)) ∧
    ∀ script,
      (((NewLock 5).Lock { LockStore.init with answers := [] } "updater" []).l.Unlock
        { ((NewLock 5).Lock { LockStore.init with answers := [] } "updater" []).st with
          answers := script }).1.1 ≠
      some (.errorf "attempted to unlock but no transaction is populated in scanLock")) :=
  ⟨⟨LockReachable.lockCall "updater" [] [] (LockReachable.init 5), by decide⟩,
   locked_implies_tx _ _ (LockReachable.lockCall "updater" [] [] (LockReachable.init 5))⟩

/-- Claim C19, the code at the failing input: a lock built as `initUpdaters` builds
it, `NewLock(pool, time.Duration(0))`, calls `Lock` for a key whose advisory lock
another instance holds.  The first attempt is denied without error and
`time.NewTicker(0)` panics, whatever happens afterwards. -/
theorem lock_zero_retry_panics (events : List LockEvent) :
    ((NewLock 0).TryLock exHeldStore "updater").1.1 = (false, none) ∧
    ((NewLock 0).Lock exHeldStore "updater" events).result =
      .panicked "non-positive interval for NewTicker" := by
  refine ⟨by decide, ?_⟩
  unfold lock.Lock
  have h1 : ¬ (NewLock 0).locked = true := by decide
  have h2 : ((NewLock 0).TryLock exHeldStore "updater").1.1.2 = none := by decide
  have h3 : ¬ ((NewLock 0).TryLock exHeldStore "updater").1.2.locked = true := by decide
  have h4 : ((NewLock 0).TryLock exHeldStore "updater").1.2.retry ≤ 0 := by decide
  rw [if_neg h1, h2]
  simp only []
  rw [if_neg h3, if_pos h4]

/-! ## Manifest completeness for two scanners -/

theorem registered_of_scannerID {db : DB} {s : VersionedScanner} {id : Int}
    (h : scannerID? db s = some id) : Registered db s := by
  unfold Registered
  intro hnil
  unfold scannerID? at h
  rw [hnil] at h
  simp at h

theorem manifestScanned_pair (db : DB) (hash : Digest) (A B : VersionedScanner) (a b : Int)
    (hA : scannerID? db A = some a) (hB : scannerID? db B = some b) :
    (manifestScanned (Pool.healthy db) hash [A, B]).1 =
      (decide ((⟨hash, a⟩ : ScannedManifestRow) ∈ db.scanned_manifest ∧
        (⟨hash, b⟩ : ScannedManifestRow) ∈ db.scanned_manifest), none) := by
  have hreg : ∀ s ∈ [A, B], Registered db s := by
    intro s hs
    simp only [List.mem_cons, List.mem_singleton, List.mem_nil_iff, or_false] at hs
    rcases hs with rfl | rfl
    · exact registered_of_scannerID hA
    · exact registered_of_scannerID hB
  have hids : resolvedIDs db [A, B] = [a, b] := by
    simp [resolvedIDs, List.filterMap_cons, hA, hB]
  rw [manifestScanned_healthy db hash [A, B] hreg, hids]
  congr 1
  rw [Bool.eq_iff_iff, Bool.and_eq_true, decide_eq_true_eq, decide_eq_true_eq, allFound_iff]
  constructor
  · rintro ⟨_, hall⟩
    have ha := hall a (by simp)
    have hb := hall b (by simp)
    rw [mem_foundIDsOf, mem_selectScanned] at ha hb
    exact ⟨ha, hb⟩
  · rintro ⟨ha, hb⟩
    have ha1 := (mem_selectScanned db hash a).mpr ha
    refine ⟨fun hnil => ?_, fun x hx => ?_⟩
    · rw [hnil] at ha1
      exact absurd ha1 (List.not_mem_nil _)
    · simp only [List.mem_cons, List.mem_singleton, List.mem_nil_iff, or_false] at hx
      rw [mem_foundIDsOf, mem_selectScanned]
      rcases hx with rfl | rfl
      · exact ha
      · exact hb

/-- Claim C11, manifest completeness is set-based: over a healthy connection, for
every store, every manifest digest and two registered scanners A and B with
ids a and b, `manifestScanned` for the list A, B and for the list B, A returns
`false` with no error when the fact of A or the fact of B is missing (so also
when the manifest has no fact at all), and returns `true` with no error when
both facts are in `scanned_manifest`, wherever they stand in the relation. -/
theorem manifestScanned_set_based (db : DB) (hash : Digest) (A B : VersionedScanner)
    (a b : Int) (hA : scannerID? db A = some a) (hB : scannerID? db B = some b) :
    (((⟨hash, a⟩ : ScannedManifestRow) ∉ db.scanned_manifest ∨
        (⟨hash, b⟩ : ScannedManifestRow) ∉ db.scanned_manifest) →
      (manifestScanned (Pool.healthy db) hash [A, B]).1 = (false, none) ∧
      (manifestScanned (Pool.healthy db) hash [B, A]).1 = (false, none)) ∧
    (((⟨hash, a⟩ : ScannedManifestRow) ∈ db.scanned_manifest ∧
        (⟨hash, b⟩ : ScannedManifestRow) ∈ db.scanned_manifest) →
      (manifestScanned (Pool.healthy db) hash [A, B]).1 = (true, none) ∧
      (manifestScanned (Pool.healthy db) hash [B, A]).1 = (true, none)) := by
  rw [manifestScanned_pair db hash A B a b hA hB, manifestScanned_pair db hash B A b a hB hA]
  constructor
  · intro h
    have h1 : ¬ ((⟨hash, a⟩ : ScannedManifestRow) ∈ db.scanned_manifest ∧
        (⟨hash, b⟩ : ScannedManifestRow) ∈ db.scanned_manifest) := by
      rintro ⟨ha, hb⟩
      rcases h with h | h
      · exact h ha
      · exact h hb
    have h2 : ¬ ((⟨hash, b⟩ : ScannedManifestRow) ∈ db.scanned_manifest ∧
        (⟨hash, a⟩ : ScannedManifestRow) ∈ db.scanned_manifest) := fun hh => h1 ⟨hh.2, hh.1⟩
    simp [h1, h2]
  · rintro ⟨ha, hb⟩
    simp [ha, hb]

/-- Witness of claim C11: scanners A (id 1) and B (id 2) of the example store;
only A's fact is recorded, then B's fact was recorded before A's. -/
theorem manifestScanned_set_based_witness :
    (scannerID? exDB exScannerA = some 1 ∧ scannerID? exDB exScannerB = some 2) ∧
    ((manifestScanned (Pool.healthy { exDB with scanned_manifest := [⟨exDigest, 1⟩] })
        exDigest [exScannerA, exScannerB]).1 = (false, none) ∧
      (manifestScanned (Pool.healthy { exDB with scanned_manifest := [⟨exDigest, 1⟩] })
        exDigest [exScannerB, exScannerA]).1 = (false, none)) ∧
    ((manifestScanned
        (Pool.healthy { exDB with scanned_manifest := [⟨exDigest, 2⟩, ⟨exDigest, 1⟩] })
        exDigest [exScannerA, exScannerB]).1 = (true, none) ∧
      (manifestScanned
        (Pool.healthy { exDB with scanned_manifest := [⟨exDigest, 2⟩, ⟨exDigest, 1⟩] })
        exDigest [exScannerB, exScannerA]).1 = (true, none)) :=
  ⟨⟨by decide, by decide⟩,
   (manifestScanned_set_based { exDB with scanned_manifest := [⟨exDigest, 1⟩] } exDigest
      exScannerA exScannerB 1 2 (by decide) (by decide)).1 (Or.inr (by decide)),
   (manifestScanned_set_based
      { exDB with scanned_manifest := [⟨exDigest, 2⟩, ⟨exDigest, 1⟩] } exDigest
      exScannerA exScannerB 1 2 (by decide) (by decide)).2 ⟨by decide, by decide⟩⟩

/-! ## Swallowed lookup error -/

/-- Claim C15, the code at the failing input: scanner A is registered and the
round trip of its id lookup fails with a connection error.  `registerScanners`
formats an error and drops it, runs the insert, which meets the existing row
and does nothing, and returns nil. -/
theorem registerScanners_swallows_lookup_error :
    (queryRowScanner { db := exDB, faults := [true], calls := 0 } exScannerA).1 =
      .error .connFailure ∧
    (registerScanners { db := exDB, faults := [true], calls := 0 } [exScannerA]).1 = none :=
  ⟨rfl, by decide⟩

/-! ## Re-finalizing -/

theorem insertManifestScanned_ok (tx : Tx) (p : Pool) (hash : Digest) (id : Int) (tx1 : Tx)
    (p1 : Pool) (h : tx.insertManifestScanned p hash id = (.ok tx1, p1)) :
    (⟨hash, id⟩ : ScannedManifestRow) ∉ tx.work.scanned_manifest ∧
    tx1.work.scanned_manifest = tx.work.scanned_manifest ++ [⟨hash, id⟩] := by
  unfold Tx.insertManifestScanned at h
  dsimp only at h
  split at h
  · simp at h
  · split at h
    · simp at h
    · rename_i hnew
      simp only [Prod.mk.injEq, Except.ok.injEq] at h
      refine ⟨hnew, ?_⟩
      rw [← h.1]

theorem linkLoop_ok_fresh (hash : Digest) (ids : List Int) :
    ∀ (tx : Tx) (p : Pool) (tx1 : Tx) (p1 : Pool), linkLoop hash tx p ids = (.ok tx1, p1) →
      ∀ id ∈ ids, (⟨hash, id⟩ : ScannedManifestRow) ∉ tx.work.scanned_manifest := by
  induction ids with
  | nil => intro tx p tx1 p1 _ id hid; exact absurd hid (List.not_mem_nil _)
  | cons x rest ih =>
    intro tx p tx1 p1 h id hid
    unfold linkLoop at h
    rcases hins : tx.insertManifestScanned p hash x with ⟨r, p2⟩
    rw [hins] at h
    cases r with
    | error e => simp at h
    | ok tx2 =>
      simp only at h
      obtain ⟨hnew, hwork⟩ := insertManifestScanned_ok tx p hash x tx2 p2 hins
      rw [List.mem_cons] at hid
      rcases hid with rfl | hid
      · exact hnew
      · intro hmem
        apply ih tx2 p2 tx1 p1 h id hid
        rw [hwork]
        exact List.mem_append_left _ hmem

/-- After its lookups `setScanFinished` either returns nil or leaves the committed
database as it found it; and it returns nil only if no listed scanner had its
completion fact. -/
theorem setScanFinished_cases (p : Pool) (sr : IndexReport) (scnrs : List VersionedScanner) :
    ((setScanFinished p sr scnrs).2.db = p.db ∨ (setScanFinished p sr scnrs).1 = none) ∧
    ((setScanFinished p sr scnrs).1 = none →
      ∀ id ∈ resolvedIDs p.db scnrs,
        (⟨sr.Hash, id⟩ : ScannedManifestRow) ∉ p.db.scanned_manifest) := by
  unfold setScanFinished
  have h1 := scannerIDsLoop_db
    "store:storeManifest failed to select package scanner id: %v" scnrs p []
  rcases hr1 : scannerIDsLoop
    "store:storeManifest failed to select package scanner id: %v" p scnrs [] with ⟨r1, p1⟩
  rw [hr1] at h1
  simp only at h1
  cases r1 with
  | error e1 => exact ⟨Or.inl h1, fun h => absurd h (by simp)⟩
  | ok ids =>
    obtain ⟨_, hids⟩ := scannerIDsLoop_ok _ scnrs p [] ids p1 hr1
    rw [List.nil_append] at hids
    have h2 := begin_db p1
    rcases hr2 : p1.Begin with ⟨r2, p2⟩
    rw [hr2] at h2
    simp only at h2
    simp only [hr2]
    cases r2 with
    | error e2 => exact ⟨Or.inl (h2.trans h1), fun h => absurd h (by simp)⟩
    | ok tx =>
      have htx := begin_ok p1 tx p2 hr2
      have h3 := linkLoop_db sr.Hash ids tx p2
      rcases hr3 : linkLoop sr.Hash tx p2 ids with ⟨r3, p3⟩
      rw [hr3] at h3
      simp only at h3
      simp only [hr3]
      cases r3 with
      | error e3 =>
        exact ⟨Or.inl (by rw [rollback_db]; exact h3.trans (h2.trans h1)),
          fun h => absurd h (by simp)⟩
      | ok tx1 =>
        have hfresh := linkLoop_ok_fresh sr.Hash ids tx p2 tx1 p3 hr3
        rw [htx, h1, hids] at hfresh
        have h4 := upsertIndexReport_db tx1 p3 sr.Hash sr
        rcases hr4 : tx1.upsertIndexReport p3 sr.Hash sr with ⟨r4, p4⟩
        rw [hr4] at h4
        simp only at h4
        simp only [hr4]
        cases r4 with
        | error e4 =>
          exact ⟨Or.inl (by rw [rollback_db]; exact h4.trans (h3.trans (h2.trans h1))),
            fun h => absurd h (by simp)⟩
        | ok tx2 =>
          rcases hr5 : tx2.Commit p4 with ⟨r5, p5⟩
          simp only [hr5]
          cases r5 with
          | some e5 =>
            exact ⟨Or.inl ((commit_error_db tx2 p4 e5 p5 hr5).trans
              (h4.trans (h3.trans (h2.trans h1)))), fun h => absurd h (by simp)⟩
          | none => exact ⟨Or.inr rfl, fun _ => hfresh⟩

theorem upsertRow_length (hash : Digest) (doc : IndexReport) (l : List IndexReportRow)
    (h : ∃ r ∈ l, r.manifest_hash = hash) : (upsertRow hash doc l).length = l.length := by
  induction l with
  | nil =>
    obtain ⟨r, hr, _⟩ := h
    exact absurd hr (List.not_mem_nil _)
  | cons x rest ih =>
    unfold upsertRow
    by_cases hx : x.manifest_hash = hash
    · rw [if_pos hx]
      rfl
    · rw [if_neg hx, List.length_cons, List.length_cons]
      obtain ⟨r, hr, hrh⟩ := h
      rw [List.mem_cons] at hr
      rcases hr with rfl | hr
      · exact absurd hrh hx
      · rw [ih ⟨r, hr, hrh⟩]

/-- Claim C17, counterexample: scanner A finalized the example manifest with the
first report; a second `setScanFinished` for the same manifest and scanner with
a new report does not return nil: its insert violates the unique constraint,
and the first report stays stored. -/
theorem refinalize_same_scanners_counterexample :
    (setScanFinished (Pool.healthy exDB) exReport [exScannerA]).1 = none ∧
    (⟨exDigest, 1⟩ : ScannedManifestRow) ∈ exFinalizedDB.scanned_manifest ∧
    (setScanFinished (Pool.healthy exFinalizedDB) exReport2 [exScannerA]).1 =
      some (.wrap "store:storeManifest failed to link manifest with scanner list: %v"
        (.pg .uniqueViolation)) ∧
    (indexReport
      (Pool.healthy (setScanFinished (Pool.healthy exFinalizedDB) exReport2 [exScannerA]).2.db)
      exDigest).1 = (some exReport, true, none) ∧
    ¬ ((setScanFinished (Pool.healthy exFinalizedDB) exReport2 [exScannerA]).1 = none ∧
      (indexReport
        (Pool.healthy (setScanFinished (Pool.healthy exFinalizedDB) exReport2
          [exScannerA]).2.db) exDigest).1 = (some exReport2, true, none)) := by
  refine ⟨by decide, by decide, by decide, by decide, ?_⟩
  rintro ⟨h, _⟩
  exact absurd h (by decide)

/-- Claim C17, amended: a `setScanFinished` for a manifest and a list in which a
scanner already has its completion fact returns an error, whatever the
connection answers, and leaves the committed database, completion facts and
stored report included, as it was.  A `setScanFinished` that returns nil keeps
every completion fact that was recorded and leaves its report stored for the
manifest, in place of the report that was stored for it, if any (last writer
wins). -/
theorem refinalize (p : Pool) (sr : IndexReport) (scnrs : List VersionedScanner) :
    ((∃ id ∈ resolvedIDs p.db scnrs,
        (⟨sr.Hash, id⟩ : ScannedManifestRow) ∈ p.db.scanned_manifest) →
      (∃ e, (setScanFinished p sr scnrs).1 = some e) ∧
      (setScanFinished p sr scnrs).2.db = p.db) ∧
    ((setScanFinished p sr scnrs).1 = none →
      (∀ f ∈ p.db.scanned_manifest, f ∈ (setScanFinished p sr scnrs).2.db.scanned_manifest) ∧
      (indexReport (Pool.healthy (setScanFinished p sr scnrs).2.db) sr.Hash).1
        = (some sr, true, none) ∧
      ((∃ r ∈ p.db.indexreport, r.manifest_hash = sr.Hash) →
        (setScanFinished p sr scnrs).2.db.indexreport.length = p.db.indexreport.length)) := by
  obtain ⟨hcases, hfresh⟩ := setScanFinished_cases p sr scnrs
  constructor
  · rintro ⟨id, hid, hmem⟩
    have herr : (setScanFinished p sr scnrs).1 ≠ none := fun h => hfresh h id hid hmem
    refine ⟨?_, ?_⟩
    · cases hres : (setScanFinished p sr scnrs).1 with
      | none => exact absurd hres herr
      | some e => exact ⟨e, rfl⟩
    · rcases hcases with h | h
      · exact h
      · exact absurd h herr
  · intro hok
    obtain ⟨_, hdb⟩ := setScanFinished_ok p sr scnrs hok
    refine ⟨fun f hf => ?_, ?_, fun hex => ?_⟩
    · rw [hdb]
      exact List.mem_append_left _ hf
    · unfold indexReport Pool.healthy
      rw [roundTrip_healthy _ rfl]
      simp only [Bool.false_eq_true, if_false]
      obtain ⟨rest, hrest⟩ := upsertRow_select sr.Hash sr p.db.indexreport
      have hselr : selectIndexReport (setScanFinished p sr scnrs).2.db sr.Hash =
          sr :: rest.map (fun r => r.scan_result) := by
        unfold selectIndexReport
        rw [hdb]
        simp only []
        rw [hrest]
        rfl
      rw [hselr]
    · rw [hdb]
      exact upsertRow_length sr.Hash sr p.db.indexreport hex

/-- Witness of claim C17: on the finalized example store scanner A has its fact, so
the second finalize is rejected; on the example store with a stored report
and no fact, the finalize returns nil and replaces the report. -/
theorem refinalize_witness :
    ((∃ id ∈ resolvedIDs (Pool.healthy exFinalizedDB).db [exScannerA],
        (⟨exReport2.Hash, id⟩ : ScannedManifestRow) ∈
          (Pool.healthy exFinalizedDB).db.scanned_manifest) ∧
      (setScanFinished (Pool.healthy { exDB with indexreport := [⟨exDigest, exReport⟩] })
        exReport2 [exScannerA]).1 = none) ∧
    ((∃ e, (setScanFinished (Pool.healthy exFinalizedDB) exReport2 [exScannerA]).1 = some e) ∧
      (setScanFinished (Pool.healthy exFinalizedDB) exReport2 [exScannerA]).2.db =
        (Pool.healthy exFinalizedDB).db) ∧
    (indexReport
      (Pool.healthy (setScanFinished
        (Pool.healthy { exDB with indexreport := [⟨exDigest, exReport⟩] })
        exReport2 [exScannerA]).2.db) exReport2.Hash).1 = (some exReport2, true, none) :=
  ⟨⟨⟨1, by decide, by decide⟩, by decide⟩,
   (refinalize (Pool.healthy exFinalizedDB) exReport2 [exScannerA]).1
     ⟨1, by decide, by decide⟩,
   ((refinalize (Pool.healthy { exDB with indexreport := [⟨exDigest, exReport⟩] })
      exReport2 [exScannerA]).2 (by decide)).2.1⟩

/-! ## libvuln options -/

/-- Claim C16, the code at the failing input: of the nine updater-set names the
documentation of `Opts.UpdaterSets` lists, eight are keys of `defaultSets` or of
`defaultFactoryConstructors`; "ubuntu" is a key of neither, and `updaterSetFunc`
with `UpdaterSets = ["ubuntu"]` logs "unknown update set provided" for it and
returns no factory but the static set. -/
theorem ubuntu_updater_set_is_unknown (constructs : String → Bool) :
    "ubuntu" ∈ documentedSets ∧
    "ubuntu" ∉ defaultSets ∧ "ubuntu" ∉ defaultFactoryConstructors ∧
    ({ exOpts with UpdaterSets := some ["ubuntu"] } : Opts).updaterSetFunc constructs =
      (([.staticSet []], none),
        [.info "creating specified updater sets",
         .warn "unknown update set provided" "ubuntu"]) ∧
    ∀ name ∈ documentedSets, name ≠ "ubuntu" →
      name ∈ defaultSets ∨ name ∈ defaultFactoryConstructors := by
  refine ⟨by decide, by decide, by decide, ?_, by decide⟩
  have h1 : ¬ "ubuntu" ∈ defaultSets := by decide
  have h2 : ¬ "ubuntu" ∈ defaultFactoryConstructors := by decide
  simp [Opts.updaterSetFunc, exOpts, specifiedSetsLoop, addUpdatersLoop, h1, h2]

/-- Claim C20, the code at the failing inputs: `Opts.parse` multiplies the draw minus
60000 by `time.Microsecond`, so the value it rounds lies within 60 milliseconds
of zero.  The draw 0 gives a jitter of -100 ms (the claim: -60 s), the draw
119999 gives +100 ms (the claim: +60 s) and the draw 30000 gives 0 (the
claim: -30 s). -/
theorem parse_jitter_is_microseconds :
    parseJitter 0 = -100 * Millisecond ∧ parseJitter 119999 = 100 * Millisecond ∧
    parseJitter 30000 = 0 ∧
    parseJitter 0 ≠ -60 * Second ∧ parseJitter 119999 ≠ 60 * Second ∧
    (exOpts.parse 0).1 = none ∧
    (exOpts.parse 0).2.UpdateInterval = DefaultUpdateInterval - 100 * Millisecond := by
  decide

theorem tmod_small (d m : Int) (h1 : -m < d) (h2 : d < m) : Int.tmod d m = d := by
  by_cases hd : 0 ≤ d
  · exact Int.tmod_eq_of_lt hd h2
  · have hq : d.tdiv m = 0 := by
      have h3 : d = -(-d) := by omega
      rw [h3, Int.neg_tdiv, Int.tdiv_eq_zero_of_lt (by omega) (by omega)]
      rfl
    rw [Int.tmod_def, hq]
    omega

theorem lessThanHalf_small (x m : Int) (hx0 : 0 ≤ x) (hx : x < 2 ^ 62) (hm0 : 0 ≤ m)
    (hm : m < 2 ^ 62) : lessThanHalf x m = decide (x + x < m) := by
  unfold lessThanHalf
  have e1 : x % 2 ^ 64 = x := Int.emod_eq_of_lt hx0 (by omega)
  have e2 : m % 2 ^ 64 = m := Int.emod_eq_of_lt hm0 (by omega)
  have e3 : (x + x) % 2 ^ 64 = x + x := Int.emod_eq_of_lt (by omega) (by omega)
  rw [e1, e2, e3]

theorem wrapInt64_small (x : Int) (h1 : -(2 ^ 62) < x) (h2 : x < 2 ^ 62) : wrapInt64 x = x := by
  unfold wrapInt64
  rw [Int.emod_eq_of_lt (by omega) (by omega)]
  omega

/-- For every draw of `rand.Intn(120000)` the jitter of `Opts.parse` is -100 ms, 0 or
+100 ms. -/
theorem parseJitter_range (r : Int) (h0 : 0 ≤ r) (h1 : r < 120000) :
    parseJitter r = -100 * Millisecond ∨ parseJitter r = 0 ∨
    parseJitter r = 100 * Millisecond := by
  have hm : (100 * Millisecond : Int) = 100000000 := by decide
  have hm2 : (-100 * Millisecond : Int) = -100000000 := by decide
  have hd : (r - 120000 / 2) * Microsecond = (r - 60000) * 1000 := by
    have : (120000 / 2 : Int) = 60000 := by decide
    rw [this]
    rfl
  unfold parseJitter
  rw [hm, hm2, hd]
  unfold durationRound
  have hmpos : ¬ (100000000 : Int) ≤ 0 := by decide
  have ht : Int.tmod ((r - 60000) * 1000) 100000000 = (r - 60000) * 1000 :=
    tmod_small _ _ (by omega) (by omega)
  rw [if_neg hmpos]
  simp only [ht]
  by_cases hneg : (r - 60000) * 1000 < 0
  · rw [if_pos hneg, lessThanHalf_small _ _ (by omega) (by omega) (by omega) (by omega)]
    by_cases hhalf : -((r - 60000) * 1000) + -((r - 60000) * 1000) < 100000000
    · right; left
      rw [decide_eq_true hhalf, if_pos rfl, wrapInt64_small _ (by omega) (by omega)]
      omega
    · left
      rw [decide_eq_false hhalf, if_neg (by decide),
        wrapInt64_small ((r - 60000) * 1000 - 100000000) (by omega) (by omega),
        wrapInt64_small _ (by omega) (by omega)]
      split <;> omega
  · rw [if_neg hneg, lessThanHalf_small _ _ (by omega) (by omega) (by omega) (by omega)]
    by_cases hhalf : (r - 60000) * 1000 + (r - 60000) * 1000 < 100000000
    · right; left
      rw [decide_eq_true hhalf, if_pos rfl, wrapInt64_small _ (by omega) (by omega)]
      omega
    · right; right
      rw [decide_eq_false hhalf, if_neg (by decide),
        wrapInt64_small ((r - 60000) * 1000 + 100000000) (by omega) (by omega),
        wrapInt64_small _ (by omega) (by omega)]
      split <;> omega

/-! ## Artifacts by layer: the decimal id and the version array -/

theorem digitChar_spec (d : Nat) (h : d < 10) :
    (Nat.digitChar d).isDigit = true ∧ (Nat.digitChar d).toNat - '0'.toNat = d ∧
      Nat.digitChar d ≠ '-' := by
  interval_cases d <;> decide

/-- The characters `Nat.toDigitsCore` puts in front of `ds` are decimal digits, at
least one, and read back as the number. -/
theorem toDigitsCore_spec : ∀ (fuel n : Nat) (ds : List Char), n < fuel →
    ∃ L, Nat.toDigitsCore 10 fuel n ds = L ++ ds ∧ L ≠ [] ∧ L.all Char.isDigit = true ∧
      L.head? ≠ some '-' ∧
      L.foldl (fun n c => n * 10 + (c.toNat - '0'.toNat)) 0 = n := by
  intro fuel
  induction fuel with
  | zero => intro n ds h; exact absurd h (Nat.not_lt_zero _)
  | succ fuel ih =>
    intro n ds h
    obtain ⟨d1, d2, d3⟩ := digitChar_spec (n % 10) (Nat.mod_lt _ (by decide))
    unfold Nat.toDigitsCore
    by_cases h0 : n / 10 = 0
    · simp only [h0, if_true]
      refine ⟨[Nat.digitChar (n % 10)], rfl, by simp, by simp [d1], by simpa using d3, ?_⟩
      simp only [List.foldl_cons, List.foldl_nil, d2]
      omega
    · simp only [h0, if_false]
      obtain ⟨L, hL, hne, hall, hhead, hfold⟩ :=
        ih (n / 10) (Nat.digitChar (n % 10) :: ds) (by omega)
      refine ⟨L ++ [Nat.digitChar (n % 10)], by rw [hL]; simp, by simp, ?_, ?_, ?_⟩
      · rw [List.all_append, hall]; simp [d1]
      · cases L with
        | nil => exact absurd rfl hne
        | cons c cs => simpa using hhead
      · rw [List.foldl_append, hfold]
        simp only [List.foldl_cons, List.foldl_nil, d2]
        omega

theorem repr_spec (n : Nat) :
    ∃ c cs, Nat.repr n = ⟨c :: cs⟩ ∧ (c :: cs).all Char.isDigit = true ∧ c ≠ '-' ∧
      (c :: cs).foldl (fun n c => n * 10 + (c.toNat - '0'.toNat)) 0 = n := by
  obtain ⟨L, hL, hne, hall, hhead, hfold⟩ := toDigitsCore_spec (n + 1) n [] (Nat.lt_succ_self n)
  cases L with
  | nil => exact absurd rfl hne
  | cons c cs =>
    refine ⟨c, cs, ?_, hall, by simpa using hhead, hfold⟩
    unfold Nat.repr Nat.toDigits
    rw [hL, List.append_nil]
    rfl

theorem get_zero_cons (c : Char) (cs : List Char) : String.get ⟨c :: cs⟩ 0 = c := by
  have := String.get_of_valid [] (c :: cs)
  simpa using this

/-- Reading the string `formatInt id` as a decimal integer gives `id` back: the
string carries the id. -/
theorem formatInt_toInt (id : Int) : (formatInt id).toInt? = some id := by
  unfold formatInt
  cases id with
  | ofNat n =>
    obtain ⟨c, cs, hs, hall, hc, hfold⟩ := repr_spec n
    have hstr : toString (Int.ofNat n) = ⟨c :: cs⟩ := hs
    rw [hstr]
    unfold String.toInt?
    rw [get_zero_cons, if_neg hc]
    unfold String.toNat? String.isNat
    have hemp : String.isEmpty ⟨c :: cs⟩ = false := by
      rw [Bool.eq_false_iff]
      intro h
      have := (String.isEmpty_iff _).mp h
      exact absurd (congrArg String.data this) (by simp)
    rw [hemp, String.all_eq, String.foldl_eq]
    simp only [hall, hfold, Bool.not_false, Bool.and_self, if_true]
    rfl
  | negSucc n =>
    obtain ⟨c, cs, hs, hall, hc, hfold⟩ := repr_spec (n + 1)
    have hstr : toString (Int.negSucc n) = ⟨'-' :: c :: cs⟩ := by
      show "-" ++ Nat.repr (n + 1) = _
      rw [hs]
      rfl
    rw [hstr]
    unfold String.toInt?
    rw [get_zero_cons, if_pos rfl]
    have hv := (String.validFor_toSubstring ⟨'-' :: c :: cs⟩).drop 1
    simp only [List.nil_append, List.take_succ_cons, List.take_zero, List.drop_succ_cons,
      List.drop_zero] at hv
    unfold Substring.toNat? Substring.isNat
    rw [hv.all, hv.foldl, hall, hfold]
    rfl

theorem forall₂_mem_left {α β : Type} {R : α → β → Prop} {as : List α} {bs : List β}
    (h : List.Forall₂ R as bs) : List.Forall₂ (fun a b => a ∈ as ∧ R a b) as bs := by
  induction h with
  | nil => exact List.Forall₂.nil
  | @cons a b as1 bs1 hab _ ih =>
    exact List.Forall₂.cons ⟨List.mem_cons_self _ _, hab⟩
      (ih.imp (fun x y hxy => ⟨List.mem_cons_of_mem _ hxy.1, hxy.2⟩))

theorem forall₂_exists_right {α β : Type} {R : α → β → Prop} {as : List α} {bs : List β}
    (h : List.Forall₂ R as bs) : ∀ a ∈ as, ∃ b ∈ bs, R a b := by
  induction h with
  | nil => intro a ha; exact absurd ha (List.not_mem_nil _)
  | @cons a b as1 bs1 hab _ ih =>
    intro x hx
    rw [List.mem_cons] at hx
    rcases hx with rfl | hx
    · exact ⟨b, List.mem_cons_self _ _, hab⟩
    · obtain ⟨y, hy, hxy⟩ := ih x hx
      exact ⟨y, List.mem_cons_of_mem _ hy, hxy⟩

theorem forall₂_exists_left {α β : Type} {R : α → β → Prop} {as : List α} {bs : List β}
    (h : List.Forall₂ R as bs) : ∀ b ∈ bs, ∃ a ∈ as, R a b := by
  induction h with
  | nil => intro b hb; exact absurd hb (List.not_mem_nil _)
  | @cons a b as1 bs1 hab _ ih =>
    intro y hy
    rw [List.mem_cons] at hy
    rcases hy with rfl | hy
    · exact ⟨a, List.mem_cons_self _ _, hab⟩
    · obtain ⟨x, hx, hxy⟩ := ih y hy
      exact ⟨x, List.mem_cons_of_mem _ hx, hxy⟩

/-- The version loop leaves the array when the stored array is longer than the
room that is left. -/
theorem assignV_none (elems : List (Option Int)) :
    ∀ (V : List Int) (i : Nat), i ≤ 10 → 10 < i + elems.length → assignV V i elems = none := by
  induction elems with
  | nil => intro V i hi hlen; rw [List.length_nil] at hlen; omega
  | cons n rest ih =>
    intro V i hi hlen
    rw [List.length_cons] at hlen
    unfold assignV
    by_cases h10 : i < 10
    · rw [if_pos h10]
      exact ih _ (i + 1) (by omega) (by omega)
    · rw [if_neg h10]

/-- A result row whose package is read back with more than ten stored components
makes the row loop panic. -/
theorem scanPackage_panic (l : PackageScanArtifactRow) (r sr : PackageRow)
    (hk : r.norm_kind ≠ none) (hlen : 10 < (r.norm_version.getD []).length) :
    scanPackage ((l, some r), some sr) = some (.panic "index out of range") := by
  unfold scanPackage
  simp only []
  cases hnk : r.norm_kind with
  | none => exact absurd hnk hk
  | some k =>
    simp only []
    have hV : PackageFields.zero.NormalizedVersion.V = List.replicate 10 0 := rfl
    rw [hV, assignV_none (r.norm_version.getD []) (List.replicate 10 0) 0 (by omega) (by omega)]

/-- A result row with both joined rows present is never a scan failure. -/
theorem scanPackage_ne_none (l : PackageScanArtifactRow) (r sr : PackageRow) :
    scanPackage ((l, some r), some sr) ≠ none := by
  unfold scanPackage
  simp only []
  cases r.norm_kind with
  | none => simp
  | some k =>
    simp only []
    cases assignV PackageFields.zero.NormalizedVersion.V 0 (r.norm_version.getD []) with
    | none => simp
    | some V => simp

/-- The row loop panics when no row fails to scan and one row panics. -/
theorem packageRows_panic
    (rows : List ((PackageScanArtifactRow × Option PackageRow) × Option PackageRow)) :
    ∀ (res : List Package), (∀ row ∈ rows, scanPackage row ≠ none) →
      (∃ row ∈ rows, ∃ msg, scanPackage row = some (.panic msg)) →
      ∃ msg, packageRows rows res = .panic msg := by
  induction rows with
  | nil => intro res _ h; obtain ⟨row, hrow, _⟩ := h; exact absurd hrow (List.not_mem_nil _)
  | cons row rest ih =>
    intro res hall hex
    unfold packageRows
    cases hscan : scanPackage row with
    | none => exact absurd hscan (hall row (List.mem_cons_self _ _))
    | some o =>
      cases o with
      | panic msg => exact ⟨msg, rfl⟩
      | ret pkg =>
        simp only []
        apply ih _ (fun x hx => hall x (List.mem_cons_of_mem _ hx))
        obtain ⟨x, hx, msg, hmsg⟩ := hex
        rw [List.mem_cons] at hx
        rcases hx with rfl | hx
        · rw [hscan] at hmsg
          simp at hmsg
        · exact ⟨x, hx, msg, hmsg⟩

/-- The rows `packagesByLayer` loops over, over a healthy connection and a store
that satisfies its schema: one per selected linking row, with the package and
the source package the link refers to. -/
theorem packagesByLayer_rows (db : DB) (hash : Digest) (scnrs : List VersionedScanner)
    (hne : scnrs ≠ []) (hreg : ∀ s ∈ scnrs, Registered db s) (hint : db.packageIntegrity) :
    ∃ rows, (packagesByLayer (Pool.healthy db) hash scnrs).1 = packageRows rows [] ∧
      List.Forall₂ (fun (l : PackageScanArtifactRow)
          (row : (PackageScanArtifactRow × Option PackageRow) × Option PackageRow) =>
          ∃ r ∈ db.package, ∃ sr ∈ db.package, r.id = l.package_id ∧ sr.id = l.source_id ∧
            row = ((l, some r), some sr))
        (db.package_scanartifact.filter
          (fun l => l.layer_hash = hash ∧ l.scanner_id ∈ resolvedIDs db scnrs)) rows := by
  have hlen : ¬ scnrs.length = 0 := fun h => hne (List.length_eq_zero.mp h)
  have hcall : (packagesByLayer (Pool.healthy db) hash scnrs).1 =
      packageRows (packageQuery db hash (resolvedIDs db scnrs)) [] := by
    unfold packagesByLayer Pool.healthy
    rw [if_neg hlen, scannerIDsLoop_healthy _ db scnrs hreg 0 [], List.nil_append]
    simp only [poolQuery_healthy]
  obtain ⟨rows1, hrows1, hall1⟩ := leftJoin_filter_of_key db.package_scanartifact db.package
    (fun l => l.package_id) (fun r => r.id) hint.1 (fun l hl => (hint.2 l hl).1)
    (fun _ => true)
  rw [List.filter_true] at hrows1
  have hall1 : List.Forall₂ (fun (l : PackageScanArtifactRow)
      (row : PackageScanArtifactRow × Option PackageRow) =>
      ∃ r ∈ db.package, r.id = l.package_id ∧ row = (l, some r))
      db.package_scanartifact rows1 := by
    have := hall1
    rwa [List.filter_true] at this
  have hfk2 : ∀ x ∈ rows1, ∃ r ∈ db.package, r.id = x.1.source_id := by
    intro x hx
    have hx1 : x.1 ∈ db.package_scanartifact := by
      rw [← hrows1] at hx
      exact mem_leftJoin_fst _ _ _ x hx
    exact (hint.2 x.1 hx1).2
  obtain ⟨rows2, hrows2, hall2⟩ := leftJoin_filter_of_key rows1 db.package
    (fun (lp : PackageScanArtifactRow × Option PackageRow) => lp.1.source_id)
    (fun r => r.id) hint.1 hfk2
    (fun lp => decide (lp.1.layer_hash = hash ∧ lp.1.scanner_id ∈ resolvedIDs db scnrs))
  have hq : packageQuery db hash (resolvedIDs db scnrs) = rows2 := by
    unfold packageQuery
    rw [hrows1]
    exact hrows2
  have hsel := forall₂_filter
    (fun (l : PackageScanArtifactRow) =>
      decide (l.layer_hash = hash ∧ l.scanner_id ∈ resolvedIDs db scnrs))
    (fun (lp : PackageScanArtifactRow × Option PackageRow) =>
      decide (lp.1.layer_hash = hash ∧ lp.1.scanner_id ∈ resolvedIDs db scnrs))
    (fun l row h => by obtain ⟨r, _, _, hrow⟩ := h; rw [hrow]) hall1
  have hlinks := forall₂_comp hsel hall2
  refine ⟨rows2, by rw [hcall, hq], hlinks.imp ?_⟩
  rintro l row ⟨lp, ⟨r, hr, hrk, hlp⟩, sr, hsr, hsrk, hrow⟩
  subst hlp
  subst hrow
  exact ⟨r, hr, sr, hsr, hrk, hsrk, rfl⟩

/-- Claim C6, amended, artifacts by layer: over a healthy connection and a
store that satisfies its schema (artifact ids are keys, linking rows refer to
artifact rows), for every layer digest and every non-empty list of registered
scanners,
* when the stored version of every selected package that is read back has at
  most ten components, `packagesByLayer` returns, with no error, one entry per
  row of `package_scanartifact` whose `layer_hash` is the digest and whose
  `scanner_id` is one of the resolved scanner ids, in the order of the relation,
  each entry carrying the id (its `ID` is the decimal string that reads back as
  the id) and the fields of the package row the link refers to;
* when some selected package that is read back has more than ten stored
  components, `packagesByLayer` panics and returns nothing;
* `distributionsByLayer` and `repositoriesByLayer` return, with no error, one
  entry per selected row of their linking relation, each carrying the id and
  the fields of the artifact row the link refers to.
Linking rows of another layer or of a scanner outside the list contribute
nothing. -/
theorem byLayer_exactly_linked (db : DB) (hash : Digest) (scnrs : List VersionedScanner)
    (hne : scnrs ≠ []) (hreg : ∀ s ∈ scnrs, Registered db s)
    (hpkg : db.packageIntegrity) (hdist : db.distIntegrity) (hrepo : db.repoIntegrity) :
    (db.linkedVersionsFit hash (resolvedIDs db scnrs) →
      ∃ res, (packagesByLayer (Pool.healthy db) hash scnrs).1 = .ret (some res, none) ∧
        List.Forall₂ (fun (l : PackageScanArtifactRow) (pkg : Package) =>
            ∃ r ∈ db.package, r.id = l.package_id ∧
              pkg.ID = formatInt r.id ∧ pkg.ID.toInt? = some r.id ∧
              pkg.Name = r.name ∧ pkg.Kind = r.kind ∧
              pkg.Version = r.version ∧ pkg.Module = r.module ∧ pkg.Arch = r.arch)
          (db.package_scanartifact.filter
            (fun l => l.layer_hash = hash ∧ l.scanner_id ∈ resolvedIDs db scnrs)) res) ∧
    (¬ db.linkedVersionsFit hash (resolvedIDs db scnrs) →
      ∃ msg, (packagesByLayer (Pool.healthy db) hash scnrs).1 = .panic msg) ∧
    (∃ res, (distributionsByLayer (Pool.healthy db) hash scnrs).1 = (some res, none) ∧
        List.Forall₂ (fun (l : DistScanArtifactRow) (x : Distribution) =>
            ∃ r ∈ db.dist, r.id = l.dist_id ∧ x.ID.toInt? = some r.id ∧
              x = { ID := formatInt r.id, Name := r.name, DID := r.did, Version := r.version,
                    VersionCodeName := r.version_code_name, VersionID := r.version_id,
                    Arch := r.arch, CPE := r.cpe, PrettyName := r.pretty_name })
          (db.dist_scanartifact.filter
            (fun l => l.layer_hash = hash ∧ l.scanner_id ∈ resolvedIDs db scnrs)) res) ∧
    (∃ res, (repositoriesByLayer (Pool.healthy db) hash scnrs).1 = (some res, none) ∧
        List.Forall₂ (fun (l : RepoScanArtifactRow) (x : Repository) =>
            ∃ r ∈ db.repo, r.id = l.repo_id ∧ x.ID.toInt? = some r.id ∧
              x = { ID := formatInt r.id, Name := r.name, Key := r.key, URI := r.uri })
          (db.repo_scanartifact.filter
            (fun l => l.layer_hash = hash ∧ l.scanner_id ∈ resolvedIDs db scnrs)) res) := by
  obtain ⟨rows, hrows, hall⟩ := packagesByLayer_rows db hash scnrs hne hreg hpkg
  refine ⟨?_, ?_, ?_, ?_⟩
  · intro hfit
    have hfit1 : ∀ l ∈ db.package_scanartifact.filter
        (fun l => l.layer_hash = hash ∧ l.scanner_id ∈ resolvedIDs db scnrs),
        ∀ r ∈ db.package, r.id = l.package_id → r.norm_kind ≠ none →
          (r.norm_version.getD []).length ≤ 10 := by
      intro l hl
      rw [List.mem_filter, decide_eq_true_eq] at hl
      exact hfit l hl.1 hl.2.1 hl.2.2
    obtain ⟨res, hres, hfinal⟩ := forall₂_chain _
      (fun row pkg => scanPackage row = some (.ret pkg))
      (fun l row h => by
        obtain ⟨hl, r, hr, sr, _, hrk, _, hrow⟩ := h
        rw [hrow]
        exact scanPackage_ret l r sr (hfit1 l hl r hr hrk)) (forall₂_mem_left hall)
    refine ⟨res, by rw [hrows, packageRows_ok rows [] res hres, List.nil_append], ?_⟩
    refine hfinal.imp ?_
    rintro l pkg ⟨row, ⟨hl, r, hr, sr, _, hrk, _, hrow⟩, hscan⟩
    subst hrow
    obtain ⟨⟨a1, a2, a3, a4, a5, a6, _, _⟩, _⟩ :=
      scanPackage_spec l r sr pkg (hfit1 l hl r hr hrk) hscan
    exact ⟨r, hr, hrk, a1, by rw [a1]; exact formatInt_toInt r.id, a2, a3, a4, a5, a6⟩
  · intro hnfit
    unfold DB.linkedVersionsFit at hnfit
    push_neg at hnfit
    obtain ⟨l, hl, hh, hs, r, hr, hrk, hnk, hlong⟩ := hnfit
    have hmem : l ∈ db.package_scanartifact.filter
        (fun l => l.layer_hash = hash ∧ l.scanner_id ∈ resolvedIDs db scnrs) := by
      rw [List.mem_filter, decide_eq_true_eq]
      exact ⟨hl, hh, hs⟩
    obtain ⟨row, hrow, r1, hr1, sr, _, hrk1, _, hrow1⟩ := forall₂_exists_right hall l hmem
    have hsame : r1 = r :=
      List.inj_on_of_nodup_map hpkg.1 hr1 hr (by rw [hrk1, hrk])
    subst hsame
    rw [hrows]
    apply packageRows_panic rows []
    · intro x hx
      obtain ⟨l2, _, r2, _, sr2, _, _, _, hx2⟩ := forall₂_exists_left hall x hx
      rw [hx2]
      exact scanPackage_ne_none l2 r2 sr2
    · exact ⟨row, hrow, _, by rw [hrow1]; exact scanPackage_panic l r1 sr hnk hlong⟩
  · obtain ⟨res, h1, h2⟩ := distributionsByLayer_healthy db hash scnrs hne hreg hdist
    refine ⟨res, h1, h2.imp ?_⟩
    rintro l x ⟨r, hr, hrk, hscan⟩
    simp only [scanDist, Option.some.injEq] at hscan
    subst hscan
    exact ⟨r, hr, hrk, formatInt_toInt r.id, rfl⟩
  · obtain ⟨res, h1, h2⟩ := repositoriesByLayer_healthy db hash scnrs hne hreg hrepo
    refine ⟨res, h1, h2.imp ?_⟩
    rintro l x ⟨r, hr, hrk, hscan⟩
    simp only [scanRepo, Option.some.injEq] at hscan
    subst hscan
    exact ⟨r, hr, hrk, formatInt_toInt r.id, rfl⟩

/-- Witness of claim C6: the example store with scanner A and the first example
layer; of the three linking rows of each relation only those of that layer and
of scanner A are selected, and the stored version of the selected package has
three components. -/
theorem byLayer_exactly_linked_witness :
    (([exScannerA] ≠ [] ∧ (∀ s ∈ [exScannerA], Registered exArtifactDB s) ∧
      exArtifactDB.packageIntegrity ∧ exArtifactDB.distIntegrity ∧
      exArtifactDB.repoIntegrity) ∧
     exArtifactDB.linkedVersionsFit exDigest (resolvedIDs exArtifactDB [exScannerA]) ∧
     (exArtifactDB.dist_scanartifact.filter
        (fun l => l.layer_hash = exDigest ∧
          l.scanner_id ∈ resolvedIDs exArtifactDB [exScannerA])).length = 1) ∧
    ((exArtifactDB.linkedVersionsFit exDigest (resolvedIDs exArtifactDB [exScannerA]) →
      ∃ res, (packagesByLayer (Pool.healthy exArtifactDB) exDigest [exScannerA]).1 = .ret (some res, none) ∧
        List.Forall₂ (fun (l : PackageScanArtifactRow) (pkg : Package) =>
            ∃ r ∈ exArtifactDB.package, r.id = l.package_id ∧
              pkg.ID = formatInt r.id ∧ pkg.ID.toInt? = some r.id ∧
              pkg.Name = r.name ∧ pkg.Kind = r.kind ∧
              pkg.Version = r.version ∧ pkg.Module = r.module ∧ pkg.Arch = r.arch)
          (exArtifactDB.package_scanartifact.filter
            (fun l => l.layer_hash = exDigest ∧ l.scanner_id ∈ resolvedIDs exArtifactDB [exScannerA])) res) ∧
    (¬ exArtifactDB.linkedVersionsFit exDigest (resolvedIDs exArtifactDB [exScannerA]) →
      ∃ msg, (packagesByLayer (Pool.healthy exArtifactDB) exDigest [exScannerA]).1 = .panic msg) ∧
    (∃ res, (distributionsByLayer (Pool.healthy exArtifactDB) exDigest [exScannerA]).1 = (some res, none) ∧
        List.Forall₂ (fun (l : DistScanArtifactRow) (x : Distribution) =>
            ∃ r ∈ exArtifactDB.dist, r.id = l.dist_id ∧ x.ID.toInt? = some r.id ∧
              x = { ID := formatInt r.id, Name := r.name, DID := r.did, Version := r.version,
                    VersionCodeName := r.version_code_name, VersionID := r.version_id,
                    Arch := r.arch, CPE := r.cpe, PrettyName := r.pretty_name })
          (exArtifactDB.dist_scanartifact.filter
            (fun l => l.layer_hash = exDigest ∧ l.scanner_id ∈ resolvedIDs exArtifactDB [exScannerA])) res) ∧
    (∃ res, (repositoriesByLayer (Pool.healthy exArtifactDB) exDigest [exScannerA]).1 = (some res, none) ∧
        List.Forall₂ (fun (l : RepoScanArtifactRow) (x : Repository) =>
            ∃ r ∈ exArtifactDB.repo, r.id = l.repo_id ∧ x.ID.toInt? = some r.id ∧
              x = { ID := formatInt r.id, Name := r.name, Key := r.key, URI := r.uri })
          (exArtifactDB.repo_scanartifact.filter
            (fun l => l.layer_hash = exDigest ∧ l.scanner_id ∈ resolvedIDs exArtifactDB [exScannerA])) res)) :=
  ⟨⟨⟨by decide, by decide, by decide, by decide, by decide⟩, by decide, by decide⟩,
   byLayer_exactly_linked exArtifactDB exDigest [exScannerA] (by decide) (by decide)
     (by decide) (by decide) (by decide)⟩

/-- Counterexample to claim C6: scanner A is registered and the store
satisfies its schema, one row of `package_scanartifact` links package 10 to the
layer for scanner A, and the stored version of package 10 has eleven components;
`packagesByLayer` panics in its version loop and returns no list of packages. -/
theorem byLayer_long_version_counterexample :
    ([exScannerA] ≠ [] ∧ (∀ s ∈ [exScannerA], Registered exLongVersionDB s) ∧
      exLongVersionDB.packageIntegrity ∧ exLongVersionDB.distIntegrity ∧
      exLongVersionDB.repoIntegrity) ∧
    (exLongVersionDB.package_scanartifact.filter
        (fun l => l.layer_hash = exDigest ∧
          l.scanner_id ∈ resolvedIDs exLongVersionDB [exScannerA])).length = 1 ∧
    (packagesByLayer (Pool.healthy exLongVersionDB) exDigest [exScannerA]).1 =
      .panic "index out of range" ∧
    ¬ ∃ res err, (packagesByLayer (Pool.healthy exLongVersionDB) exDigest [exScannerA]).1 =
      .ret (res, err) := by
  have hp : (packagesByLayer (Pool.healthy exLongVersionDB) exDigest [exScannerA]).1 =
      .panic "index out of range" := rfl
  refine ⟨⟨by decide, by decide, by decide, by decide, by decide⟩, by decide, hp, ?_⟩
  rintro ⟨res, err, h⟩
  rw [hp] at h
  cases h

end Claircore
